import Mathlib

/-!
Verification of the schema-compatibility and response-normalization core of
the `simpleai` provider-agnostic prompt execution layer.

The development shallowly embeds the Python sources:

* `simpleai/schema.py`   — provider-safe JSON schema transforms
* `simpleai/utils.py`    — candidate-JSON extraction from model output
* `simpleai/adapters/*.py` — provider payload construction and citation
  extraction
* `simpleai/adapters/logging_adapter.py` — header sanitization

JSON values / Python objects are modelled by the inductive type `Json`
below.  Python dicts preserve insertion order and have unique keys, so they
are modelled as ordered association lists; theorems that quantify over
dicts coming from Python carry a `Nodup` hypothesis on the key list where
the uniqueness matters.
-/

namespace Simpleai

/-- JSON-like values as manipulated by the Python code: `null`, booleans,
numbers (the schemas under verification only contain integers), strings,
lists, and ordered dicts. -/
inductive Json where
  | null : Json
  | bool (b : Bool) : Json
  | num (n : Int) : Json
  | str (s : String) : Json
  | arr (items : List Json) : Json
  | obj (fields : List (String × Json)) : Json
deriving Repr

mutual

/-- Structural decidable equality on `Json` (spelled out because automatic
deriving does not handle the nested `List` occurrences). -/
def Json.decEq : (a b : Json) → Decidable (a = b)
  | .null, .null => isTrue rfl
  | .null, .bool _ => isFalse (fun h => Json.noConfusion h)
  | .null, .num _ => isFalse (fun h => Json.noConfusion h)
  | .null, .str _ => isFalse (fun h => Json.noConfusion h)
  | .null, .arr _ => isFalse (fun h => Json.noConfusion h)
  | .null, .obj _ => isFalse (fun h => Json.noConfusion h)
  | .bool _, .null => isFalse (fun h => Json.noConfusion h)
  | .bool a, .bool b =>
      if h : a = b then isTrue (by rw [h])
      else isFalse (fun hh => h (by injection hh))
  | .bool _, .num _ => isFalse (fun h => Json.noConfusion h)
  | .bool _, .str _ => isFalse (fun h => Json.noConfusion h)
  | .bool _, .arr _ => isFalse (fun h => Json.noConfusion h)
  | .bool _, .obj _ => isFalse (fun h => Json.noConfusion h)
  | .num _, .null => isFalse (fun h => Json.noConfusion h)
  | .num _, .bool _ => isFalse (fun h => Json.noConfusion h)
  | .num a, .num b =>
      if h : a = b then isTrue (by rw [h])
      else isFalse (fun hh => h (by injection hh))
  | .num _, .str _ => isFalse (fun h => Json.noConfusion h)
  | .num _, .arr _ => isFalse (fun h => Json.noConfusion h)
  | .num _, .obj _ => isFalse (fun h => Json.noConfusion h)
  | .str _, .null => isFalse (fun h => Json.noConfusion h)
  | .str _, .bool _ => isFalse (fun h => Json.noConfusion h)
  | .str _, .num _ => isFalse (fun h => Json.noConfusion h)
  | .str a, .str b =>
      if h : a = b then isTrue (by rw [h])
      else isFalse (fun hh => h (by injection hh))
  | .str _, .arr _ => isFalse (fun h => Json.noConfusion h)
  | .str _, .obj _ => isFalse (fun h => Json.noConfusion h)
  | .arr _, .null => isFalse (fun h => Json.noConfusion h)
  | .arr _, .bool _ => isFalse (fun h => Json.noConfusion h)
  | .arr _, .num _ => isFalse (fun h => Json.noConfusion h)
  | .arr _, .str _ => isFalse (fun h => Json.noConfusion h)
  | .arr a, .arr b =>
      match Json.decEqList a b with
      | isTrue h => isTrue (by rw [h])
      | isFalse h => isFalse (fun hh => h (by injection hh))
  | .arr _, .obj _ => isFalse (fun h => Json.noConfusion h)
  | .obj _, .null => isFalse (fun h => Json.noConfusion h)
  | .obj _, .bool _ => isFalse (fun h => Json.noConfusion h)
  | .obj _, .num _ => isFalse (fun h => Json.noConfusion h)
  | .obj _, .str _ => isFalse (fun h => Json.noConfusion h)
  | .obj _, .arr _ => isFalse (fun h => Json.noConfusion h)
  | .obj a, .obj b =>
      match Json.decEqFields a b with
      | isTrue h => isTrue (by rw [h])
      | isFalse h => isFalse (fun hh => h (by injection hh))

/-- Decidable equality on lists of `Json` values. -/
def Json.decEqList : (a b : List Json) → Decidable (a = b)
  | [], [] => isTrue rfl
  | [], _ :: _ => isFalse (fun h => List.noConfusion h)
  | _ :: _, [] => isFalse (fun h => List.noConfusion h)
  | x :: xs, y :: ys =>
      match Json.decEq x y with
      | isFalse h => isFalse (fun hh => h (by injection hh))
      | isTrue h1 =>
          match Json.decEqList xs ys with
          | isTrue h2 => isTrue (by rw [h1, h2])
          | isFalse h2 => isFalse (fun hh => h2 (by injection hh))

/-- Decidable equality on `Json` association lists. -/
def Json.decEqFields : (a b : List (String × Json)) → Decidable (a = b)
  | [], [] => isTrue rfl
  | [], _ :: _ => isFalse (fun h => List.noConfusion h)
  | _ :: _, [] => isFalse (fun h => List.noConfusion h)
  | (k1, v1) :: xs, (k2, v2) :: ys =>
      if hk : k1 = k2 then
          match Json.decEq v1 v2 with
          | isFalse h =>
              isFalse (fun hh => by
                injection hh with h1 h2
                exact h (congrArg Prod.snd h1))
          | isTrue hv =>
              match Json.decEqFields xs ys with
              | isTrue h2 => isTrue (by rw [hk, hv, h2])
              | isFalse h2 => isFalse (fun hh => h2 (by injection hh))
      else
        isFalse (fun hh => by
          injection hh with h1 h2
          exact hk (congrArg Prod.fst h1))

end

instance : DecidableEq Json := Json.decEq

/-- Python `d.get(k)` on an ordered dict: the binding of `k` (first
occurrence; real Python dicts have unique keys). -/
def lookupJ (fields : List (String × Json)) (k : String) : Option Json :=
  match fields with
  | [] => none
  | (k', v) :: rest => if k' = k then some v else lookupJ rest k

/-- Python `d[k] = v`: replace the value in place if the key exists
(insertion order preserved), otherwise append the new binding at the end. -/
def setKey (fields : List (String × Json)) (k : String) (v : Json) :
    List (String × Json) :=
  match fields with
  | [] => [(k, v)]
  | (k', v') :: rest =>
      if k' = k then (k', v) :: rest else (k', v') :: setKey rest k v

/-- Python `d.pop(k, None)`: remove the binding of `k` if present. -/
def popKey (fields : List (String × Json)) (k : String) :
    List (String × Json) :=
  match fields with
  | [] => []
  | (k', v') :: rest =>
      if k' = k then rest else (k', v') :: popKey rest k

/-- Python `k in d`. -/
def hasKeyJ (fields : List (String × Json)) (k : String) : Bool :=
  (lookupJ fields k).isSome

/-- Python dict-merge: the entries of `rest` written over `init` one by
one, as in a dict literal `{..init, **rest}` or `init.update(rest)`. -/
def dictMerge (init rest : List (String × Json)) : List (String × Json) :=
  rest.foldl (fun acc kv => setKey acc kv.1 kv.2) init

/-- Lookup of a key directly on a `Json` value (none on non-dicts). -/
def jsonLookup (j : Json) (k : String) : Option Json :=
  match j with
  | .obj fields => lookupJ fields k
  | _ => none

theorem lookupJ_setKey_self (fields : List (String × Json)) (k : String)
    (v : Json) : lookupJ (setKey fields k v) k = some v := by
  induction fields with
  | nil => simp [setKey, lookupJ]
  | cons hd tl ih =>
      obtain ⟨k', v'⟩ := hd
      by_cases h : k' = k
      · simp [setKey, lookupJ, h]
      · simp [setKey, lookupJ, h, ih]

theorem lookupJ_setKey_ne (fields : List (String × Json)) (k k' : String)
    (v : Json) (h : k' ≠ k) :
    lookupJ (setKey fields k v) k' = lookupJ fields k' := by
  have h2 : ¬ (k = k') := fun hh => h hh.symm
  induction fields with
  | nil => simp [setKey, lookupJ, h2]
  | cons hd tl ih =>
      obtain ⟨k₀, v₀⟩ := hd
      by_cases h0 : k₀ = k
      · subst h0
        simp [setKey, lookupJ, h2, ih]
      · simp [setKey, lookupJ, h0, ih]

theorem lookupJ_popKey_ne (fields : List (String × Json)) (k k' : String)
    (h : k' ≠ k) : lookupJ (popKey fields k) k' = lookupJ fields k' := by
  have h2 : ¬ (k = k') := fun hh => h hh.symm
  induction fields with
  | nil => simp [popKey]
  | cons hd tl ih =>
      obtain ⟨k₀, v₀⟩ := hd
      by_cases h0 : k₀ = k
      · subst h0
        simp [popKey, lookupJ, h2, ih]
      · simp [popKey, lookupJ, h0, ih]

/-- Keys not bound in an association list are not found. -/
theorem lookupJ_eq_none_of_not_mem (fields : List (String × Json))
    (k : String) (h : k ∉ fields.map Prod.fst) : lookupJ fields k = none := by
  induction fields with
  | nil => rfl
  | cons hd tl ih =>
      obtain ⟨k₀, v₀⟩ := hd
      simp only [List.map_cons, List.mem_cons] at h
      push_neg at h
      have h1 : ¬ (k₀ = k) := fun hh => h.1 hh.symm
      simp [lookupJ, h1, ih h.2]

/-- On a dict with unique keys, popping a key really removes it. -/
theorem lookupJ_popKey_self (fields : List (String × Json)) (k : String)
    (hnd : (fields.map Prod.fst).Nodup) :
    lookupJ (popKey fields k) k = none := by
  induction fields with
  | nil => rfl
  | cons hd tl ih =>
      obtain ⟨k₀, v₀⟩ := hd
      simp only [List.map_cons, List.nodup_cons] at hnd
      by_cases h0 : k₀ = k
      · subst h0
        simp only [popKey, if_pos rfl]
        exact lookupJ_eq_none_of_not_mem tl k₀ hnd.1
      · simp [popKey, lookupJ, h0, ih hnd.2]

theorem lookupJ_dictMerge_not_mem (init rest : List (String × Json))
    (k : String) (h : k ∉ rest.map Prod.fst) :
    lookupJ (dictMerge init rest) k = lookupJ init k := by
  induction rest generalizing init with
  | nil => rfl
  | cons hd tl ih =>
      obtain ⟨k₀, v₀⟩ := hd
      simp only [List.map_cons, List.mem_cons] at h
      push_neg at h
      show lookupJ (dictMerge (setKey init k₀ v₀) tl) k = lookupJ init k
      rw [ih _ h.2, lookupJ_setKey_ne init k₀ k v₀ h.1]

/-! ## schema.py: the `_make_nullable` decision table -/

/-- The null-type alternative appended by `_make_nullable`. -/
def nullTypeNode : Json := .obj [("type", .str "null")]

/-- Python `any(isinstance(item, dict) and item.get("type") == "null" for
item in items)`: is a null-typed alternative already present? -/
def hasNullBranch (items : List Json) : Bool :=
  items.any fun item =>
    match item with
    | .obj fields => lookupJ fields "type" == some (.str "null")
    | _ => false

/-- Python `isinstance(node_type, list) and "null" in node_type`. -/
def typeListHasNull : Option Json → Bool
  | some (.arr ts) => ts.contains (.str "null")
  | _ => false

/-- Translation of `_make_nullable` from `simpleai/schema.py` (`deepcopy`
is the identity in value semantics).  The function is only called on dicts
(the call site checks `isinstance(..., dict)`); non-dict values are
returned unchanged here.  In the single-type and type-list branches the
Python dict literal with a trailing `**new_node` lets keys of `new_node`
override the literal `anyOf` key, which `dictMerge` reproduces. -/
def make_nullable (schema : Json) : Json :=
  match schema with
  | .obj fields =>
      -- Already nullable.
      if lookupJ fields "type" = some (.str "null") then .obj fields
      else if typeListHasNull (lookupJ fields "type") then .obj fields
      else
        match lookupJ fields "anyOf" with
        | some (.arr any_of) =>
            if hasNullBranch any_of then .obj fields
            else .obj (setKey fields "anyOf" (.arr (any_of ++ [nullTypeNode])))
        | _ =>
          match lookupJ fields "oneOf" with
          | some (.arr one_of) =>
              if hasNullBranch one_of then .obj fields
              else
                -- Prefer anyOf once nullability is introduced.
                .obj (popKey
                  (setKey fields "anyOf" (.arr (one_of ++ [nullTypeNode])))
                  "oneOf")
          | _ =>
            match lookupJ fields "type" with
            | some (.str t) =>
                .obj (dictMerge
                  [("anyOf", .arr [.obj [("type", .str t)], nullTypeNode])]
                  (popKey fields "type"))
            | some (.arr ts) =>
                .obj (dictMerge
                  [("anyOf", .arr ((ts.filter (fun t => t != .str "null")).map
                      (fun t => Json.obj [("type", t)]) ++ [nullTypeNode]))]
                  (popKey fields "type"))
            -- No explicit type/union: wrap in anyOf.
            | _ => .obj [("anyOf", .arr [.obj fields, nullTypeNode])]
  | j => j

example : make_nullable (.obj [("type", .str "string")]) =
    .obj [("anyOf", .arr [.obj [("type", .str "string")], nullTypeNode])] := by
  decide

example : make_nullable (.obj [("type", .str "integer"), ("title", .str "B")]) =
    .obj [("anyOf", .arr [.obj [("type", .str "integer")], nullTypeNode]),
          ("title", .str "B")] := by
  decide

example : make_nullable (.obj [("anyOf", .arr [.obj [("type", .str "integer")]])]) =
    .obj [("anyOf", .arr [.obj [("type", .str "integer")], nullTypeNode])] := by
  decide

/-- A key looks up to `none` exactly when it is unbound. -/
theorem lookupJ_eq_none_iff (fields : List (String × Json)) (k : String) :
    lookupJ fields k = none ↔ k ∉ fields.map Prod.fst := by
  induction fields with
  | nil => simp [lookupJ]
  | cons hd tl ih =>
      obtain ⟨k₀, v₀⟩ := hd
      by_cases h : k₀ = k
      · subst h
        simp [lookupJ]
      · have h1 : ¬ (k = k₀) := fun hh => h hh.symm
        simp [lookupJ, h, h1, ih]

/-- Popping one key never makes another key appear. -/
theorem lookupJ_popKey_of_none (fields : List (String × Json)) (k k' : String)
    (h : lookupJ fields k' = none) : lookupJ (popKey fields k) k' = none := by
  induction fields with
  | nil => rfl
  | cons hd tl ih =>
      obtain ⟨k₀, v₀⟩ := hd
      by_cases h0 : k₀ = k
      · subst h0
        simp only [lookupJ] at h
        split at h
        · exact absurd h (by simp)
        · simpa [popKey] using h
      · simp only [lookupJ] at h
        split at h
        · exact absurd h (by simp)
        · simp only [popKey, if_neg h0, lookupJ]
          split
          · next heq => exact absurd heq (by assumption)
          · exact ih h

/-- Setting an absent key appends it at the end of the dict. -/
theorem setKey_keys_of_none (fields : List (String × Json)) (k : String)
    (v : Json) (h : lookupJ fields k = none) :
    (setKey fields k v).map Prod.fst = fields.map Prod.fst ++ [k] := by
  induction fields with
  | nil => simp [setKey]
  | cons hd tl ih =>
      obtain ⟨k₀, v₀⟩ := hd
      simp only [lookupJ] at h
      split at h
      · exact absurd h (by simp)
      · next h0 => simp [setKey, h0, ih h]

/-- CLAIM C4 (counterexample).  The claim states that any node with no
`anyOf` and a `oneOf` list always has `oneOf` replaced by an `anyOf` with a
null alternative appended.  On the node with a single null-typed `oneOf`
member — which satisfies every hypothesis of the claim — `_make_nullable`
returns the node unchanged: `oneOf` survives and no `anyOf` is created. -/
theorem make_nullable_oneOf_claim_cex :
    (jsonLookup (Json.obj [("oneOf", .arr [nullTypeNode])]) "type" = none ∧
     jsonLookup (Json.obj [("oneOf", .arr [nullTypeNode])]) "anyOf" = none ∧
     jsonLookup (Json.obj [("oneOf", .arr [nullTypeNode])]) "oneOf" =
       some (.arr [nullTypeNode])) ∧
    ¬ (jsonLookup (make_nullable (.obj [("oneOf", .arr [nullTypeNode])]))
         "oneOf" = none ∧
       jsonLookup (make_nullable (.obj [("oneOf", .arr [nullTypeNode])]))
         "anyOf" = some (.arr ([nullTypeNode] ++ [nullTypeNode]))) := by
  decide

/-- CLAIM C4 (amended).  For every schema dict (unique keys) that is not
null-typed, has no `anyOf` key, and has a `oneOf` list **none of whose
members is already null-typed**, `_make_nullable` removes `oneOf` and sets
`anyOf` to the original `oneOf` members followed by the null-type
alternative. -/
theorem make_nullable_oneOf_amended (fields : List (String × Json))
    (L : List Json) (hnd : (fields.map Prod.fst).Nodup)
    (hty : lookupJ fields "type" ≠ some (.str "null"))
    (htyl : typeListHasNull (lookupJ fields "type") = false)
    (hany : lookupJ fields "anyOf" = none)
    (hone : lookupJ fields "oneOf" = some (.arr L))
    (hnull : hasNullBranch L = false) :
    jsonLookup (make_nullable (.obj fields)) "oneOf" = none ∧
    jsonLookup (make_nullable (.obj fields)) "anyOf" =
      some (.arr (L ++ [nullTypeNode])) := by
  have hres : make_nullable (.obj fields) =
      .obj (popKey
        (setKey fields "anyOf" (.arr (L ++ [nullTypeNode]))) "oneOf") := by
    simp [make_nullable, hany, hone, hty, htyl, hnull]
  rw [hres]
  constructor
  · show lookupJ (popKey (setKey fields "anyOf" _) "oneOf") "oneOf" = none
    apply lookupJ_popKey_self
    rw [setKey_keys_of_none fields "anyOf" _ hany]
    simp only [List.nodup_append, List.nodup_cons]
    refine ⟨hnd, by simp, ?_⟩
    intro a ha hb
    simp only [List.mem_singleton] at hb
    subst hb
    exact absurd ((lookupJ_eq_none_iff fields "anyOf").mp hany) (by simp [ha])
  · show lookupJ (popKey (setKey fields "anyOf" _) "oneOf") "anyOf" = _
    rw [lookupJ_popKey_ne _ _ _ (by decide), lookupJ_setKey_self]

/-- Witness for the amended C4 theorem at a concrete node with one
string-typed `oneOf` member. -/
theorem make_nullable_oneOf_amended_witness :
    jsonLookup (make_nullable
      (.obj [("oneOf", .arr [.obj [("type", .str "string")]])])) "oneOf" =
      none ∧
    jsonLookup (make_nullable
      (.obj [("oneOf", .arr [.obj [("type", .str "string")]])])) "anyOf" =
      some (.arr ([.obj [("type", .str "string")]] ++ [nullTypeNode])) :=
  make_nullable_oneOf_amended
    [("oneOf", .arr [.obj [("type", .str "string")]])]
    [.obj [("type", .str "string")]]
    (by decide) (by decide) (by decide) (by decide) (by decide) (by decide)

/-- A dict whose `anyOf` key, when present, is bound to a list (every
well-formed schema node satisfies this). -/
def anyOfListOrAbsent (j : Json) : Bool :=
  match j with
  | .obj fields =>
      match lookupJ fields "anyOf" with
      | none => true
      | some (.arr _) => true
      | _ => false
  | _ => true

/-- The top-level keys of a dict are distinct (true of every real Python
dict; trivially true of non-dicts). -/
def dictKeysNodup (j : Json) : Bool :=
  match j with
  | .obj fields => decide (fields.map Prod.fst).Nodup
  | _ => true

/-- Appending the null-type alternative always leaves a null branch. -/
theorem hasNullBranch_append_null (L : List Json) :
    hasNullBranch (L ++ [nullTypeNode]) = true := by
  simp [hasNullBranch, List.any_append, nullTypeNode, lookupJ]

/-- A node that is not null-typed and already carries an `anyOf` list with
a null branch is a fixed point of `_make_nullable`. -/
theorem make_nullable_fixed_of_anyOf_null (fields : List (String × Json))
    (L : List Json)
    (h1 : lookupJ fields "type" ≠ some (.str "null"))
    (h2 : typeListHasNull (lookupJ fields "type") = false)
    (h3 : lookupJ fields "anyOf" = some (.arr L))
    (h4 : hasNullBranch L = true) :
    make_nullable (.obj fields) = .obj fields := by
  simp [make_nullable, h1, h2, h3, h4]

/-- The full wrap produced for nodes with no usable type, `anyOf` or
`oneOf` is a fixed point of `_make_nullable`. -/
theorem make_nullable_wrap_fixed (fields : List (String × Json)) :
    make_nullable (.obj [("anyOf", .arr [.obj fields, nullTypeNode])]) =
    .obj [("anyOf", .arr [.obj fields, nullTypeNode])] := by
  apply make_nullable_fixed_of_anyOf_null _ [.obj fields, nullTypeNode]
  · simp [lookupJ]
  · simp [lookupJ, typeListHasNull]
  · simp [lookupJ]
  · exact hasNullBranch_append_null [.obj fields]

/-- The dict built by the single-type / type-list branches (an `anyOf`
list with a null branch merged over the remaining keys) is a fixed point
of `_make_nullable` whenever the remaining keys contain neither `type` nor
`anyOf`. -/
theorem make_nullable_merge_fixed (rest : List (String × Json))
    (L : List Json) (hrt : lookupJ rest "type" = none)
    (hra : lookupJ rest "anyOf" = none) (hnb : hasNullBranch L = true) :
    make_nullable (.obj (dictMerge [("anyOf", .arr L)] rest)) =
    .obj (dictMerge [("anyOf", .arr L)] rest) := by
  apply make_nullable_fixed_of_anyOf_null _ L
  · rw [lookupJ_dictMerge_not_mem _ _ _ ((lookupJ_eq_none_iff _ _).mp hrt)]
    simp [lookupJ]
  · rw [lookupJ_dictMerge_not_mem _ _ _ ((lookupJ_eq_none_iff _ _).mp hrt)]
    simp [lookupJ, typeListHasNull]
  · rw [lookupJ_dictMerge_not_mem _ _ _ ((lookupJ_eq_none_iff _ _).mp hra)]
    simp [lookupJ]
  · exact hnb

/-- CLAIM C5 (counterexample).  Idempotence fails on the (malformed) node
with a string type and a non-list `anyOf`: the first application drops the
type and keeps the stray `anyOf` value via the `**new_node` override, and
the second application then wraps the node a second time. -/
theorem make_nullable_idem_cex :
    make_nullable (make_nullable
        (.obj [("type", .str "string"), ("anyOf", .num 5)])) ≠
    make_nullable (.obj [("type", .str "string"), ("anyOf", .num 5)]) := by
  decide

/-- CLAIM C5 (amended).  On every schema node whose `anyOf` key, if
present, is bound to a list — in particular on every well-formed schema
node — `_make_nullable` is idempotent: a second application returns its
argument unchanged (no duplicate null branch is introduced). -/
theorem make_nullable_idem (j : Json) (hnd : dictKeysNodup j = true)
    (hany : anyOfListOrAbsent j = true) :
    make_nullable (make_nullable j) = make_nullable j := by
  match j with
  | .null => rfl
  | .bool _ => rfl
  | .num _ => rfl
  | .str _ => rfl
  | .arr _ => rfl
  | .obj fields =>
    have hnd' : (fields.map Prod.fst).Nodup := by
      simpa [dictKeysNodup] using hnd
    by_cases h1 : lookupJ fields "type" = some (.str "null")
    · have e : make_nullable (.obj fields) = .obj fields := by
        simp [make_nullable, h1]
      rw [e]
      exact e
    by_cases h2 : typeListHasNull (lookupJ fields "type") = true
    · have e : make_nullable (.obj fields) = .obj fields := by
        simp [make_nullable, h1, h2]
      rw [e]
      exact e
    rw [Bool.not_eq_true] at h2
    rcases hA : lookupJ fields "anyOf" with _ | vA
    · -- anyOf absent: either the oneOf-list branch or the type region.
      by_cases hOarr : ∃ L, lookupJ fields "oneOf" = some (.arr L)
      · obtain ⟨L, hO⟩ := hOarr
        by_cases hB : hasNullBranch L = true
        · have e : make_nullable (.obj fields) = .obj fields := by
            simp [make_nullable, h1, h2, hA, hO, hB]
          rw [e]
          exact e
        · rw [Bool.not_eq_true] at hB
          have e : make_nullable (.obj fields) =
              .obj (popKey
                (setKey fields "anyOf" (.arr (L ++ [nullTypeNode])))
                "oneOf") := by
            simp [make_nullable, h1, h2, hA, hO, hB]
          rw [e]
          apply make_nullable_fixed_of_anyOf_null _ (L ++ [nullTypeNode])
          · rw [lookupJ_popKey_ne _ _ _ (by decide),
              lookupJ_setKey_ne _ _ _ _ (by decide)]
            exact h1
          · rw [lookupJ_popKey_ne _ _ _ (by decide),
              lookupJ_setKey_ne _ _ _ _ (by decide)]
            exact h2
          · rw [lookupJ_popKey_ne _ _ _ (by decide), lookupJ_setKey_self]
          · exact hasNullBranch_append_null L
      · push_neg at hOarr
        rcases hT : lookupJ fields "type" with _ | vT
        · -- no type key: wrap in anyOf.
          have e : make_nullable (.obj fields) =
              .obj [("anyOf", .arr [.obj fields, nullTypeNode])] := by
            rcases hO2 : lookupJ fields "oneOf" with _ | vO
            · simp [make_nullable, h1, h2, hA, hO2, hT, typeListHasNull]
            · cases vO <;> first
                | exact absurd hO2 (hOarr _)
                | simp [make_nullable, h1, h2, hA, hO2, hT, typeListHasNull]
          rw [e]
          exact make_nullable_wrap_fixed fields
        · cases vT with
          | str t =>
            have ht' : ¬ (t = "null") := by
              intro hh
              exact h1 (by rw [hT, hh])
            have e : make_nullable (.obj fields) =
                .obj (dictMerge
                  [("anyOf", .arr ([.obj [("type", .str t)]] ++ [nullTypeNode]))]
                  (popKey fields "type")) := by
              rcases hO2 : lookupJ fields "oneOf" with _ | vO
              · simp [make_nullable, h1, h2, hA, hO2, hT, typeListHasNull, ht']
              · cases vO <;> first
                  | exact absurd hO2 (hOarr _)
                  | simp [make_nullable, h1, h2, hA, hO2, hT, typeListHasNull,
                      ht']
            rw [e]
            exact make_nullable_merge_fixed _ _
              (lookupJ_popKey_self fields "type" hnd')
              (lookupJ_popKey_of_none fields "type" "anyOf" hA)
              (hasNullBranch_append_null _)
          | arr ts =>
            have h2' : typeListHasNull (some (.arr ts)) = false := hT ▸ h2
            have e : make_nullable (.obj fields) =
                .obj (dictMerge
                  [("anyOf", .arr ((ts.filter (fun t => t != .str "null")).map
                      (fun t => Json.obj [("type", t)]) ++ [nullTypeNode]))]
                  (popKey fields "type")) := by
              rcases hO2 : lookupJ fields "oneOf" with _ | vO
              · simp [make_nullable, h1, h2', hA, hO2, hT]
              · cases vO <;> first
                  | exact absurd hO2 (hOarr _)
                  | simp [make_nullable, h1, h2', hA, hO2, hT]
            rw [e]
            exact make_nullable_merge_fixed _ _
              (lookupJ_popKey_self fields "type" hnd')
              (lookupJ_popKey_of_none fields "type" "anyOf" hA)
              (hasNullBranch_append_null _)
          | null =>
            have e : make_nullable (.obj fields) =
                .obj [("anyOf", .arr [.obj fields, nullTypeNode])] := by
              rcases hO2 : lookupJ fields "oneOf" with _ | vO
              · simp [make_nullable, h1, h2, hA, hO2, hT, typeListHasNull]
              · cases vO <;> first
                  | exact absurd hO2 (hOarr _)
                  | simp [make_nullable, h1, h2, hA, hO2, hT, typeListHasNull]
            rw [e]
            exact make_nullable_wrap_fixed fields
          | bool b =>
            have e : make_nullable (.obj fields) =
                .obj [("anyOf", .arr [.obj fields, nullTypeNode])] := by
              rcases hO2 : lookupJ fields "oneOf" with _ | vO
              · simp [make_nullable, h1, h2, hA, hO2, hT, typeListHasNull]
              · cases vO <;> first
                  | exact absurd hO2 (hOarr _)
                  | simp [make_nullable, h1, h2, hA, hO2, hT, typeListHasNull]
            rw [e]
            exact make_nullable_wrap_fixed fields
          | num n =>
            have e : make_nullable (.obj fields) =
                .obj [("anyOf", .arr [.obj fields, nullTypeNode])] := by
              rcases hO2 : lookupJ fields "oneOf" with _ | vO
              · simp [make_nullable, h1, h2, hA, hO2, hT, typeListHasNull]
              · cases vO <;> first
                  | exact absurd hO2 (hOarr _)
                  | simp [make_nullable, h1, h2, hA, hO2, hT, typeListHasNull]
            rw [e]
            exact make_nullable_wrap_fixed fields
          | obj inner =>
            have e : make_nullable (.obj fields) =
                .obj [("anyOf", .arr [.obj fields, nullTypeNode])] := by
              rcases hO2 : lookupJ fields "oneOf" with _ | vO
              · simp [make_nullable, h1, h2, hA, hO2, hT, typeListHasNull]
              · cases vO <;> first
                  | exact absurd hO2 (hOarr _)
                  | simp [make_nullable, h1, h2, hA, hO2, hT, typeListHasNull]
            rw [e]
            exact make_nullable_wrap_fixed fields
    · -- anyOf present: by the hypothesis it must be a list.
      match vA with
      | .arr L =>
        by_cases hB : hasNullBranch L = true
        · have e : make_nullable (.obj fields) = .obj fields := by
            simp [make_nullable, h1, h2, hA, hB]
          rw [e]
          exact e
        · rw [Bool.not_eq_true] at hB
          have e : make_nullable (.obj fields) =
              .obj (setKey fields "anyOf" (.arr (L ++ [nullTypeNode]))) := by
            simp [make_nullable, h1, h2, hA, hB]
          rw [e]
          apply make_nullable_fixed_of_anyOf_null _ (L ++ [nullTypeNode])
          · rw [lookupJ_setKey_ne _ _ _ _ (by decide)]
            exact h1
          · rw [lookupJ_setKey_ne _ _ _ _ (by decide)]
            exact h2
          · exact lookupJ_setKey_self _ _ _
          · exact hasNullBranch_append_null L
      | .null => simp [anyOfListOrAbsent, hA] at hany
      | .bool b => simp [anyOfListOrAbsent, hA] at hany
      | .num n => simp [anyOfListOrAbsent, hA] at hany
      | .str t => simp [anyOfListOrAbsent, hA] at hany
      | .obj inner => simp [anyOfListOrAbsent, hA] at hany

/-- Witness for the amended C5 theorem: a string-typed node with an extra
key, run through `_make_nullable` twice. -/
theorem make_nullable_idem_witness :
    make_nullable (make_nullable
      (.obj [("type", .str "string"), ("title", .str "B")])) =
    make_nullable (.obj [("type", .str "string"), ("title", .str "B")]) :=
  make_nullable_idem (.obj [("type", .str "string"), ("title", .str "B")])
    (by decide) (by decide)

/-! ## schema.py: `enforce_closed_objects` -/

/-- Python `node_type == "object" or (isinstance(node_type, list) and
"object" in node_type)`. -/
def is_object_type (node_type : Option Json) : Bool :=
  node_type == some (.str "object") ||
    (match node_type with
     | some (.arr ts) => decide (Json.str "object" ∈ ts)
     | _ => false)

/-- Python `any(key in node for key in ("properties", "required",
"patternProperties", "additionalProperties"))`. -/
def looks_objectish (fields : List (String × Json)) : Bool :=
  hasKeyJ fields "properties" || hasKeyJ fields "required" ||
  hasKeyJ fields "patternProperties" || hasKeyJ fields "additionalProperties"

/-- A dict node treated as an object node by the schema walks:
`is_object or looks_objectish`. -/
def isObjectLike (fields : List (String × Json)) : Bool :=
  is_object_type (lookupJ fields "type") || looks_objectish fields

mutual

/-- Translation of `enforce_closed_objects` from `simpleai/schema.py`
(`deepcopy` plus in-place `walk`).  The Python walk stores
`additionalProperties = False` *before* iterating over the values, so the
stored boolean is also walked — a no-op — and any previous value of that
key is never walked; writing the key after mapping the walk over the
values produces exactly the same dict. -/
def enforce_closed_objects : Json → Json
  | .obj fields =>
      if isObjectLike fields then
        .obj (setKey (ecoFields fields) "additionalProperties" (.bool false))
      else
        .obj (ecoFields fields)
  | .arr items => .arr (ecoItems items)
  | j => j

/-- The walk of `enforce_closed_objects` over the values of a dict. -/
def ecoFields : List (String × Json) → List (String × Json)
  | [] => []
  | (k, v) :: rest => (k, enforce_closed_objects v) :: ecoFields rest

/-- The walk of `enforce_closed_objects` over the items of a list. -/
def ecoItems : List Json → List Json
  | [] => []
  | v :: rest => enforce_closed_objects v :: ecoItems rest

end

mutual

/-- Does `p` hold at every node of a JSON tree (the node itself, all
values under its dict entries and all list items, recursively)? -/
def allNodes (p : Json → Bool) : Json → Bool
  | .obj fields => p (.obj fields) && allNodesFields p fields
  | .arr items => p (.arr items) && allNodesItems p items
  | j => p j

/-- Conjunction of `allNodes p` over the values of a dict. -/
def allNodesFields (p : Json → Bool) : List (String × Json) → Bool
  | [] => true
  | (_, v) :: rest => allNodes p v && allNodesFields p rest

/-- Conjunction of `allNodes p` over the items of a list. -/
def allNodesItems (p : Json → Bool) : List Json → Bool
  | [] => true
  | v :: rest => allNodes p v && allNodesItems p rest

end

/-- The per-node property claimed for `enforce_closed_objects` results:
every object-like dict carries `additionalProperties = false`. -/
def closedOk (j : Json) : Bool :=
  match j with
  | .obj fields =>
      !(isObjectLike fields) ||
        (lookupJ fields "additionalProperties" == some (.bool false))
  | _ => true

theorem enforce_closed_objects_eq_str_object_iff (x : Json) :
    enforce_closed_objects x = .str "object" ↔ x = .str "object" := by
  cases x with
  | obj fields =>
      constructor
      · intro h
        by_cases ho : isObjectLike fields = true <;>
          simp [enforce_closed_objects, ho] at h
      · intro h
        exact absurd h (by simp)
  | arr items => simp [enforce_closed_objects]
  | null => simp [enforce_closed_objects]
  | bool b => simp [enforce_closed_objects]
  | num n => simp [enforce_closed_objects]
  | str s => simp [enforce_closed_objects]

theorem mem_str_object_ecoItems (ts : List Json) :
    (Json.str "object" ∈ ecoItems ts) ↔ Json.str "object" ∈ ts := by
  induction ts with
  | nil => simp [ecoItems]
  | cons hd tl ih =>
      simp only [ecoItems, List.mem_cons, ih]
      constructor
      · rintro (h | h)
        · exact Or.inl ((enforce_closed_objects_eq_str_object_iff hd).mp h.symm).symm
        · exact Or.inr h
      · rintro (h | h)
        · exact Or.inl ((enforce_closed_objects_eq_str_object_iff hd).mpr h.symm).symm
        · exact Or.inr h

theorem lookupJ_ecoFields (fields : List (String × Json)) (k : String) :
    lookupJ (ecoFields fields) k =
      (lookupJ fields k).map enforce_closed_objects := by
  induction fields with
  | nil => rfl
  | cons hd tl ih =>
      obtain ⟨k₀, v₀⟩ := hd
      by_cases h : k₀ = k <;> simp [ecoFields, lookupJ, h, ih]

theorem isObjectLike_ecoFields (fields : List (String × Json)) :
    isObjectLike (ecoFields fields) = isObjectLike fields := by
  have hk : ∀ k, hasKeyJ (ecoFields fields) k = hasKeyJ fields k := by
    intro k
    simp [hasKeyJ, lookupJ_ecoFields]
  have ht : is_object_type (lookupJ (ecoFields fields) "type") =
      is_object_type (lookupJ fields "type") := by
    rcases hT : lookupJ fields "type" with _ | vT
    · rw [lookupJ_ecoFields, hT]
      rfl
    · rw [lookupJ_ecoFields, hT]
      cases vT with
      | str s => rfl
      | arr ts =>
          show is_object_type (some (.arr (ecoItems ts))) =
            is_object_type (some (.arr ts))
          have e1 : (Json.arr (ecoItems ts) == Json.str "object") = false := by
            simp [beq_eq_false_iff_ne]
          have e2 : (Json.arr ts == Json.str "object") = false := by
            simp [beq_eq_false_iff_ne]
          simp [is_object_type, mem_str_object_ecoItems, e1, e2]
      | null => rfl
      | bool b => rfl
      | num n => rfl
      | obj inner =>
          show is_object_type (some (enforce_closed_objects (.obj inner))) =
            is_object_type (some (.obj inner))
          by_cases ho : isObjectLike inner = true <;>
            simp [enforce_closed_objects, ho, is_object_type]
  simp [isObjectLike, looks_objectish, ht, hk]

theorem allNodesFields_setKey (p : Json → Bool)
    (fields : List (String × Json)) (k : String) (v : Json)
    (hf : allNodesFields p fields = true) (hv : allNodes p v = true) :
    allNodesFields p (setKey fields k v) = true := by
  induction fields with
  | nil => simp [setKey, allNodesFields, hv]
  | cons hd tl ih =>
      obtain ⟨k₀, v₀⟩ := hd
      simp only [allNodesFields, Bool.and_eq_true] at hf
      by_cases h : k₀ = k
      · simp [setKey, h, allNodesFields, hv, hf.2]
      · simp [setKey, h, allNodesFields, hf.1, ih hf.2]

mutual

theorem eco_closed_aux (j : Json) :
    allNodes closedOk (enforce_closed_objects j) = true := by
  match j with
  | .null => rfl
  | .bool _ => rfl
  | .num _ => rfl
  | .str _ => rfl
  | .arr items =>
      show allNodes closedOk (.arr (ecoItems items)) = true
      simp only [allNodes, Bool.and_eq_true]
      exact ⟨rfl, eco_closed_items_aux items⟩
  | .obj fields =>
      by_cases ho : isObjectLike fields = true
      · show allNodes closedOk (enforce_closed_objects (.obj fields)) = true
        rw [show enforce_closed_objects (.obj fields) =
            .obj (setKey (ecoFields fields) "additionalProperties"
              (.bool false)) by simp [enforce_closed_objects, ho]]
        simp only [allNodes, Bool.and_eq_true]
        constructor
        · simp [closedOk, lookupJ_setKey_self]
        · exact allNodesFields_setKey _ _ _ _ (eco_closed_fields_aux fields) rfl
      · show allNodes closedOk (enforce_closed_objects (.obj fields)) = true
        rw [show enforce_closed_objects (.obj fields) =
            .obj (ecoFields fields) by simp [enforce_closed_objects, ho]]
        simp only [allNodes, Bool.and_eq_true]
        constructor
        · simp only [closedOk, isObjectLike_ecoFields]
          simp [Bool.not_eq_true] at ho
          simp [ho]
        · exact eco_closed_fields_aux fields

theorem eco_closed_fields_aux (fields : List (String × Json)) :
    allNodesFields closedOk (ecoFields fields) = true := by
  match fields with
  | [] => rfl
  | (k, v) :: rest =>
      show allNodesFields closedOk
        ((k, enforce_closed_objects v) :: ecoFields rest) = true
      simp only [allNodesFields, Bool.and_eq_true]
      exact ⟨eco_closed_aux v, eco_closed_fields_aux rest⟩

theorem eco_closed_items_aux (items : List Json) :
    allNodesItems closedOk (ecoItems items) = true := by
  match items with
  | [] => rfl
  | v :: rest =>
      show allNodesItems closedOk
        (enforce_closed_objects v :: ecoItems rest) = true
      simp only [allNodesItems, Bool.and_eq_true]
      exact ⟨eco_closed_aux v, eco_closed_items_aux rest⟩

end

/-- CLAIM C2.  In `enforce_closed_objects S`, every node at any nesting
depth that has explicit type "object", or a type list containing
"object", or any of the keys `properties` / `required` /
`patternProperties` / `additionalProperties`, carries
`additionalProperties = false`. -/
theorem enforce_closed_objects_closes_all_nodes (S : Json) :
    allNodes closedOk (enforce_closed_objects S) = true :=
  eco_closed_aux S

/-! ## schema.py: `enforce_openai_required_all_properties`

The Python walk mutates a node (rewriting non-required properties with
`_make_nullable` and overwriting `required`) and then recurses into the
mutated values, so the recursion is not structural.  Termination is by a
lexicographic measure: `muJ` counts dict entries holding nested dicts
under keys other than `type` (the wrappers `_make_nullable` creates never
add such entries, while every dict with a `properties` map contributes
one), with a plain size measure `szJ` as tie-breaker. -/

/-- Python truthiness of JSON-like values. -/
def pyFalsy : Json → Bool
  | .null => true
  | .bool b => !b
  | .num n => decide (n = 0)
  | .str s => s.isEmpty
  | .arr items => items.isEmpty
  | .obj fields => fields.isEmpty

/-- Values Python refuses to put into a `set` (unhashable). -/
def isUnhashable : Json → Bool
  | .arr _ => true
  | .obj _ => true
  | _ => false

/-- Python `set(node.get("required") or [])`, as the list of set members:
`None`-or-falsy yields the empty set; a list must contain only hashable
members; a string yields its characters; a dict yields its keys; a truthy
number or boolean raises `TypeError`. -/
def pyReqSet (fields : List (String × Json)) : Except Unit (List Json) :=
  match lookupJ fields "required" with
  | none => .ok []
  | some v =>
      if pyFalsy v then .ok []
      else
        match v with
        | .arr items =>
            if items.any isUnhashable then .error () else .ok items
        | .str s => .ok (s.data.map (fun c => Json.str (String.mk [c])))
        | .obj fs => .ok (fs.map (fun p => Json.str p.1))
        | _ => .error ()

/-- The per-property rewrite of the mutation loop: a property subschema is
replaced by its `_make_nullable` form when the key is not required and the
subschema is a dict. -/
def mutateVal (req : List Json) (k : String) (v : Json) : Json :=
  if (Json.str k) ∈ req then v
  else
    match v with
    | .obj fs => make_nullable (.obj fs)
    | _ => v

/-- The mutation loop over a `properties` map: every property whose key is
not in the required set and whose subschema is a dict is rewritten with
`_make_nullable` (Python mutates `properties[key]` in place; on dicts,
whose keys are unique, that is a per-entry rewrite). -/
def mutateProps (props : List (String × Json)) (req : List Json) :
    List (String × Json) :=
  match props with
  | [] => []
  | (k, v) :: rest => (k, mutateVal req k v) :: mutateProps rest req

/-- Does a dict have an entry holding a dict under a key other than
`type`? (The termination potential of one walk step.) -/
def hasObjEntry : List (String × Json) → Bool
  | [] => false
  | (k, .obj _) :: rest => if k = "type" then hasObjEntry rest else true
  | _ :: rest => hasObjEntry rest

mutual

/-- Termination measure: one unit for every dict that holds a nested dict
under a key other than `type`, summed over the whole tree. -/
def muJ : Json → Nat
  | .obj fields => (if hasObjEntry fields then 1 else 0) + muFieldsSum fields
  | .arr items => muItemsSum items
  | _ => 0

/-- Sum of `muJ` over the values of a dict. -/
def muFieldsSum : List (String × Json) → Nat
  | [] => 0
  | (_, v) :: rest => muJ v + muFieldsSum rest

/-- Sum of `muJ` over the items of a list. -/
def muItemsSum : List Json → Nat
  | [] => 0
  | v :: rest => muJ v + muItemsSum rest

end

mutual

/-- Plain size of a JSON tree (key strings not counted). -/
def szJ : Json → Nat
  | .obj fields => 1 + szF fields
  | .arr items => 1 + szI items
  | _ => 1

/-- Size of the values of a dict. -/
def szF : List (String × Json) → Nat
  | [] => 0
  | (_, v) :: rest => 1 + szJ v + szF rest

/-- Size of the items of a list. -/
def szI : List Json → Nat
  | [] => 0
  | v :: rest => 1 + szJ v + szI rest

end

theorem muItemsSum_append (a b : List Json) :
    muItemsSum (a ++ b) = muItemsSum a + muItemsSum b := by
  induction a with
  | nil => simp [muItemsSum]
  | cons hd tl ih => simp [muItemsSum, ih]; omega

theorem muFieldsSum_append (a b : List (String × Json)) :
    muFieldsSum (a ++ b) = muFieldsSum a + muFieldsSum b := by
  induction a with
  | nil => simp [muFieldsSum]
  | cons hd tl ih =>
      obtain ⟨k, v⟩ := hd
      simp [muFieldsSum, ih]
      omega

/-- Writing a key bounds the value-sum by the old sum plus the new value
(an old value may be dropped). -/
theorem muFieldsSum_setKey_le (fields : List (String × Json)) (k : String)
    (v : Json) :
    muFieldsSum (setKey fields k v) ≤ muFieldsSum fields + muJ v := by
  induction fields with
  | nil => simp [setKey, muFieldsSum]
  | cons hd tl ih =>
      obtain ⟨k₀, v₀⟩ := hd
      by_cases h : k₀ = k
      · simp [setKey, h, muFieldsSum]
        omega
      · simp [setKey, h, muFieldsSum]
        omega

/-- Exact accounting of a key write when the key is present. -/
theorem muFieldsSum_setKey_of_lookup (fields : List (String × Json))
    (k : String) (v w : Json) (h : lookupJ fields k = some w) :
    muFieldsSum (setKey fields k v) + muJ w = muFieldsSum fields + muJ v := by
  induction fields with
  | nil => simp [lookupJ] at h
  | cons hd tl ih =>
      obtain ⟨k₀, v₀⟩ := hd
      by_cases h0 : k₀ = k
      · simp only [lookupJ, if_pos h0] at h
        cases h
        simp [setKey, h0, muFieldsSum]
        omega
      · simp only [lookupJ, if_neg h0] at h
        have hih := ih h
        simp [setKey, h0, muFieldsSum]
        omega

/-- Exact accounting of popping a present key. -/
theorem muFieldsSum_popKey_of_lookup (fields : List (String × Json))
    (k : String) (w : Json) (h : lookupJ fields k = some w) :
    muFieldsSum (popKey fields k) + muJ w = muFieldsSum fields := by
  induction fields with
  | nil => simp [lookupJ] at h
  | cons hd tl ih =>
      obtain ⟨k₀, v₀⟩ := hd
      by_cases h0 : k₀ = k
      · simp only [lookupJ, if_pos h0] at h
        cases h
        simp [popKey, h0, muFieldsSum]
        omega
      · simp only [lookupJ, if_neg h0] at h
        have hih := ih h
        simp [popKey, h0, muFieldsSum]
        omega

/-- Popping an absent key is the identity. -/
theorem popKey_of_none (fields : List (String × Json)) (k : String)
    (h : lookupJ fields k = none) : popKey fields k = fields := by
  induction fields with
  | nil => rfl
  | cons hd tl ih =>
      obtain ⟨k₀, v₀⟩ := hd
      simp only [lookupJ] at h
      split at h
      · exact absurd h (by simp)
      · next h0 => simp [popKey, h0, ih h]

/-- Writing an absent key appends the binding. -/
theorem setKey_of_none (fields : List (String × Json)) (k : String)
    (v : Json) (h : lookupJ fields k = none) :
    setKey fields k v = fields ++ [(k, v)] := by
  induction fields with
  | nil => simp [setKey]
  | cons hd tl ih =>
      obtain ⟨k₀, v₀⟩ := hd
      simp only [lookupJ] at h
      split at h
      · exact absurd h (by simp)
      · next h0 => simp [setKey, h0, ih h]

/-- A dict with a dict-valued entry under a key other than `type` has the
`hasObjEntry` potential. -/
theorem hasObjEntry_of_lookup (fields : List (String × Json)) (k : String)
    (w : List (String × Json)) (hk : k ≠ "type")
    (h : lookupJ fields k = some (.obj w)) : hasObjEntry fields = true := by
  induction fields with
  | nil => simp [lookupJ] at h
  | cons hd tl ih =>
      obtain ⟨k₀, v₀⟩ := hd
      by_cases h0 : k₀ = k
      · simp only [lookupJ, if_pos h0] at h
        cases h
        subst h0
        simp [hasObjEntry, hk]
      · simp only [lookupJ, if_neg h0] at h
        have := ih h
        cases v₀ with
        | obj o => by_cases ht : k₀ = "type" <;> simp [hasObjEntry, ht, this]
        | null => simpa [hasObjEntry] using this
        | bool b => simpa [hasObjEntry] using this
        | num n => simpa [hasObjEntry] using this
        | str ss => simpa [hasObjEntry] using this
        | arr a => simpa [hasObjEntry] using this

/-- Is a value a dict? -/
def isObjJ : Json → Bool
  | .obj _ => true
  | _ => false

theorem muJ_nullTypeNode : muJ nullTypeNode = 0 := by
  simp [nullTypeNode, muJ, muFieldsSum, hasObjEntry]

theorem muJ_typeWrapper (x : Json) : muJ (.obj [("type", x)]) = muJ x := by
  cases x <;> simp [muJ, muFieldsSum, hasObjEntry]

theorem hasObjEntry_setKey_transfer (fields : List (String × Json))
    (k : String) (v : Json) (h : hasObjEntry (setKey fields k v) = true) :
    hasObjEntry fields = true ∨ (isObjJ v = true ∧ k ≠ "type") := by
  induction fields with
  | nil =>
      simp only [setKey] at h
      cases v with
      | obj o =>
          by_cases ht : k = "type"
          · simp [hasObjEntry, ht] at h
          · exact Or.inr ⟨rfl, ht⟩
      | null => simp [hasObjEntry] at h
      | bool b => simp [hasObjEntry] at h
      | num n => simp [hasObjEntry] at h
      | str ss => simp [hasObjEntry] at h
      | arr a => simp [hasObjEntry] at h
  | cons hd tl ih =>
      obtain ⟨k₀, v₀⟩ := hd
      by_cases h0 : k₀ = k
      · subst h0
        simp only [setKey, if_pos rfl] at h
        cases v with
        | obj o =>
            by_cases ht : k₀ = "type"
            · simp only [hasObjEntry, if_pos ht] at h
              cases v₀ with
              | obj o₀ => simp [hasObjEntry, ht, h]
              | null => simp [hasObjEntry, h]
              | bool b => simp [hasObjEntry, h]
              | num n => simp [hasObjEntry, h]
              | str ss => simp [hasObjEntry, h]
              | arr a => simp [hasObjEntry, h]
            · exact Or.inr ⟨rfl, ht⟩
        | null =>
            simp only [hasObjEntry] at h
            cases v₀ with
            | obj o₀ => by_cases ht : k₀ = "type" <;> simp [hasObjEntry, ht, h]
            | null => simp [hasObjEntry, h]
            | bool b => simp [hasObjEntry, h]
            | num n => simp [hasObjEntry, h]
            | str ss => simp [hasObjEntry, h]
            | arr a => simp [hasObjEntry, h]
        | bool b =>
            simp only [hasObjEntry] at h
            cases v₀ with
            | obj o₀ => by_cases ht : k₀ = "type" <;> simp [hasObjEntry, ht, h]
            | null => simp [hasObjEntry, h]
            | bool b2 => simp [hasObjEntry, h]
            | num n => simp [hasObjEntry, h]
            | str ss => simp [hasObjEntry, h]
            | arr a => simp [hasObjEntry, h]
        | num n =>
            simp only [hasObjEntry] at h
            cases v₀ with
            | obj o₀ => by_cases ht : k₀ = "type" <;> simp [hasObjEntry, ht, h]
            | null => simp [hasObjEntry, h]
            | bool b => simp [hasObjEntry, h]
            | num n2 => simp [hasObjEntry, h]
            | str ss => simp [hasObjEntry, h]
            | arr a => simp [hasObjEntry, h]
        | str ss =>
            simp only [hasObjEntry] at h
            cases v₀ with
            | obj o₀ => by_cases ht : k₀ = "type" <;> simp [hasObjEntry, ht, h]
            | null => simp [hasObjEntry, h]
            | bool b => simp [hasObjEntry, h]
            | num n => simp [hasObjEntry, h]
            | str ss2 => simp [hasObjEntry, h]
            | arr a => simp [hasObjEntry, h]
        | arr a =>
            simp only [hasObjEntry] at h
            cases v₀ with
            | obj o₀ => by_cases ht : k₀ = "type" <;> simp [hasObjEntry, ht, h]
            | null => simp [hasObjEntry, h]
            | bool b => simp [hasObjEntry, h]
            | num n => simp [hasObjEntry, h]
            | str ss => simp [hasObjEntry, h]
            | arr a2 => simp [hasObjEntry, h]
      · simp only [setKey, if_neg h0] at h
        cases v₀ with
        | obj o₀ =>
            by_cases ht : k₀ = "type"
            · simp only [hasObjEntry, if_pos ht] at h
              rcases ih h with h' | h'
              · exact Or.inl (by simp [hasObjEntry, ht, h'])
              · exact Or.inr h'
            · exact Or.inl (by simp [hasObjEntry, ht])
        | null =>
            simp only [hasObjEntry] at h
            rcases ih h with h' | h'
            · exact Or.inl (by simpa [hasObjEntry] using h')
            · exact Or.inr h'
        | bool b =>
            simp only [hasObjEntry] at h
            rcases ih h with h' | h'
            · exact Or.inl (by simpa [hasObjEntry] using h')
            · exact Or.inr h'
        | num n =>
            simp only [hasObjEntry] at h
            rcases ih h with h' | h'
            · exact Or.inl (by simpa [hasObjEntry] using h')
            · exact Or.inr h'
        | str ss =>
            simp only [hasObjEntry] at h
            rcases ih h with h' | h'
            · exact Or.inl (by simpa [hasObjEntry] using h')
            · exact Or.inr h'
        | arr a =>
            simp only [hasObjEntry] at h
            rcases ih h with h' | h'
            · exact Or.inl (by simpa [hasObjEntry] using h')
            · exact Or.inr h'

theorem hasObjEntry_cons (k : String) (v : Json)
    (rest : List (String × Json)) :
    hasObjEntry ((k, v) :: rest) =
      ((isObjJ v && !(k == "type")) || hasObjEntry rest) := by
  cases v <;> by_cases h : k = "type" <;> simp [hasObjEntry, isObjJ, h]

theorem hasObjEntry_popKey_transfer (fields : List (String × Json))
    (k : String) (h : hasObjEntry (popKey fields k) = true) :
    hasObjEntry fields = true := by
  induction fields with
  | nil => simpa [popKey] using h
  | cons hd tl ih =>
      obtain ⟨k₀, v₀⟩ := hd
      by_cases h0 : k₀ = k
      · simp only [popKey, if_pos h0] at h
        simp [hasObjEntry_cons, h]
      · simp only [popKey, if_neg h0, hasObjEntry_cons] at h ⊢
        rcases Bool.or_eq_true_iff.mp h with h' | h'
        · simp [h']
        · simp [ih h']

theorem hasObjEntry_dictMerge_transfer (init rest : List (String × Json))
    (h : hasObjEntry (dictMerge init rest) = true) :
    hasObjEntry init = true ∨ hasObjEntry rest = true := by
  induction rest generalizing init with
  | nil => exact Or.inl h
  | cons hd tl ih =>
      obtain ⟨k₀, v₀⟩ := hd
      have h' : hasObjEntry (dictMerge (setKey init k₀ v₀) tl) = true := h
      rcases ih _ h' with h2 | h2
      · rcases hasObjEntry_setKey_transfer _ _ _ h2 with h3 | h3
        · exact Or.inl h3
        · exact Or.inr (by simp [hasObjEntry_cons, h3.1, h3.2])
      · exact Or.inr (by simp [hasObjEntry_cons, h2])

theorem muFieldsSum_dictMerge_le (init rest : List (String × Json)) :
    muFieldsSum (dictMerge init rest) ≤
      muFieldsSum init + muFieldsSum rest := by
  induction rest generalizing init with
  | nil => simp [dictMerge]
  | cons hd tl ih =>
      obtain ⟨k₀, v₀⟩ := hd
      have h1 : muFieldsSum (dictMerge (setKey init k₀ v₀) tl) ≤
          muFieldsSum (setKey init k₀ v₀) + muFieldsSum tl := ih _
      have h2 := muFieldsSum_setKey_le init k₀ v₀
      show muFieldsSum (dictMerge (setKey init k₀ v₀) tl) ≤ _
      simp only [muFieldsSum]
      omega

theorem muItemsSum_filter_wrap_le (ts : List Json) (p : Json → Bool) :
    muItemsSum ((ts.filter p).map (fun t => Json.obj [("type", t)])) ≤
      muItemsSum ts := by
  induction ts with
  | nil => simp [muItemsSum]
  | cons hd tl ih =>
      by_cases h : p hd
      · simp only [List.filter_cons, if_pos h, List.map_cons, muItemsSum,
          muJ_typeWrapper]
        omega
      · simp only [List.filter_cons, if_neg h, muItemsSum]
        omega

/-- Transfer form of the measure comparison on dicts. -/
theorem muJ_obj_le_of (fs1 fs2 : List (String × Json))
    (hsum : muFieldsSum fs1 ≤ muFieldsSum fs2)
    (htrans : hasObjEntry fs1 = true → hasObjEntry fs2 = true) :
    muJ (.obj fs1) ≤ muJ (.obj fs2) := by
  cases h1 : hasObjEntry fs1 <;> cases h2 : hasObjEntry fs2 <;>
    simp [muJ, h1, h2] <;> first
      | omega
      | exact absurd (htrans h1) (by simp [h2])

/-- Exhaustive description of `_make_nullable` on a dict: the unchanged
case and the five rewriting branches. -/
theorem make_nullable_cases (fs : List (String × Json)) (r : Json)
    (hr : make_nullable (.obj fs) = r) :
    r = .obj fs ∨
    (∃ L, lookupJ fs "anyOf" = some (.arr L) ∧
        r = .obj (setKey fs "anyOf" (.arr (L ++ [nullTypeNode])))) ∨
    (∃ L, lookupJ fs "oneOf" = some (.arr L) ∧
        r = .obj (popKey
          (setKey fs "anyOf" (.arr (L ++ [nullTypeNode]))) "oneOf")) ∨
    (∃ t, lookupJ fs "type" = some (.str t) ∧
        r = .obj (dictMerge
          [("anyOf", .arr [.obj [("type", .str t)], nullTypeNode])]
          (popKey fs "type"))) ∨
    (∃ ts, lookupJ fs "type" = some (.arr ts) ∧
        r = .obj (dictMerge
          [("anyOf", .arr ((ts.filter (fun t => t != .str "null")).map
              (fun t => Json.obj [("type", t)]) ++ [nullTypeNode]))]
          (popKey fs "type"))) ∨
    r = .obj [("anyOf", .arr [.obj fs, nullTypeNode])] := by
  simp only [make_nullable] at hr
  split at hr
  · exact Or.inl hr.symm
  · split at hr
    · exact Or.inl hr.symm
    · split at hr
      · next L heq =>
          split at hr
          · exact Or.inl hr.symm
          · exact Or.inr (Or.inl ⟨L, heq, hr.symm⟩)
      · split at hr
        · next L heq =>
            split at hr
            · exact Or.inl hr.symm
            · exact Or.inr (Or.inr (Or.inl ⟨L, heq, hr.symm⟩))
        · split at hr
          · next t heq =>
              exact Or.inr (Or.inr (Or.inr (Or.inl ⟨t, heq, hr.symm⟩)))
          · next ts heq =>
              exact Or.inr (Or.inr (Or.inr (Or.inr (Or.inl ⟨ts, heq, hr.symm⟩))))
          · exact Or.inr (Or.inr (Or.inr (Or.inr (Or.inr hr.symm))))

/-- `_make_nullable` always returns a dict when given a dict. -/
theorem make_nullable_obj (fs : List (String × Json)) :
    ∃ fs', make_nullable (.obj fs) = .obj fs' := by
  rcases make_nullable_cases fs _ rfl with h | ⟨L, _, h⟩ | ⟨L, _, h⟩ |
    ⟨t, _, h⟩ | ⟨ts, _, h⟩ | h <;> exact ⟨_, h⟩

/-- `_make_nullable` never increases the termination measure. -/
theorem muJ_make_nullable_le (fs : List (String × Json)) :
    muJ (make_nullable (.obj fs)) ≤ muJ (.obj fs) := by
  rcases make_nullable_cases fs _ rfl with h | ⟨L, hL, h⟩ | ⟨L, hL, h⟩ |
    ⟨t, hT, h⟩ | ⟨ts, hT, h⟩ | h
  · rw [h]
  · rw [h]
    have e1 := muFieldsSum_setKey_of_lookup fs "anyOf"
      (.arr (L ++ [nullTypeNode])) (.arr L) hL
    have e2 : muJ (.arr (L ++ [nullTypeNode])) = muJ (.arr L) := by
      simp [muJ, muItemsSum_append, muItemsSum, nullTypeNode, muFieldsSum, hasObjEntry]
    apply muJ_obj_le_of
    · omega
    · intro hh
      rcases hasObjEntry_setKey_transfer _ _ _ hh with h' | h'
      · exact h'
      · simp [isObjJ] at h'
  · rw [h]
    have e0 : lookupJ (setKey fs "anyOf" (.arr (L ++ [nullTypeNode])))
        "oneOf" = some (.arr L) := by
      rw [lookupJ_setKey_ne _ _ _ _ (by decide)]
      exact hL
    have e1 := muFieldsSum_popKey_of_lookup _ "oneOf" (.arr L) e0
    have e2 := muFieldsSum_setKey_le fs "anyOf" (.arr (L ++ [nullTypeNode]))
    have e3 : muJ (.arr (L ++ [nullTypeNode])) = muJ (.arr L) := by
      simp [muJ, muItemsSum_append, muItemsSum, nullTypeNode, muFieldsSum, hasObjEntry]
    apply muJ_obj_le_of
    · omega
    · intro hh
      rcases hasObjEntry_setKey_transfer _ _ _
          (hasObjEntry_popKey_transfer _ _ hh) with h' | h'
      · exact h'
      · simp [isObjJ] at h'
  · rw [h]
    have e1 := muFieldsSum_dictMerge_le
      [("anyOf", .arr [.obj [("type", .str t)], nullTypeNode])]
      (popKey fs "type")
    have e2 := muFieldsSum_popKey_of_lookup fs "type" (.str t) hT
    have e3 : muFieldsSum
        [("anyOf", .arr [.obj [("type", .str t)], nullTypeNode])] = 0 := by
      simp [muFieldsSum, muJ, muItemsSum, nullTypeNode, hasObjEntry]
    have e4 : muJ (.str t) = 0 := rfl
    apply muJ_obj_le_of
    · omega
    · intro hh
      rcases hasObjEntry_dictMerge_transfer _ _ hh with h' | h'
      · simp [hasObjEntry_cons, isObjJ, hasObjEntry] at h'
      · exact hasObjEntry_popKey_transfer _ _ h'
  · rw [h]
    have e1 := muFieldsSum_dictMerge_le
      [("anyOf", .arr ((ts.filter (fun t => t != .str "null")).map
          (fun t => Json.obj [("type", t)]) ++ [nullTypeNode]))]
      (popKey fs "type")
    have e2 := muFieldsSum_popKey_of_lookup fs "type" (.arr ts) hT
    have e3 := muItemsSum_filter_wrap_le ts (fun t => t != .str "null")
    have e4 : muFieldsSum
        [("anyOf", .arr ((ts.filter (fun t => t != .str "null")).map
            (fun t => Json.obj [("type", t)]) ++ [nullTypeNode]))] =
        muItemsSum ((ts.filter (fun t => t != .str "null")).map
            (fun t => Json.obj [("type", t)])) := by
      simp [muFieldsSum, muJ, muItemsSum_append, muItemsSum, nullTypeNode, hasObjEntry]
    have e5 : muJ (.arr ts) = muItemsSum ts := rfl
    apply muJ_obj_le_of
    · omega
    · intro hh
      rcases hasObjEntry_dictMerge_transfer _ _ hh with h' | h'
      · simp [hasObjEntry_cons, isObjJ, hasObjEntry] at h'
      · exact hasObjEntry_popKey_transfer _ _ h'
  · rw [h]
    have e1 : muJ (.obj [("anyOf", .arr [.obj fs, nullTypeNode])]) =
        muJ (.obj fs) := by
      simp [muJ, muFieldsSum, muItemsSum, nullTypeNode, hasObjEntry]
    omega

theorem muJ_mutateVal_le (req : List Json) (k : String) (v : Json) :
    muJ (mutateVal req k v) ≤ muJ v := by
  unfold mutateVal
  split
  · exact le_refl _
  · cases v with
    | obj fs => exact muJ_make_nullable_le fs
    | null => exact le_refl _
    | bool b => exact le_refl _
    | num n => exact le_refl _
    | str ss => exact le_refl _
    | arr a => exact le_refl _

theorem muFieldsSum_mutateProps_le (props : List (String × Json))
    (req : List Json) :
    muFieldsSum (mutateProps props req) ≤ muFieldsSum props := by
  induction props with
  | nil => simp [mutateProps, muFieldsSum]
  | cons hd tl ih =>
      obtain ⟨k, v⟩ := hd
      simp only [mutateProps, muFieldsSum]
      have := muJ_mutateVal_le req k v
      omega

theorem isObjJ_mutateVal (req : List Json) (k : String) (v : Json) :
    isObjJ (mutateVal req k v) = isObjJ v := by
  unfold mutateVal
  split
  · rfl
  · cases v with
    | obj fs =>
        obtain ⟨fs', h⟩ := make_nullable_obj fs
        show isObjJ (make_nullable (.obj fs)) = isObjJ (.obj fs)
        rw [h]
        rfl
    | null => rfl
    | bool b => rfl
    | num n => rfl
    | str ss => rfl
    | arr a => rfl

theorem hasObjEntry_mutateProps (props : List (String × Json))
    (req : List Json) (h : hasObjEntry (mutateProps props req) = true) :
    hasObjEntry props = true := by
  induction props with
  | nil => simp [mutateProps, hasObjEntry] at h
  | cons hd tl ih =>
      obtain ⟨k, v⟩ := hd
      simp only [mutateProps] at h
      rw [hasObjEntry_cons] at h ⊢
      rcases Bool.or_eq_true_iff.mp h with h' | h'
      · rw [isObjJ_mutateVal] at h'
        simp [h']
      · simp [ih h']

theorem muItemsSum_map_str (l : List (String × Json)) :
    muItemsSum (l.map (fun p => Json.str p.1)) = 0 := by
  induction l with
  | nil => rfl
  | cons hd tl ih => simp [muItemsSum, ih, muJ]

theorem natLexLt (a b c d : Nat) (h1 : a ≤ c) (h2 : b < d) :
    Prod.Lex (· < ·) (· < ·) (a, b) (c, d) := by
  rcases Nat.lt_or_ge a c with h | h
  · exact Prod.Lex.left _ _ h
  · have he : a = c := Nat.le_antisymm h1 h
    subst he
    exact Prod.Lex.right _ h2

theorem muFieldsSum_le_muJ_obj (l : List (String × Json)) :
    muFieldsSum l ≤ muJ (Json.obj l) := by
  cases h : hasObjEntry l <;> simp [muJ, h] <;> omega

theorem szF_lt_szJ_obj (l : List (String × Json)) :
    szF l < szJ (Json.obj l) := by
  simp only [szJ]
  omega

theorem muItemsSum_le_muJ_arr (l : List Json) :
    muItemsSum l ≤ muJ (Json.arr l) := by
  simp [muJ]

theorem szI_lt_szJ_arr (l : List Json) : szI l < szJ (Json.arr l) := by
  simp only [szJ]
  omega

theorem muJ_le_muFieldsSum_cons (k : String) (v : Json)
    (rest : List (String × Json)) :
    muJ v ≤ muFieldsSum ((k, v) :: rest) := by
  simp only [muFieldsSum]
  omega

theorem szJ_lt_szF_cons (k : String) (v : Json)
    (rest : List (String × Json)) : szJ v < szF ((k, v) :: rest) := by
  simp only [szF]
  omega

theorem muFieldsSum_tail_le (k : String) (v : Json)
    (rest : List (String × Json)) :
    muFieldsSum rest ≤ muFieldsSum ((k, v) :: rest) := by
  simp only [muFieldsSum]
  omega

theorem szF_tail_lt (k : String) (v : Json) (rest : List (String × Json)) :
    szF rest < szF ((k, v) :: rest) := by
  simp only [szF]
  omega

theorem muJ_le_muItemsSum_cons (v : Json) (rest : List Json) :
    muJ v ≤ muItemsSum (v :: rest) := by
  simp only [muItemsSum]
  omega

theorem szJ_lt_szI_cons (v : Json) (rest : List Json) :
    szJ v < szI (v :: rest) := by
  simp only [szI]
  omega

theorem muItemsSum_tail_le (v : Json) (rest : List Json) :
    muItemsSum rest ≤ muItemsSum (v :: rest) := by
  simp only [muItemsSum]
  omega

theorem szI_tail_lt (v : Json) (rest : List Json) :
    szI rest < szI (v :: rest) := by
  simp only [szI]
  omega

mutual

/-- Translation of the recursive `walk` of
`enforce_openai_required_all_properties` from `simpleai/schema.py`.  It
can raise a `TypeError` (modelled as `.error ()`) when a truthy
non-iterable or unhashable `required` value reaches `set(...)`.  On
object-like dicts without a usable `properties` map, Python appends
`required = []` when absent and then walks all values; walking the
appended empty list is the identity, so the binding is appended after the
walk of the original values here. -/
def rapWalk : Json → Except Unit Json
  | .obj fields =>
      if isObjectLike fields then
        match hp : lookupJ fields "properties" with
        | some (.obj props) =>
            match pyReqSet fields with
            | .error e => .error e
            | .ok req =>
                match rapFields (setKey (setKey fields "properties"
                    (.obj (mutateProps props req))) "required"
                    (.arr (props.map (fun p => Json.str p.1)))) with
                | .error e => .error e
                | .ok l' => .ok (.obj l')
        | _ =>
            if hasKeyJ fields "required" then
              match rapFields fields with
              | .error e => .error e
              | .ok l' => .ok (.obj l')
            else
              match rapFields fields with
              | .error e => .error e
              | .ok l' => .ok (.obj (l' ++ [("required", .arr [])]))
      else
        match rapFields fields with
        | .error e => .error e
        | .ok l' => .ok (.obj l')
  | .arr items =>
      match rapItems items with
      | .error e => .error e
      | .ok l' => .ok (.arr l')
  | j => .ok j
termination_by j => (muJ j, szJ j)
decreasing_by
  all_goals simp_wf
  all_goals first
    | exact natLexLt _ _ _ _ (muFieldsSum_le_muJ_obj _) (szF_lt_szJ_obj _)
    | exact natLexLt _ _ _ _ (muItemsSum_le_muJ_arr _) (szI_lt_szJ_arr _)
    | · -- the properties arm: strict decrease of the measure
        have e4 : hasObjEntry fields = true :=
          hasObjEntry_of_lookup fields "properties" props (by decide) hp
        have e1 := muFieldsSum_setKey_le
          (setKey fields "properties" (.obj (mutateProps props req)))
          "required" (.arr (props.map (fun p => Json.str p.1)))
        have e0 : muJ (.arr (props.map (fun p => Json.str p.1))) = 0 := by
          simp [muJ, muItemsSum_map_str]
        have e2 := muFieldsSum_setKey_of_lookup fields "properties"
          (.obj (mutateProps props req)) (.obj props) hp
        have e3 : muJ (.obj (mutateProps props req)) ≤ muJ (.obj props) :=
          muJ_obj_le_of _ _ (muFieldsSum_mutateProps_le props req)
            (hasObjEntry_mutateProps props req)
        have e5 : muJ (.obj fields) = 1 + muFieldsSum fields := by
          simp [muJ, e4]
        exact Prod.Lex.left _ _ (by omega)

/-- The walk over the values of a dict (first error wins, as in Python). -/
def rapFields : List (String × Json) → Except Unit (List (String × Json))
  | [] => .ok []
  | (k, v) :: rest =>
      match rapWalk v with
      | .error e => .error e
      | .ok v' =>
          match rapFields rest with
          | .error e => .error e
          | .ok rest' => .ok ((k, v') :: rest')
termination_by l => (muFieldsSum l, szF l)
decreasing_by
  all_goals simp_wf
  all_goals first
    | exact natLexLt _ _ _ _ (muJ_le_muFieldsSum_cons _ _ _)
        (szJ_lt_szF_cons _ _ _)
    | exact natLexLt _ _ _ _ (muFieldsSum_tail_le _ _ _) (szF_tail_lt _ _ _)

/-- The walk over the items of a list. -/
def rapItems : List Json → Except Unit (List Json)
  | [] => .ok []
  | v :: rest =>
      match rapWalk v with
      | .error e => .error e
      | .ok v' =>
          match rapItems rest with
          | .error e => .error e
          | .ok rest' => .ok (v' :: rest')
termination_by l => (muItemsSum l, szI l)
decreasing_by
  all_goals simp_wf
  all_goals first
    | exact natLexLt _ _ _ _ (muJ_le_muItemsSum_cons _ _) (szJ_lt_szI_cons _ _)
    | exact natLexLt _ _ _ _ (muItemsSum_tail_le _ _) (szI_tail_lt _ _)

end

/-- Translation of `enforce_openai_required_all_properties` from
`simpleai/schema.py` (`deepcopy` plus the in-place walk above). -/
def enforce_openai_required_all_properties (schema : Json) :
    Except Unit Json :=
  rapWalk schema

/-! ## schema.py: `strip_schema_keywords` and the provider builders -/

mutual

/-- Translation of `strip_schema_keywords`: recursively remove every key
in the removal set; removed keys are skipped (`continue`), kept values are
walked. -/
def strip_schema_keywords : Json → List String → Json
  | .obj fields, keys => .obj (stripFields fields keys)
  | .arr items, keys => .arr (stripItems items keys)
  | j, _ => j

/-- The strip walk over dict entries. -/
def stripFields : List (String × Json) → List String → List (String × Json)
  | [], _ => []
  | (k, v) :: rest, keys =>
      if k ∈ keys then stripFields rest keys
      else (k, strip_schema_keywords v keys) :: stripFields rest keys

/-- The strip walk over list items. -/
def stripItems : List Json → List String → List Json
  | [], _ => []
  | v :: rest, keys => strip_schema_keywords v keys :: stripItems rest keys

end

/-- The Anthropic-unsupported keyword set from `simpleai/schema.py`. -/
def ANTHROPIC_UNSUPPORTED_SCHEMA_KEYS : List String :=
  ["minimum", "maximum", "exclusiveMinimum", "exclusiveMaximum",
   "multipleOf", "minItems", "maxItems", "uniqueItems"]

/-- Translation of `openai_response_schema` applied to the JSON schema the
pydantic model generates (the external `model_json_schema()` call is the
function argument): `enforce_closed_objects`, then
`enforce_openai_required_all_properties`, then stripping `default` and
`title` last. -/
def openai_response_schema_transform (schema : Json) : Except Unit Json :=
  match enforce_openai_required_all_properties
      (enforce_closed_objects schema) with
  | .error e => .error e
  | .ok s2 => .ok (strip_schema_keywords s2 ["default", "title"])

/-- Translation of `anthropic_response_schema` on the generated schema:
`enforce_closed_objects`, then stripping the Anthropic-unsupported keys. -/
def anthropic_response_schema_transform (schema : Json) : Json :=
  strip_schema_keywords (enforce_closed_objects schema)
    ANTHROPIC_UNSUPPORTED_SCHEMA_KEYS

/-- Translation of `perplexity_response_schema` on the generated schema. -/
def perplexity_response_schema_transform (schema : Json) : Json :=
  enforce_closed_objects schema

/-! ## CLAIM C3: the required-all-properties invariant -/

/-- The per-node property claimed for the required-all transform: every
object-like dict with a `properties` dict lists exactly its property keys
in `required`. -/
def requiredOk (j : Json) : Bool :=
  match j with
  | .obj fields =>
      if isObjectLike fields then
        match lookupJ fields "properties" with
        | some (.obj props) =>
            lookupJ fields "required" ==
              some (.arr (props.map (fun p => Json.str p.1)))
        | _ => true
      else true
  | _ => true

/-- A `required` value Python can turn into a set without raising. -/
def reqValOk : Option Json → Bool
  | none => true
  | some (.arr items) => items.all (fun i => !(isUnhashable i))
  | some (.num n) => decide (n = 0)
  | some (.bool b) => !b
  | some _ => true

/-- A well-behaved schema node: its `properties` map (when present as a
dict) is not itself object-like — i.e. no property is named
`properties` / `required` / `patternProperties` / `additionalProperties`
and no property named `type` makes the map look object-typed — and its
`required` value can be turned into a Python set. -/
def goodNode (j : Json) : Bool :=
  match j with
  | .obj fields =>
      decide (fields.map Prod.fst).Nodup &&
      (match lookupJ fields "properties" with
       | some (.obj props) => !(isObjectLike props)
       | _ => true) &&
      reqValOk (lookupJ fields "required")
  | _ => true

theorem allNodes_obj_iff (p : Json → Bool) (fs : List (String × Json)) :
    allNodes p (.obj fs) = true ↔
      (p (.obj fs) = true ∧ allNodesFields p fs = true) := by
  simp [allNodes]

theorem allNodes_arr_iff (p : Json → Bool) (ts : List Json) :
    allNodes p (.arr ts) = true ↔
      (p (.arr ts) = true ∧ allNodesItems p ts = true) := by
  simp [allNodes]

theorem allNodesFields_cons_iff (p : Json → Bool) (k : String) (v : Json)
    (rest : List (String × Json)) :
    allNodesFields p ((k, v) :: rest) = true ↔
      (allNodes p v = true ∧ allNodesFields p rest = true) := by
  simp [allNodesFields]

theorem allNodesItems_cons_iff (p : Json → Bool) (v : Json)
    (rest : List Json) :
    allNodesItems p (v :: rest) = true ↔
      (allNodes p v = true ∧ allNodesItems p rest = true) := by
  simp [allNodesItems]

theorem allNodesFields_lookup (p : Json → Bool)
    (fs : List (String × Json)) (k : String) (v : Json)
    (hall : allNodesFields p fs = true) (h : lookupJ fs k = some v) :
    allNodes p v = true := by
  induction fs with
  | nil => simp [lookupJ] at h
  | cons hd tl ih =>
      obtain ⟨k₀, v₀⟩ := hd
      rw [allNodesFields_cons_iff] at hall
      simp only [lookupJ] at h
      split at h
      · cases h
        exact hall.1
      · exact ih hall.2 h

theorem allNodesFields_popKey (p : Json → Bool)
    (fs : List (String × Json)) (k : String)
    (hall : allNodesFields p fs = true) :
    allNodesFields p (popKey fs k) = true := by
  induction fs with
  | nil => simpa [popKey] using hall
  | cons hd tl ih =>
      obtain ⟨k₀, v₀⟩ := hd
      rw [allNodesFields_cons_iff] at hall
      by_cases h0 : k₀ = k
      · simpa [popKey, h0] using hall.2
      · rw [show popKey ((k₀, v₀) :: tl) k = (k₀, v₀) :: popKey tl k by
          simp [popKey, h0]]
        rw [allNodesFields_cons_iff]
        exact ⟨hall.1, ih hall.2⟩

theorem allNodesFields_dictMerge (p : Json → Bool)
    (init rest : List (String × Json))
    (h1 : allNodesFields p init = true)
    (h2 : allNodesFields p rest = true) :
    allNodesFields p (dictMerge init rest) = true := by
  induction rest generalizing init with
  | nil => exact h1
  | cons hd tl ih =>
      obtain ⟨k₀, v₀⟩ := hd
      rw [allNodesFields_cons_iff] at h2
      exact ih _ (allNodesFields_setKey p init k₀ v₀ h1 h2.1) h2.2

theorem allNodesItems_append (p : Json → Bool) (a b : List Json)
    (h1 : allNodesItems p a = true) (h2 : allNodesItems p b = true) :
    allNodesItems p (a ++ b) = true := by
  induction a with
  | nil => exact h2
  | cons hd tl ih =>
      rw [List.cons_append, allNodesItems_cons_iff]
      rw [allNodesItems_cons_iff] at h1
      exact ⟨h1.1, ih h1.2⟩

/-- If the `required` value is well-behaved, `set(...)` succeeds. -/
theorem pyReqSet_ok_of_reqValOk (fields : List (String × Json))
    (h : reqValOk (lookupJ fields "required") = true) :
    ∃ req, pyReqSet fields = .ok req := by
  unfold pyReqSet
  rcases hR : lookupJ fields "required" with _ | v
  · exact ⟨[], rfl⟩
  · rw [hR] at h
    cases v with
    | null => exact ⟨[], by simp [pyFalsy]⟩
    | bool b =>
        simp only [reqValOk] at h
        simp [pyFalsy, h]
    | num n =>
        simp only [reqValOk, decide_eq_true_eq] at h
        simp [pyFalsy, h]
    | str ss =>
        by_cases he : ss.isEmpty <;> simp [pyFalsy, he]
    | arr items =>
        simp only [reqValOk, List.all_eq_true] at h
        have hno : items.any isUnhashable = false := by
          rw [List.any_eq_false]
          intro x hx
          have := h x hx
          simp only [Bool.not_eq_true'] at this
          simp [this]
        by_cases he : items.isEmpty <;> simp [pyFalsy, he, hno]
    | obj fs =>
        by_cases he : fs.isEmpty <;> simp [pyFalsy, he]

/-- What the walk preserves about a node (enough for the parents: scalars
are returned unchanged, lists stay lists with the same `"object"`-string
membership, dicts stay dicts, and dicts that are not object-like keep
their key list). -/
def presv (j r : Json) : Prop :=
  match j with
  | .obj fs => ∃ fs', r = .obj fs' ∧
      (isObjectLike fs = false → fs'.map Prod.fst = fs.map Prod.fst)
  | .arr ts => ∃ ts', r = .arr ts' ∧
      ((Json.str "object" ∈ ts') ↔ (Json.str "object" ∈ ts))
  | j0 => r = j0

theorem presv_is_object_type (v r : Json) (h : presv v r) :
    is_object_type (some r) = is_object_type (some v) := by
  cases v with
  | obj fs =>
      obtain ⟨fs', h1, _⟩ := h
      subst h1
      rfl
  | arr ts =>
      obtain ⟨ts', h1, h2⟩ := h
      subst h1
      have e1 : (Json.arr ts' == Json.str "object") = false := by
        simp [beq_eq_false_iff_ne]
      have e2 : (Json.arr ts == Json.str "object") = false := by
        simp [beq_eq_false_iff_ne]
      simp [is_object_type, e1, e2, h2]
  | null =>
      have h2 : r = Json.null := h
      subst h2; rfl
  | bool b =>
      have h2 : r = Json.bool b := h
      subst h2; rfl
  | num n =>
      have h2 : r = Json.num n := h
      subst h2; rfl
  | str ss =>
      have h2 : r = Json.str ss := h
      subst h2; rfl

/-- Key presence is determined by the key list. -/
theorem hasKeyJ_eq_mem (fs : List (String × Json)) (k : String) :
    hasKeyJ fs k = decide (k ∈ fs.map Prod.fst) := by
  rcases h : lookupJ fs k with _ | v
  · have := (lookupJ_eq_none_iff fs k).mp h
    simp [hasKeyJ, h, this]
  · have hm : k ∈ fs.map Prod.fst := by
      by_contra hc
      rw [(lookupJ_eq_none_iff fs k).mpr hc] at h
      cases h
    simp [hasKeyJ, h, hm]

theorem isObjectLike_of_keys_and_type (l l2 : List (String × Json))
    (hk : l2.map Prod.fst = l.map Prod.fst)
    (hty : is_object_type (lookupJ l2 "type") =
      is_object_type (lookupJ l "type")) :
    isObjectLike l2 = isObjectLike l := by
  simp only [isObjectLike, looks_objectish, hty, hasKeyJ_eq_mem]
  rw [hk]

/-- The lexicographic induction principle matching the walk measure. -/
theorem muLex_induction (P : Json → Prop)
    (step : ∀ j, (∀ j2, muJ j2 < muJ j → P j2) →
        (∀ j2, muJ j2 = muJ j → szJ j2 < szJ j → P j2) → P j) :
    ∀ j, P j := by
  suffices h : ∀ n m j, muJ j = n → szJ j = m → P j by
    exact fun j => h (muJ j) (szJ j) j rfl rfl
  intro n
  induction n using Nat.strong_induction_on with
  | _ n ihn =>
      intro m
      induction m using Nat.strong_induction_on with
      | _ m ihm =>
          intro j h1 h2
          apply step
          · intro j2 hlt
            exact ihn (muJ j2) (h1 ▸ hlt) (szJ j2) j2 rfl rfl
          · intro j2 heq hlt
            exact ihm (szJ j2) (h2 ▸ hlt) j2 (heq.trans h1) rfl

theorem mem_setKey (fs : List (String × Json)) (k0 : String) (v0 : Json)
    (k : String) (v : Json) (h : (k, v) ∈ setKey fs k0 v0) :
    (k, v) ∈ fs ∨ (k = k0 ∧ v = v0) := by
  induction fs with
  | nil =>
      simp only [setKey, List.mem_singleton] at h
      cases h
      exact Or.inr ⟨rfl, rfl⟩
  | cons hd tl ih =>
      obtain ⟨k₁, v₁⟩ := hd
      by_cases h0 : k₁ = k0
      · simp only [setKey, if_pos h0, List.mem_cons] at h
        rcases h with h | h
        · cases h
          exact Or.inr ⟨h0, rfl⟩
        · exact Or.inl (List.mem_cons_of_mem _ h)
      · simp only [setKey, if_neg h0, List.mem_cons] at h
        rcases h with h | h
        · exact Or.inl (by simp [h])
        · rcases ih h with h' | h'
          · exact Or.inl (List.mem_cons_of_mem _ h')
          · exact Or.inr h'

theorem muJ_mem_fields_le (fs : List (String × Json)) (k : String)
    (v : Json) (h : (k, v) ∈ fs) : muJ v ≤ muFieldsSum fs := by
  induction fs with
  | nil => cases h
  | cons hd tl ih =>
      obtain ⟨k₁, v₁⟩ := hd
      rcases List.mem_cons.mp h with h' | h'
      · cases h'
        simp only [muFieldsSum]
        omega
      · have := ih h'
        simp only [muFieldsSum]
        omega

theorem szJ_mem_fields_lt (fs : List (String × Json)) (k : String)
    (v : Json) (h : (k, v) ∈ fs) : szJ v < szJ (.obj fs) := by
  induction fs with
  | nil => cases h
  | cons hd tl ih =>
      obtain ⟨k₁, v₁⟩ := hd
      rcases List.mem_cons.mp h with h' | h'
      · cases h'
        simp only [szJ, szF]
        omega
      · have := ih h'
        simp only [szJ, szF] at this ⊢
        omega

theorem muJ_mem_items_le (ts : List Json) (v : Json) (h : v ∈ ts) :
    muJ v ≤ muItemsSum ts := by
  induction ts with
  | nil => cases h
  | cons hd tl ih =>
      rcases List.mem_cons.mp h with h' | h'
      · subst h'
        simp only [muItemsSum]
        omega
      · have := ih h'
        simp only [muItemsSum]
        omega

theorem szJ_mem_items_lt (ts : List Json) (v : Json) (h : v ∈ ts) :
    szJ v < szJ (.arr ts) := by
  induction ts with
  | nil => cases h
  | cons hd tl ih =>
      rcases List.mem_cons.mp h with h' | h'
      · subst h'
        simp only [szJ, szI]
        omega
      · have := ih h'
        simp only [szJ, szI] at this ⊢
        omega

theorem lookupJ_append (a b : List (String × Json)) (k : String) :
    lookupJ (a ++ b) k =
      match lookupJ a k with
      | some v => some v
      | none => lookupJ b k := by
  induction a with
  | nil => simp [lookupJ]
  | cons hd tl ih =>
      obtain ⟨k₀, v₀⟩ := hd
      by_cases h0 : k₀ = k <;> simp [lookupJ, h0, ih]

theorem allNodesFields_append (p : Json → Bool) (a b : List (String × Json))
    (h1 : allNodesFields p a = true) (h2 : allNodesFields p b = true) :
    allNodesFields p (a ++ b) = true := by
  induction a with
  | nil => exact h2
  | cons hd tl ih =>
      obtain ⟨k₀, v₀⟩ := hd
      rw [List.cons_append, allNodesFields_cons_iff]
      rw [allNodesFields_cons_iff] at h1
      exact ⟨h1.1, ih h1.2⟩

theorem setKey_keys_of_lookup (fs : List (String × Json)) (k : String)
    (v w : Json) (h : lookupJ fs k = some w) :
    (setKey fs k v).map Prod.fst = fs.map Prod.fst := by
  induction fs with
  | nil => simp [lookupJ] at h
  | cons hd tl ih =>
      obtain ⟨k₀, v₀⟩ := hd
      by_cases h0 : k₀ = k
      · simp [setKey, h0]
      · simp only [lookupJ, if_neg h0] at h
        simp [setKey, h0, ih h]

theorem popKey_keys_sublist (fs : List (String × Json)) (k : String) :
    ((popKey fs k).map Prod.fst).Sublist (fs.map Prod.fst) := by
  induction fs with
  | nil => simp [popKey]
  | cons hd tl ih =>
      obtain ⟨k₀, v₀⟩ := hd
      by_cases h0 : k₀ = k
      · simp only [popKey, if_pos h0, List.map_cons]
        exact (List.Sublist.refl _).cons _
      · simp only [popKey, if_neg h0, List.map_cons]
        exact List.Sublist.cons₂ _ ih

theorem popKey_keys_nodup (fs : List (String × Json)) (k : String)
    (h : (fs.map Prod.fst).Nodup) :
    ((popKey fs k).map Prod.fst).Nodup :=
  (popKey_keys_sublist fs k).nodup h

/-- Folding a dict over a one-binding accumulator: with unique keys in
the written entries, the result is the head binding (possibly overwritten)
followed by the remaining entries. -/
theorem dictMerge_acc (x : String × Json) (acc rest : List (String × Json))
    (hnd : (rest.map Prod.fst).Nodup)
    (hdisj : ∀ k ∈ acc.map Prod.fst, k ∉ rest.map Prod.fst)
    (hx : x.1 ∉ acc.map Prod.fst) :
    dictMerge (x :: acc) rest =
      (x.1, (lookupJ rest x.1).getD x.2) :: (acc ++ popKey rest x.1) := by
  induction rest generalizing x acc with
  | nil => simp [dictMerge, lookupJ, popKey]
  | cons hd tl ih =>
      obtain ⟨k, v⟩ := hd
      simp only [List.map_cons, List.nodup_cons] at hnd
      show dictMerge (setKey (x :: acc) k v) tl = _
      by_cases hk : k = x.1
      · have hs : setKey (x :: acc) k v = (x.1, v) :: acc := by
          rcases x with ⟨x1, x2⟩
          simp only [setKey]
          simp only at hk
          rw [if_pos hk.symm]
        rw [hs]
        have hih := ih (x.1, v) acc hnd.2
          (fun k2 hk2 hc => hdisj k2 hk2 (List.mem_cons_of_mem _ hc)) hx
        rw [hih]
        have hnone : lookupJ tl x.1 = none := by
          apply (lookupJ_eq_none_iff tl x.1).mpr
          rw [← hk]
          exact hnd.1
        rw [show lookupJ ((k, v) :: tl) x.1 = some v by simp [lookupJ, hk],
          show popKey ((k, v) :: tl) x.1 = tl by simp [popKey, hk],
          hnone, popKey_of_none tl x.1 hnone]
        rfl
      · have hknotacc : k ∉ acc.map Prod.fst := by
          intro hc
          exact hdisj k hc (by simp)
        have hs : setKey (x :: acc) k v = x :: (acc ++ [(k, v)]) := by
          rcases x with ⟨x1, x2⟩
          simp only [setKey]
          rw [if_neg (by simpa using fun hh : x1 = k => hk hh.symm)]
          rw [setKey_of_none acc k v
            ((lookupJ_eq_none_iff acc k).mpr hknotacc)]
        rw [hs]
        have hih := ih x (acc ++ [(k, v)]) hnd.2
          (by
            intro k2 hk2 hc
            simp only [List.map_append, List.mem_append, List.map_cons,
              List.map_nil, List.mem_singleton] at hk2
            rcases hk2 with hk2 | hk2
            · exact hdisj k2 hk2 (List.mem_cons_of_mem _ hc)
            · subst hk2
              exact hnd.1 hc)
          (by
            intro hc
            simp only [List.map_append, List.mem_append, List.map_cons,
              List.map_nil, List.mem_singleton] at hc
            rcases hc with hc | hc
            · exact hx hc
            · exact hk hc.symm)
        rw [hih]
        rw [show lookupJ ((k, v) :: tl) x.1 = lookupJ tl x.1 by
          simp [lookupJ, hk],
          show popKey ((k, v) :: tl) x.1 = (k, v) :: popKey tl x.1 by
          simp [popKey, hk]]
        simp [List.append_assoc]

/-- The dict literal with one leading binding, under unique keys. -/
theorem dictMerge_single (k0 : String) (v0 : Json)
    (rest : List (String × Json)) (hnd : (rest.map Prod.fst).Nodup) :
    dictMerge [(k0, v0)] rest =
      (k0, (lookupJ rest k0).getD v0) :: popKey rest k0 := by
  have := dictMerge_acc (k0, v0) [] rest hnd (by simp) (by simp)
  simpa using this

theorem mutateProps_keys (props : List (String × Json)) (req : List Json) :
    (mutateProps props req).map Prod.fst = props.map Prod.fst := by
  induction props with
  | nil => rfl
  | cons hd tl ih =>
      obtain ⟨k, v⟩ := hd
      simp [mutateProps, ih]

theorem lookupJ_mutateProps (props : List (String × Json)) (req : List Json)
    (k : String) :
    lookupJ (mutateProps props req) k =
      (lookupJ props k).map (mutateVal req k) := by
  induction props with
  | nil => rfl
  | cons hd tl ih =>
      obtain ⟨k₀, v₀⟩ := hd
      by_cases h0 : k₀ = k
      · subst h0
        simp [mutateProps, lookupJ]
      · simp [mutateProps, lookupJ, h0, ih]

theorem rapWalk_null : rapWalk .null = .ok .null := by
  simp [rapWalk]

theorem rapWalk_bool (b : Bool) : rapWalk (.bool b) = .ok (.bool b) := by
  simp [rapWalk]

theorem rapWalk_num (n : Int) : rapWalk (.num n) = .ok (.num n) := by
  simp [rapWalk]

theorem rapWalk_str (s : String) : rapWalk (.str s) = .ok (.str s) := by
  simp [rapWalk]

/-- The walk is the identity on lists of strings. -/
theorem rapItems_of_strs (ts : List Json)
    (h : ∀ x ∈ ts, ∃ s, x = Json.str s) : rapItems ts = .ok ts := by
  induction ts with
  | nil => simp [rapItems]
  | cons hd tl ih =>
      obtain ⟨s, hs⟩ := h hd (by simp)
      subst hs
      rw [show rapItems (Json.str s :: tl) =
          match rapWalk (.str s) with
          | .error e => .error e
          | .ok v' =>
              match rapItems tl with
              | .error e => .error e
              | .ok rest' => .ok (v' :: rest') from by simp [rapItems]]
      rw [rapWalk_str, ih (fun x hx => h x (List.mem_cons_of_mem _ hx))]

theorem rapWalk_arr_of_strs (ts : List Json)
    (h : ∀ x ∈ ts, ∃ s, x = Json.str s) :
    rapWalk (.arr ts) = .ok (.arr ts) := by
  rw [show rapWalk (.arr ts) =
      match rapItems ts with
      | .error e => .error e
      | .ok l' => .ok (.arr l') from by simp [rapWalk]]
  rw [rapItems_of_strs ts h]

/-- `goodNode` only inspects the key list and two lookups. -/
theorem goodNode_obj_of (fs : List (String × Json))
    (h1 : (fs.map Prod.fst).Nodup)
    (h2 : match lookupJ fs "properties" with
      | some (.obj props) => isObjectLike props = false
      | _ => True)
    (h3 : reqValOk (lookupJ fs "required") = true) :
    goodNode (.obj fs) = true := by
  simp only [goodNode, Bool.and_eq_true, decide_eq_true_eq]
  refine ⟨⟨h1, ?_⟩, h3⟩
  rcases hP : lookupJ fs "properties" with _ | v
  · rfl
  · rw [hP] at h2
    cases v with
    | obj props => simpa using h2
    | null => rfl
    | bool b => rfl
    | num n => rfl
    | str ss => rfl
    | arr a => rfl

theorem goodNode_obj_parts (fs : List (String × Json))
    (h : goodNode (.obj fs) = true) :
    (fs.map Prod.fst).Nodup ∧
    (∀ props, lookupJ fs "properties" = some (.obj props) →
      isObjectLike props = false) ∧
    reqValOk (lookupJ fs "required") = true := by
  simp only [goodNode, Bool.and_eq_true, decide_eq_true_eq] at h
  refine ⟨h.1.1, ?_, h.2⟩
  intro props hp
  have := h.1.2
  rw [hp] at this
  simpa using this

theorem goodNode_obj_of_eq (fs2 fs : List (String × Json))
    (hk : (fs2.map Prod.fst).Nodup)
    (hp : lookupJ fs2 "properties" = lookupJ fs "properties")
    (hr : lookupJ fs2 "required" = lookupJ fs "required")
    (hg : goodNode (.obj fs) = true) : goodNode (.obj fs2) = true := by
  simp only [goodNode, Bool.and_eq_true, decide_eq_true_eq] at hg ⊢
  exact ⟨⟨hk, hp ▸ hg.1.2⟩, hr ▸ hg.2⟩

theorem allNodes_goodNode_nullTypeNode :
    allNodes goodNode nullTypeNode = true := by decide

theorem allNodes_goodNode_typeWrapper (t : Json)
    (h : allNodes goodNode t = true) :
    allNodes goodNode (.obj [("type", t)]) = true := by
  rw [allNodes_obj_iff]
  constructor
  · apply goodNode_obj_of
    · simp
    · rw [show lookupJ [("type", t)] "properties" = none by simp [lookupJ]]
      trivial
    · rw [show lookupJ [("type", t)] "required" = none by simp [lookupJ]]
      rfl
  · rw [allNodesFields_cons_iff]
    exact ⟨h, rfl⟩

theorem allNodesItems_goodNode_wrap (ts : List Json) (p : Json → Bool)
    (h : allNodesItems goodNode ts = true) :
    allNodesItems goodNode
      ((ts.filter p).map (fun t => Json.obj [("type", t)])) = true := by
  induction ts with
  | nil => rfl
  | cons hd tl ih =>
      rw [allNodesItems_cons_iff] at h
      by_cases hp : p hd
      · simp only [List.filter_cons, if_pos hp, List.map_cons]
        rw [allNodesItems_cons_iff]
        exact ⟨allNodes_goodNode_typeWrapper hd h.1, ih h.2⟩
      · simp only [List.filter_cons, if_neg hp]
        exact ih h.2

/-- The anyOf list built by the rewriting branches stays well-behaved. -/
theorem allNodes_goodNode_anyOf_arr (L : List Json)
    (h : allNodesItems goodNode L = true) :
    allNodes goodNode (.arr (L ++ [nullTypeNode])) = true := by
  rw [allNodes_arr_iff]
  exact ⟨rfl, allNodesItems_append _ _ _ h
    (by rw [allNodesItems_cons_iff]
        exact ⟨allNodes_goodNode_nullTypeNode, rfl⟩)⟩

/-- `_make_nullable` preserves well-behavedness of the whole subtree. -/
theorem allNodes_goodNode_make_nullable (fs : List (String × Json))
    (h : allNodes goodNode (.obj fs) = true) :
    allNodes goodNode (make_nullable (.obj fs)) = true := by
  obtain ⟨hg, hf⟩ := (allNodes_obj_iff _ _).mp h
  obtain ⟨hnd, hpropsOK, hreq⟩ := goodNode_obj_parts _ hg
  rcases make_nullable_cases fs _ rfl with hc | ⟨L, hL, hc⟩ | ⟨L, hL, hc⟩ |
    ⟨t, hT, hc⟩ | ⟨ts, hT, hc⟩ | hc
  · rw [hc]
    exact h
  · -- anyOf branch
    rw [hc, allNodes_obj_iff]
    have hLgood : allNodesItems goodNode L = true := by
      have := allNodesFields_lookup _ _ _ _ hf hL
      exact ((allNodes_arr_iff _ _).mp this).2
    constructor
    · apply goodNode_obj_of_eq _ fs
      · rw [setKey_keys_of_lookup _ _ _ _ hL]
        exact hnd
      · exact lookupJ_setKey_ne _ _ _ _ (by decide)
      · exact lookupJ_setKey_ne _ _ _ _ (by decide)
      · exact hg
    · exact allNodesFields_setKey _ _ _ _ hf
        (allNodes_goodNode_anyOf_arr L hLgood)
  · -- oneOf branch
    rw [hc, allNodes_obj_iff]
    have hLgood : allNodesItems goodNode L = true := by
      have := allNodesFields_lookup _ _ _ _ hf hL
      exact ((allNodes_arr_iff _ _).mp this).2
    have hndY : ((setKey fs "anyOf"
        (.arr (L ++ [nullTypeNode]))).map Prod.fst).Nodup := by
      rcases hA : lookupJ fs "anyOf" with _ | w
      · rw [setKey_keys_of_none _ _ _ hA]
        simp only [List.nodup_append, List.nodup_cons, List.nodup_nil]
        refine ⟨hnd, by simp, ?_⟩
        intro a ha hb
        simp only [List.mem_singleton] at hb
        subst hb
        exact absurd ((lookupJ_eq_none_iff fs "anyOf").mp hA) (by simp [ha])
      · rw [setKey_keys_of_lookup _ _ _ _ hA]
        exact hnd
    constructor
    · apply goodNode_obj_of_eq _ fs
      · exact popKey_keys_nodup _ _ hndY
      · rw [lookupJ_popKey_ne _ _ _ (by decide),
          lookupJ_setKey_ne _ _ _ _ (by decide)]
      · rw [lookupJ_popKey_ne _ _ _ (by decide),
          lookupJ_setKey_ne _ _ _ _ (by decide)]
      · exact hg
    · exact allNodesFields_popKey _ _ _ (allNodesFields_setKey _ _ _ _ hf
        (allNodes_goodNode_anyOf_arr L hLgood))
  · -- single string type branch
    rw [hc]
    have hndrest : ((popKey fs "type").map Prod.fst).Nodup :=
      popKey_keys_nodup _ _ hnd
    rw [dictMerge_single _ _ _ hndrest, allNodes_obj_iff]
    have hfrest : allNodesFields goodNode (popKey fs "type") = true :=
      allNodesFields_popKey _ _ _ hf
    have hanone : lookupJ (popKey (popKey fs "type") "anyOf") "anyOf" =
        none := lookupJ_popKey_self _ _ hndrest
    constructor
    · apply goodNode_obj_of_eq _ fs
      · simp only [List.map_cons, List.nodup_cons]
        refine ⟨?_, popKey_keys_nodup _ _ hndrest⟩
        exact (lookupJ_eq_none_iff _ _).mp hanone
      · show lookupJ (("anyOf", _) :: _) "properties" = _
        rw [show ∀ v rest, lookupJ (("anyOf", v) :: rest) "properties" =
            lookupJ rest "properties" from fun v rest => by simp [lookupJ]]
        rw [lookupJ_popKey_ne _ _ _ (by decide),
          lookupJ_popKey_ne _ _ _ (by decide)]
      · show lookupJ (("anyOf", _) :: _) "required" = _
        rw [show ∀ v rest, lookupJ (("anyOf", v) :: rest) "required" =
            lookupJ rest "required" from fun v rest => by simp [lookupJ]]
        rw [lookupJ_popKey_ne _ _ _ (by decide),
          lookupJ_popKey_ne _ _ _ (by decide)]
      · exact hg
    · rw [allNodesFields_cons_iff]
      constructor
      · rcases hA : lookupJ (popKey fs "type") "anyOf" with _ | w
        · simp only [hA, Option.getD_none]
          exact allNodes_goodNode_anyOf_arr [Json.obj [("type", Json.str t)]]
            (by rw [allNodesItems_cons_iff]
                exact ⟨allNodes_goodNode_typeWrapper _ rfl, rfl⟩)
        · simp only [hA, Option.getD_some]
          exact allNodesFields_lookup _ _ _ _ hfrest hA
      · exact allNodesFields_popKey _ _ _ hfrest
  · -- type list branch
    rw [hc]
    have hndrest : ((popKey fs "type").map Prod.fst).Nodup :=
      popKey_keys_nodup _ _ hnd
    rw [dictMerge_single _ _ _ hndrest, allNodes_obj_iff]
    have hfrest : allNodesFields goodNode (popKey fs "type") = true :=
      allNodesFields_popKey _ _ _ hf
    have hanone : lookupJ (popKey (popKey fs "type") "anyOf") "anyOf" =
        none := lookupJ_popKey_self _ _ hndrest
    have htsgood : allNodesItems goodNode ts = true := by
      have := allNodesFields_lookup _ _ _ _ hf hT
      exact ((allNodes_arr_iff _ _).mp this).2
    constructor
    · apply goodNode_obj_of_eq _ fs
      · simp only [List.map_cons, List.nodup_cons]
        refine ⟨?_, popKey_keys_nodup _ _ hndrest⟩
        exact (lookupJ_eq_none_iff _ _).mp hanone
      · show lookupJ (("anyOf", _) :: _) "properties" = _
        rw [show ∀ v rest, lookupJ (("anyOf", v) :: rest) "properties" =
            lookupJ rest "properties" from fun v rest => by simp [lookupJ]]
        rw [lookupJ_popKey_ne _ _ _ (by decide),
          lookupJ_popKey_ne _ _ _ (by decide)]
      · show lookupJ (("anyOf", _) :: _) "required" = _
        rw [show ∀ v rest, lookupJ (("anyOf", v) :: rest) "required" =
            lookupJ rest "required" from fun v rest => by simp [lookupJ]]
        rw [lookupJ_popKey_ne _ _ _ (by decide),
          lookupJ_popKey_ne _ _ _ (by decide)]
      · exact hg
    · rw [allNodesFields_cons_iff]
      constructor
      · rcases hA : lookupJ (popKey fs "type") "anyOf" with _ | w
        · simp only [hA, Option.getD_none]
          exact allNodes_goodNode_anyOf_arr _
            (allNodesItems_goodNode_wrap ts _ htsgood)
        · simp only [hA, Option.getD_some]
          exact allNodesFields_lookup _ _ _ _ hfrest hA
      · exact allNodesFields_popKey _ _ _ hfrest
  · -- wrap branch
    rw [hc, allNodes_obj_iff]
    constructor
    · apply goodNode_obj_of
      · simp
      · rw [show lookupJ [("anyOf", Json.arr [.obj fs, nullTypeNode])]
            "properties" = none by simp [lookupJ]]
        trivial
      · rw [show lookupJ [("anyOf", Json.arr [.obj fs, nullTypeNode])]
            "required" = none by simp [lookupJ]]
        rfl
    · rw [allNodesFields_cons_iff]
      refine ⟨?_, rfl⟩
      rw [allNodes_arr_iff]
      refine ⟨rfl, ?_⟩
      rw [allNodesItems_cons_iff]
      refine ⟨h, ?_⟩
      rw [allNodesItems_cons_iff]
      exact ⟨allNodes_goodNode_nullTypeNode, rfl⟩

theorem lookupJ_mem (fs : List (String × Json)) (k : String) (v : Json)
    (h : lookupJ fs k = some v) : (k, v) ∈ fs := by
  induction fs with
  | nil => simp [lookupJ] at h
  | cons hd tl ih =>
      obtain ⟨k₀, v₀⟩ := hd
      by_cases h0 : k₀ = k
      · subst h0
        simp only [lookupJ, if_pos rfl] at h
        cases h
        simp
      · simp only [lookupJ, if_neg h0] at h
        exact List.mem_cons_of_mem _ (ih h)

theorem not_objectish_lookups (fs : List (String × Json))
    (h : isObjectLike fs = false) :
    lookupJ fs "properties" = none ∧ lookupJ fs "required" = none := by
  constructor
  · rcases hx : lookupJ fs "properties" with _ | v
    · rfl
    · exfalso
      simp [isObjectLike, looks_objectish, hasKeyJ, hx] at h
  · rcases hx : lookupJ fs "required" with _ | v
    · rfl
    · exfalso
      simp [isObjectLike, looks_objectish, hasKeyJ, hx] at h

theorem allNodesFields_goodNode_mutateProps (props : List (String × Json))
    (req : List Json) (h : allNodesFields goodNode props = true) :
    allNodesFields goodNode (mutateProps props req) = true := by
  induction props with
  | nil => rfl
  | cons hd tl ih =>
      obtain ⟨k, v⟩ := hd
      rw [allNodesFields_cons_iff] at h
      simp only [mutateProps]
      rw [allNodesFields_cons_iff]
      refine ⟨?_, ih h.2⟩
      unfold mutateVal
      split
      · exact h.1
      · cases v with
        | obj fs => exact allNodes_goodNode_make_nullable fs h.1
        | null => exact h.1
        | bool b => exact h.1
        | num n => exact h.1
        | str ss => exact h.1
        | arr a => exact h.1

theorem allNodesItems_mapstr (p : Json → Bool)
    (hp : ∀ s, p (Json.str s) = true) (l : List (String × Json)) :
    allNodesItems p (l.map (fun q => Json.str q.1)) = true := by
  induction l with
  | nil => rfl
  | cons hd tl ih =>
      rw [List.map_cons, allNodesItems_cons_iff]
      exact ⟨hp hd.1, ih⟩

theorem is_object_type_mutateVal (req : List Json) (k : String) (v : Json) :
    is_object_type (some (mutateVal req k v)) = is_object_type (some v) := by
  unfold mutateVal
  split
  · rfl
  · cases v with
    | obj fs =>
        obtain ⟨fs', h⟩ := make_nullable_obj fs
        show is_object_type (some (make_nullable (.obj fs))) = _
        rw [h]
        rfl
    | null => rfl
    | bool b => rfl
    | num n => rfl
    | str ss => rfl
    | arr a => rfl

theorem isObjectLike_mutateProps (props : List (String × Json))
    (req : List Json) :
    isObjectLike (mutateProps props req) = isObjectLike props := by
  apply isObjectLike_of_keys_and_type _ _ (mutateProps_keys props req)
  rw [lookupJ_mutateProps]
  rcases hT : lookupJ props "type" with _ | v
  · rfl
  · exact is_object_type_mutateVal req "type" v

theorem presv_not_obj (v r : Json) (h : presv v r) (hv : isObjJ v = false) :
    isObjJ r = false := by
  cases v with
  | obj fs => simp [isObjJ] at hv
  | arr ts =>
      obtain ⟨ts', h1, _⟩ := h
      subst h1
      rfl
  | null =>
      have h2 : r = Json.null := h
      subst h2; rfl
  | bool b =>
      have h2 : r = Json.bool b := h
      subst h2; rfl
  | num n =>
      have h2 : r = Json.num n := h
      subst h2; rfl
  | str ss =>
      have h2 : r = Json.str ss := h
      subst h2; rfl

theorem presv_str_object_iff (v r : Json) (h : presv v r) :
    (r = Json.str "object") ↔ (v = Json.str "object") := by
  cases v with
  | obj fs =>
      obtain ⟨fs', h1, _⟩ := h
      subst h1
      simp
  | arr ts =>
      obtain ⟨ts', h1, _⟩ := h
      subst h1
      simp
  | null =>
      have h2 : r = Json.null := h
      subst h2; simp
  | bool b =>
      have h2 : r = Json.bool b := h
      subst h2; simp
  | num n =>
      have h2 : r = Json.num n := h
      subst h2; simp
  | str ss =>
      have h2 : r = Json.str ss := h
      subst h2
      exact Iff.rfl

theorem requiredOk_of_not_objectish (l : List (String × Json))
    (h : isObjectLike l = false) : requiredOk (.obj l) = true := by
  simp [requiredOk, h]

theorem requiredOk_of_properties_not_obj (l : List (String × Json))
    (h : ∀ props, lookupJ l "properties" ≠ some (.obj props)) :
    requiredOk (.obj l) = true := by
  show (if isObjectLike l then
      match lookupJ l "properties" with
      | some (Json.obj props) =>
          lookupJ l "required" ==
            some (Json.arr (props.map (fun p => Json.str p.1)))
      | _ => true
    else true) = true
  split
  · rcases hp : lookupJ l "properties" with _ | v
    · rfl
    · cases v with
      | obj props => exact absurd hp (h props)
      | null => rfl
      | bool b => rfl
      | num n => rfl
      | str ss => rfl
      | arr a => rfl
  · rfl

theorem requiredOk_obj_of_required_eq (l props1 : List (String × Json))
    (hp : lookupJ l "properties" = some (.obj props1))
    (hr : lookupJ l "required" =
      some (.arr (props1.map (fun p => Json.str p.1)))) :
    requiredOk (.obj l) = true := by
  show (if isObjectLike l then
      match lookupJ l "properties" with
      | some (Json.obj props) =>
          lookupJ l "required" ==
            some (Json.arr (props.map (fun p => Json.str p.1)))
      | _ => true
    else true) = true
  split
  · rw [hp]
    show (lookupJ l "required" ==
      some (Json.arr (props1.map (fun p => Json.str p.1)))) = true
    rw [hr]
    simp
  · rfl

theorem isObjectLike_walked (l l2 : List (String × Json))
    (hk : l2.map Prod.fst = l.map Prod.fst)
    (hsome : ∀ k v, lookupJ l k = some v →
      ∃ v2, lookupJ l2 k = some v2 ∧ presv v v2)
    (hnone : ∀ k, lookupJ l k = none → lookupJ l2 k = none) :
    isObjectLike l2 = isObjectLike l := by
  apply isObjectLike_of_keys_and_type _ _ hk
  rcases hT : lookupJ l "type" with _ | v
  · rw [hnone _ hT]
  · obtain ⟨v2, hv2, hpr⟩ := hsome _ _ hT
    rw [hv2]
    exact presv_is_object_type _ _ hpr

theorem rapFields_ih (l : List (String × Json))
    (IH : ∀ k v, (k, v) ∈ l → allNodes goodNode v = true →
        ∃ r, rapWalk v = .ok r ∧ allNodes requiredOk r = true ∧ presv v r)
    (hall : allNodesFields goodNode l = true) :
    ∃ l2, rapFields l = .ok l2 ∧ allNodesFields requiredOk l2 = true ∧
      l2.map Prod.fst = l.map Prod.fst ∧
      (∀ k v, lookupJ l k = some v →
        ∃ v2, lookupJ l2 k = some v2 ∧ rapWalk v = .ok v2 ∧ presv v v2) ∧
      (∀ k, lookupJ l k = none → lookupJ l2 k = none) := by
  induction l with
  | nil =>
      refine ⟨[], by simp [rapFields], rfl, rfl, ?_, fun k hk => rfl⟩
      intro k v hkv
      simp [lookupJ] at hkv
  | cons hd tl ih =>
      obtain ⟨k₀, v₀⟩ := hd
      rw [allNodesFields_cons_iff] at hall
      obtain ⟨r₀, hr₀, hreq₀, hpres₀⟩ := IH k₀ v₀ (by simp) hall.1
      obtain ⟨tl2, htl2, hreqtl, hktl, hsometl, hnonetl⟩ :=
        ih (fun k v hm hg => IH k v (List.mem_cons_of_mem _ hm) hg) hall.2
      refine ⟨(k₀, r₀) :: tl2, ?_, ?_, ?_, ?_, ?_⟩
      · rw [show rapFields ((k₀, v₀) :: tl) =
            match rapWalk v₀ with
            | .error e => .error e
            | .ok v2 =>
                match rapFields tl with
                | .error e => .error e
                | .ok rest2 => .ok ((k₀, v2) :: rest2) from by
              simp [rapFields]]
        rw [hr₀, htl2]
      · rw [allNodesFields_cons_iff]
        exact ⟨hreq₀, hreqtl⟩
      · simp [hktl]
      · intro k v hkv
        by_cases h0 : k₀ = k
        · subst h0
          simp only [lookupJ, if_pos rfl] at hkv ⊢
          cases hkv
          exact ⟨r₀, rfl, hr₀, hpres₀⟩
        · simp only [lookupJ, if_neg h0] at hkv ⊢
          exact hsometl k v hkv
      · intro k hk
        by_cases h0 : k₀ = k
        · subst h0
          simp [lookupJ] at hk
        · simp only [lookupJ, if_neg h0] at hk ⊢
          exact hnonetl k hk

theorem rapItems_ih (l : List Json)
    (IH : ∀ v, v ∈ l → allNodes goodNode v = true →
        ∃ r, rapWalk v = .ok r ∧ allNodes requiredOk r = true ∧ presv v r)
    (hall : allNodesItems goodNode l = true) :
    ∃ l2, rapItems l = .ok l2 ∧ allNodesItems requiredOk l2 = true ∧
      ((Json.str "object" ∈ l2) ↔ (Json.str "object" ∈ l)) := by
  induction l with
  | nil =>
      refine ⟨[], by simp [rapItems], rfl, by simp⟩
  | cons hd tl ih =>
      rw [allNodesItems_cons_iff] at hall
      obtain ⟨r₀, hr₀, hreq₀, hpres₀⟩ := IH hd (by simp) hall.1
      obtain ⟨tl2, htl2, hreqtl, hmemtl⟩ :=
        ih (fun v hm hg => IH v (List.mem_cons_of_mem _ hm) hg) hall.2
      refine ⟨r₀ :: tl2, ?_, ?_, ?_⟩
      · rw [show rapItems (hd :: tl) =
            match rapWalk hd with
            | .error e => .error e
            | .ok v2 =>
                match rapItems tl with
                | .error e => .error e
                | .ok rest2 => .ok (v2 :: rest2) from by
              simp [rapItems]]
        rw [hr₀, htl2]
      · rw [allNodesItems_cons_iff]
        exact ⟨hreq₀, hreqtl⟩
      · simp only [List.mem_cons]
        constructor
        · rintro (h | h)
          · exact Or.inl ((presv_str_object_iff hd r₀ hpres₀).mp h.symm).symm
          · exact Or.inr (hmemtl.mp h)
        · rintro (h | h)
          · exact Or.inl ((presv_str_object_iff hd r₀ hpres₀).mpr h.symm).symm
          · exact Or.inr (hmemtl.mpr h)

theorem map_str_fst_eq_of_keys (a b : List (String × Json))
    (h : a.map Prod.fst = b.map Prod.fst) :
    a.map (fun p => Json.str p.1) = b.map (fun p => Json.str p.1) := by
  induction a generalizing b with
  | nil =>
      cases b with
      | nil => rfl
      | cons hd2 tl2 => simp at h
  | cons hd tl ih =>
      cases b with
      | nil => simp at h
      | cons hd2 tl2 =>
          simp only [List.map_cons, List.cons.injEq] at h ⊢
          exact ⟨by rw [h.1], ih tl2 h.2⟩

theorem rapWalk_obj_notobjish_eq (fields : List (String × Json))
    (ho : isObjectLike fields = false) :
    rapWalk (.obj fields) =
      match rapFields fields with
      | .error e => .error e
      | .ok l2 => .ok (.obj l2) := by
  simp [rapWalk, ho]

theorem rapWalk_obj_props_eq (fields props : List (String × Json))
    (req : List Json)
    (ho : isObjectLike fields = true)
    (hp : lookupJ fields "properties" = some (.obj props))
    (hpy : pyReqSet fields = .ok req) :
    rapWalk (.obj fields) =
      match rapFields (setKey (setKey fields "properties"
          (.obj (mutateProps props req))) "required"
          (.arr (props.map (fun p => Json.str p.1)))) with
      | .error e => .error e
      | .ok l2 => .ok (.obj l2) := by
  simp only [rapWalk, ho, if_true, hpy]
  split
  · rename_i props2 heq2
    rw [hp] at heq2
    injection heq2 with h3
    injection h3 with h4
    subst h4
    rfl
  · rename_i heq2
    exact (heq2 props hp).elim

theorem rapWalk_obj_else_eq (fields : List (String × Json))
    (ho : isObjectLike fields = true)
    (hP : ∀ props, lookupJ fields "properties" ≠ some (.obj props)) :
    rapWalk (.obj fields) =
      (if hasKeyJ fields "required" then
        match rapFields fields with
        | .error e => .error e
        | .ok l2 => .ok (.obj l2)
      else
        match rapFields fields with
        | .error e => .error e
        | .ok l2 => .ok (.obj (l2 ++ [("required", Json.arr [])]))) := by
  rcases hp : lookupJ fields "properties" with _ | v
  · simp [rapWalk, ho, hp]
  · cases v with
    | obj props => exact absurd hp (hP props)
    | null => simp [rapWalk, ho, hp]
    | bool b => simp [rapWalk, ho, hp]
    | num n => simp [rapWalk, ho, hp]
    | str ss => simp [rapWalk, ho, hp]
    | arr a => simp [rapWalk, ho, hp]

/-- Main invariant for the `required = all property names` walk: on a tree
of good nodes the walk succeeds and every node of the result lists exactly
the property names in `required`. -/
theorem rapWalk_good_total : ∀ j, allNodes goodNode j = true →
    ∃ r, rapWalk j = .ok r ∧ allNodes requiredOk r = true ∧ presv j r := by
  apply muLex_induction (fun j => allNodes goodNode j = true →
    ∃ r, rapWalk j = .ok r ∧ allNodes requiredOk r = true ∧ presv j r)
  intro j ihmu ihsz hgood
  have IHall : ∀ j2, muJ j2 ≤ muJ j → szJ j2 < szJ j →
      allNodes goodNode j2 = true →
      ∃ r, rapWalk j2 = .ok r ∧ allNodes requiredOk r = true ∧ presv j2 r := by
    intro j2 h1 h2
    rcases Nat.lt_or_ge (muJ j2) (muJ j) with h | h
    · exact ihmu j2 h
    · exact ihsz j2 (Nat.le_antisymm h1 h) h2
  cases j with
  | null => exact ⟨.null, rapWalk_null, rfl, rfl⟩
  | bool b => exact ⟨.bool b, rapWalk_bool b, rfl, rfl⟩
  | num n => exact ⟨.num n, rapWalk_num n, rfl, rfl⟩
  | str s => exact ⟨.str s, rapWalk_str s, rfl, rfl⟩
  | arr items =>
      have hit : allNodesItems goodNode items = true :=
        ((allNodes_arr_iff goodNode items).mp hgood).2
      obtain ⟨l2, hl2, hreq2, hmem2⟩ := rapItems_ih items
        (fun v hv hg => IHall v
          (le_trans (muJ_mem_items_le items v hv) (muItemsSum_le_muJ_arr items))
          (szJ_mem_items_lt items v hv) hg) hit
      refine ⟨.arr l2, ?_, ?_, ⟨l2, rfl, hmem2⟩⟩
      · rw [show rapWalk (.arr items) =
            match rapItems items with
            | .error e => .error e
            | .ok l2 => .ok (.arr l2) from by simp [rapWalk]]
        rw [hl2]
      · rw [allNodes_arr_iff]
        exact ⟨rfl, hreq2⟩
  | obj fields =>
      have hg0 := (allNodes_obj_iff goodNode fields).mp hgood
      have hparts := goodNode_obj_parts fields hg0.1
      have hf : allNodesFields goodNode fields = true := hg0.2
      have IHmem : ∀ k v, (k, v) ∈ fields → allNodes goodNode v = true →
          ∃ r, rapWalk v = .ok r ∧ allNodes requiredOk r = true ∧ presv v r := by
        intro k v hm hg
        exact IHall v
          (le_trans (muJ_mem_fields_le fields k v hm)
            (muFieldsSum_le_muJ_obj fields))
          (szJ_mem_fields_lt fields k v hm) hg
      rcases Bool.eq_false_or_eq_true (isObjectLike fields) with ho | ho
      · by_cases hPd : ∃ props, lookupJ fields "properties" = some (.obj props)
        · obtain ⟨props, hp⟩ := hPd
          have hpno : isObjectLike props = false := hparts.2.1 props hp
          obtain ⟨req, hpy⟩ := pyReqSet_ok_of_reqValOk fields hparts.2.2
          have hPallG : allNodes goodNode (.obj props) = true :=
            allNodesFields_lookup goodNode fields "properties" (.obj props) hf hp
          have hPgood := (allNodes_obj_iff goodNode props).mp hPallG
          obtain ⟨hn1, hn2⟩ := not_objectish_lookups props hpno
          have hprops1G :
              allNodes goodNode (.obj (mutateProps props req)) = true := by
            rw [allNodes_obj_iff]
            refine ⟨goodNode_obj_of _ ?_ ?_ ?_,
              allNodesFields_goodNode_mutateProps props req hPgood.2⟩
            · rw [mutateProps_keys]
              exact (goodNode_obj_parts props hPgood.1).1
            · rw [lookupJ_mutateProps, hn1]
              exact True.intro
            · rw [lookupJ_mutateProps, hn2]
              rfl
          have hreqArrG :
              allNodes goodNode
                (.arr (props.map (fun p => Json.str p.1))) = true := by
            rw [allNodes_arr_iff]
            exact ⟨rfl, allNodesItems_mapstr goodNode (fun s => rfl) props⟩
          have ha1 : allNodesFields goodNode
              (setKey (setKey fields "properties"
                (.obj (mutateProps props req))) "required"
                (.arr (props.map (fun p => Json.str p.1)))) = true :=
            allNodesFields_setKey _ _ _ _
              (allNodesFields_setKey _ _ _ _ hf hprops1G) hreqArrG
          have hObjE : hasObjEntry fields = true :=
            hasObjEntry_of_lookup fields "properties" props (by decide) hp
          have hmu5 : muJ (.obj fields) = 1 + muFieldsSum fields := by
            simp [muJ, hObjE]
          have hmu6 : muJ (.obj props) ≤ muFieldsSum fields :=
            muJ_mem_fields_le fields "properties" (.obj props)
              (lookupJ_mem fields "properties" (.obj props) hp)
          have IH1 : ∀ k v,
              (k, v) ∈ setKey (setKey fields "properties"
                (.obj (mutateProps props req))) "required"
                (.arr (props.map (fun p => Json.str p.1))) →
              allNodes goodNode v = true →
              ∃ r, rapWalk v = .ok r ∧ allNodes requiredOk r = true ∧
                presv v r := by
            intro k v hm hg
            rcases mem_setKey _ _ _ _ _ hm with hm1 | hm1
            · rcases mem_setKey _ _ _ _ _ hm1 with hm2 | hm2
              · exact IHmem k v hm2 hg
              · refine ihmu v ?_ hg
                rw [hm2.2]
                have e3 : muJ (.obj (mutateProps props req)) ≤
                    muJ (.obj props) :=
                  muJ_obj_le_of _ _ (muFieldsSum_mutateProps_le props req)
                    (hasObjEntry_mutateProps props req)
                omega
            · refine ihmu v ?_ hg
              rw [hm1.2]
              have e0 : muJ (.arr (props.map (fun p => Json.str p.1))) = 0 := by
                simp [muJ, muItemsSum_map_str]
              omega
          obtain ⟨l2, hl2, hreq2, hkeys2, hsome2, hnone2⟩ :=
            rapFields_ih _ IH1 ha1
          have hlr1 : lookupJ (setKey (setKey fields "properties"
              (.obj (mutateProps props req))) "required"
              (.arr (props.map (fun p => Json.str p.1)))) "required" =
              some (.arr (props.map (fun p => Json.str p.1))) :=
            lookupJ_setKey_self _ _ _
          obtain ⟨v2, hv2, hwalk2, hpres2⟩ := hsome2 _ _ hlr1
          have hv2eq : v2 = .arr (props.map (fun p => Json.str p.1)) := by
            have hws := rapWalk_arr_of_strs (props.map (fun p => Json.str p.1))
              (fun x hx => by
                obtain ⟨p, hp2, hx2⟩ := List.mem_map.mp hx
                exact ⟨p.1, hx2.symm⟩)
            rw [hws] at hwalk2
            exact (Except.ok.inj hwalk2).symm
          have hlp1 : lookupJ (setKey (setKey fields "properties"
              (.obj (mutateProps props req))) "required"
              (.arr (props.map (fun p => Json.str p.1)))) "properties" =
              some (.obj (mutateProps props req)) := by
            rw [lookupJ_setKey_ne _ _ _ _ (by decide)]
            exact lookupJ_setKey_self _ _ _
          obtain ⟨w2, hw2, hwalkw, hpresw⟩ := hsome2 _ _ hlp1
          obtain ⟨props2, hw2eq, hkeysP⟩ := hpresw
          subst hw2eq
          have hioP1 : isObjectLike (mutateProps props req) = false := by
            rw [isObjectLike_mutateProps]
            exact hpno
          have hkeysP2 : props2.map Prod.fst = props.map Prod.fst := by
            rw [hkeysP hioP1, mutateProps_keys]
          have hreqOkRoot : requiredOk (.obj l2) = true := by
            apply requiredOk_obj_of_required_eq l2 props2 hw2
            rw [hv2, hv2eq]
            rw [map_str_fst_eq_of_keys props2 props hkeysP2]
          refine ⟨.obj l2, ?_, ?_, ⟨l2, rfl, fun hfalse => ?_⟩⟩
          · rw [rapWalk_obj_props_eq fields props req ho hp hpy, hl2]
          · rw [allNodes_obj_iff]
            exact ⟨hreqOkRoot, hreq2⟩
          · rw [hfalse] at ho
            exact absurd ho (by decide)
        · push_neg at hPd
          obtain ⟨l2, hl2, hreq2, hkeys2, hsome2, hnone2⟩ :=
            rapFields_ih fields IHmem hf
          have hNo2 : ∀ props, lookupJ l2 "properties" ≠ some (.obj props) := by
            intro props hc
            rcases hx : lookupJ fields "properties" with _ | v
            · rw [hnone2 _ hx] at hc
              cases hc
            · obtain ⟨v2, hv2, hwv, hpres⟩ := hsome2 _ _ hx
              rw [hv2] at hc
              injection hc with hc2
              subst hc2
              have hvno : isObjJ v = false := by
                cases v with
                | obj w => exact absurd hx (hPd w)
                | null => rfl
                | bool b => rfl
                | num n => rfl
                | str ss => rfl
                | arr a => rfl
              have hra := presv_not_obj v _ hpres hvno
              simp [isObjJ] at hra
          have heq := rapWalk_obj_else_eq fields ho hPd
          rcases Bool.eq_false_or_eq_true (hasKeyJ fields "required")
            with hR | hR
          · refine ⟨.obj l2, ?_, ?_, ⟨l2, rfl, fun _ => hkeys2⟩⟩
            · rw [heq, if_pos hR, hl2]
            · rw [allNodes_obj_iff]
              exact ⟨requiredOk_of_properties_not_obj l2 hNo2, hreq2⟩
          · refine ⟨.obj (l2 ++ [("required", Json.arr [])]), ?_, ?_,
              ⟨l2 ++ [("required", Json.arr [])], rfl, fun hfalse => ?_⟩⟩
            · rw [heq, if_neg (by simp [hR]), hl2]
            · rw [allNodes_obj_iff]
              constructor
              · apply requiredOk_of_properties_not_obj
                intro props hc
                rw [lookupJ_append] at hc
                rcases hx : lookupJ l2 "properties" with _ | v2
                · simp [hx, lookupJ] at hc
                · simp only [hx, Option.some.injEq] at hc
                  exact hNo2 props (by rw [hx, hc])
              · refine allNodesFields_append _ _ _ hreq2 ?_
                rw [allNodesFields_cons_iff]
                exact ⟨rfl, rfl⟩
            · rw [hfalse] at ho
              exact absurd ho (by decide)

      · obtain ⟨l2, hl2, hreq2, hkeys2, hsome2, hnone2⟩ :=
          rapFields_ih fields IHmem hf
        have hio : isObjectLike l2 = false := by
          rw [isObjectLike_walked fields l2 hkeys2
            (fun k v h => by
              obtain ⟨v2, h1, _, h3⟩ := hsome2 k v h
              exact ⟨v2, h1, h3⟩) hnone2]
          exact ho
        refine ⟨.obj l2, ?_, ?_, ⟨l2, rfl, fun _ => hkeys2⟩⟩
        · rw [rapWalk_obj_notobjish_eq fields ho, hl2]
        · rw [allNodes_obj_iff]
          exact ⟨requiredOk_of_not_objectish l2 hio, hreq2⟩
/-- Counterexample to C3 as stated for arbitrary schemas: a property named
`patternProperties` makes the `properties` map itself look object-like, so
the walk appends a `required` entry *inside* the properties map and the
root's `required` no longer lists all property keys of the result. -/
theorem enforce_openai_required_all_properties_cex :
    enforce_openai_required_all_properties
        (.obj [("type", .str "object"),
               ("properties", .obj [("patternProperties", .obj [])])]) =
      .ok (.obj [("type", .str "object"),
                 ("properties", .obj [
                    ("patternProperties",
                      .obj [("anyOf", .arr [.obj [], nullTypeNode])]),
                    ("required", .arr [])]),
                 ("required", .arr [.str "patternProperties"])]) ∧
    allNodes requiredOk
      (.obj [("type", .str "object"),
             ("properties", .obj [
                ("patternProperties",
                  .obj [("anyOf", .arr [.obj [], nullTypeNode])]),
                ("required", .arr [])]),
             ("required", .arr [.str "patternProperties"])]) = false := by
  constructor
  · simp [enforce_openai_required_all_properties, rapWalk, rapFields,
      rapItems, isObjectLike, looks_objectish, is_object_type, hasKeyJ,
      lookupJ, setKey, pyReqSet, pyFalsy, isUnhashable, mutateProps,
      mutateVal, make_nullable, typeListHasNull, hasNullBranch,
      nullTypeNode, dictMerge, popKey]
  · decide

/-- CLAIM C3 (amended).  (1) For every schema whose nodes are good —
no `properties` map is itself object-like (no property named
`properties` / `required` / `patternProperties` / `additionalProperties`,
no `type` entry that types the map as an object) and every `required`
value can be turned into a Python set — the required-all walk succeeds
and every object-like node with a `properties` map in the result lists
exactly its property keys in `required`.  Without the goodness condition
the property fails (see the counterexample).  (2) The claim's concrete
scenario through the full OpenAI pipeline: `required` becomes
`["a", "b"]`, the non-required property `b` is rewritten by
`_make_nullable` to `anyOf [string, null]`, and the top level carries
`additionalProperties = false`. -/
theorem enforce_openai_required_all_properties_claim :
    (∀ j, allNodes goodNode j = true →
      ∃ r, enforce_openai_required_all_properties j = .ok r ∧
        allNodes requiredOk r = true) ∧
    (openai_response_schema_transform
        (.obj [("type", .str "object"),
               ("properties", .obj [
                  ("a", .obj [("type", .str "integer")]),
                  ("b", .obj [("type", .str "string")])]),
               ("required", .arr [.str "a"])]) =
      .ok (.obj [("type", .str "object"),
                 ("properties", .obj [
                    ("a", .obj [("type", .str "integer")]),
                    ("b", .obj [("anyOf",
                        .arr [.obj [("type", .str "string")],
                              .obj [("type", .str "null")]])])]),
                 ("required", .arr [.str "a", .str "b"]),
                 ("additionalProperties", .bool false)])) := by
  constructor
  · intro j hj
    obtain ⟨r, h1, h2, h3⟩ := rapWalk_good_total j hj
    exact ⟨r, h1, h2⟩
  · simp [openai_response_schema_transform, enforce_closed_objects,
      ecoFields, ecoItems, enforce_openai_required_all_properties, rapWalk,
      rapFields, rapItems, isObjectLike, looks_objectish, is_object_type,
      hasKeyJ, lookupJ, setKey, pyReqSet, pyFalsy, isUnhashable,
      mutateProps, mutateVal, make_nullable, typeListHasNull,
      hasNullBranch, nullTypeNode, dictMerge, popKey,
      strip_schema_keywords, stripFields, stripItems]

/-! ## Adapter request payloads

The `run` methods build the outgoing request as a Python dict: fresh-dict
literals and `payload["k"] = v` writes become `setKey`, the final
`payload.update(adapter_options)` becomes `dictMerge` (Python skips the
update when the mapping is empty, but updating with an empty mapping is a
no-op, so the guard is behaviorally absorbed).  The external
`output_format.model_json_schema()` call is the `rawSchema` parameter;
`None` for `output_format is None`.  Prompts are `str | Sequence[str]`,
modeled as `String ⊕ List String`. -/

/-- One user message of `OpenAIAdapter._build_input`. -/
def inputTextMsg (s : String) : Json :=
  .obj [("role", .str "user"),
        ("content", .arr [.obj [("type", .str "input_text"),
                                ("text", .str s)]])]

/-- Apply `f` to the last element (`messages[-1]` mutation). -/
def mapLast (f : Json → Json) : List Json → List Json
  | [] => []
  | [m] => [f m]
  | m :: rest => m :: mapLast f rest

/-- The in-place `content.append({"type": "input_file", ...})` loop
of `OpenAIAdapter._build_input` on the last message. -/
def appendFileParts (file_ids : List String) (m : Json) : Json :=
  match m with
  | .obj fields =>
      match lookupJ fields "content" with
      | some (.arr parts) =>
          .obj (setKey fields "content" (.arr (parts ++
            file_ids.map (fun fid =>
              Json.obj [("type", .str "input_file"),
                        ("file_id", .str fid)]))))
      | _ => .obj fields
  | m => m

/-- Translation of `OpenAIAdapter._build_input`. -/
def openai_build_input (prompt : String ⊕ List String)
    (file_ids : List String) : List Json :=
  let messages : List Json :=
    match prompt with
    | .inl s => [inputTextMsg s]
    | .inr turns => turns.map (fun t => inputTextMsg t)
  let messages := if messages.isEmpty then [inputTextMsg ""] else messages
  if file_ids.isEmpty then messages
  else mapLast (appendFileParts file_ids) messages

/-- Translation of the payload construction in `OpenAIAdapter.run`
(lines 113-132 of `openai_adapter.py`): note line 126 attaches the raw
`model_json_schema()` result, not `openai_response_schema`. -/
def openai_run_payload (prompt : String ⊕ List String) (model : String)
    (require_search : Bool) (file_ids : List String)
    (rawSchema : Option Json) (adapter_options : List (String × Json)) :
    List (String × Json) :=
  let payload : List (String × Json) :=
    [("model", .str model),
     ("input", .arr (openai_build_input prompt file_ids))]
  let payload := if require_search then
      setKey payload "tools"
        (.arr [.obj [("type", .str "web_search_preview")]])
    else payload
  let payload := match rawSchema with
    | some schema =>
        setKey payload "text" (.obj [("format", .obj [
          ("type", .str "json_schema"),
          ("name", .str "simpleai_output"),
          ("schema", schema),
          ("strict", .bool true)])])
    | none => payload
  dictMerge payload adapter_options

/-- One user message of `AnthropicAdapter._build_messages`. -/
def textMsg (s : String) : Json :=
  .obj [("role", .str "user"),
        ("content", .arr [.obj [("type", .str "text"),
                                ("text", .str s)]])]

/-- Translation of `AnthropicAdapter._build_messages`. -/
def anthropic_build_messages (prompt : String ⊕ List String) : List Json :=
  match prompt with
  | .inl s => [textMsg s]
  | .inr turns =>
      let messages := turns.map (fun t => textMsg t)
      if messages.isEmpty then [textMsg ""] else messages

/-- Translation of the payload construction in `AnthropicAdapter.run`
(lines 89-112 of `anthropic_adapter.py`): line 107 attaches the raw
`model_json_schema()` result, not `anthropic_response_schema`. -/
def anthropic_run_payload (prompt : String ⊕ List String) (model : String)
    (max_tokens : Int) (require_search : Bool) (rawSchema : Option Json)
    (adapter_options : List (String × Json)) : List (String × Json) :=
  let payload : List (String × Json) :=
    [("model", .str model),
     ("max_tokens", .num max_tokens),
     ("messages", .arr (anthropic_build_messages prompt))]
  let payload := if require_search then
      setKey payload "tools"
        (.arr [.obj [("name", .str "web_search"),
                     ("type", .str "web_search_20250305")]])
    else payload
  let payload := match rawSchema with
    | some schema =>
        setKey payload "output_config" (.obj [("format", .obj [
          ("type", .str "json_schema"),
          ("schema", schema)])])
    | none => payload
  dictMerge payload adapter_options

/-- Stand-in for the opaque `types.Tool(google_search=...)` SDK object
placed in the Gemini config (its contents never interact with the dict
logic being verified). -/
def geminiGoogleSearchTool : Json := .str "google_search_tool"

/-- Translation of the `config_kwargs` construction in
`GeminiAdapter.run` (lines 83-97 of `gemini_adapter.py`): line 94
attaches the raw `model_json_schema()` result. -/
def gemini_config_kwargs (max_output_tokens : Int) (require_search : Bool)
    (rawSchema : Option Json) (adapter_options : List (String × Json)) :
    List (String × Json) :=
  let config : List (String × Json) :=
    [("max_output_tokens", .num max_output_tokens)]
  let config := if require_search then
      setKey config "tools" (.arr [geminiGoogleSearchTool])
    else config
  let config := match rawSchema with
    | some schema =>
        setKey (setKey config "response_mime_type"
          (.str "application/json")) "response_schema" schema
    | none => config
  dictMerge config adapter_options

/-- Under unique option keys, the `update person wins: every
adapter-option entry survives into the merged payload. -/
theorem lookupJ_dictMerge_mem (init rest : List (String × Json))
    (k : String) (v : Json) (hnd : (rest.map Prod.fst).Nodup)
    (h : lookupJ rest k = some v) :
    lookupJ (dictMerge init rest) k = some v := by
  induction rest generalizing init with
  | nil => simp [lookupJ] at h
  | cons hd tl ih =>
      obtain ⟨k0, v0⟩ := hd
      simp only [List.map_cons, List.nodup_cons] at hnd
      show lookupJ (dictMerge (setKey init k0 v0) tl) k = some v
      by_cases h0 : k0 = k
      · subst h0
        simp only [lookupJ, if_pos rfl] at h
        cases h
        rw [lookupJ_dictMerge_not_mem _ _ _ hnd.1, lookupJ_setKey_self]
      · simp only [lookupJ, if_neg h0] at h
        exact ih _ hnd.2 h

/-- The JSON schema pydantic generates for a one-field model
(`class Example(BaseModel): a: int`): `model_json_schema()` always
carries `title` keys, which the §4.1 OpenAI variant strips. -/
def pydanticExampleSchema : Json :=
  .obj [("properties", .obj [("a", .obj [("title", .str "A"),
                                         ("type", .str "integer")])]),
        ("required", .arr [.str "a"]),
        ("title", .str "Example"),
        ("type", .str "object")]

/-- CLAIM C1.  What the adapters attach: the OpenAI payload stores the
raw `model_json_schema()` result unchanged under `text.format.schema`,
Anthropic under `output_config.format.schema`, Gemini under
`response_schema` — and on a typical pydantic schema the §4.1 provider
variants differ from that raw schema, so the attached schema is not the
variant the spec requires. -/
theorem adapters_attach_raw_schema :
    (∀ (prompt : String ⊕ List String) (model : String)
        (rs : Bool) (fids : List String) (schema : Json),
      lookupJ (openai_run_payload prompt model rs fids (some schema) [])
          "text" =
        some (.obj [("format", .obj [
          ("type", .str "json_schema"),
          ("name", .str "simpleai_output"),
          ("schema", schema),
          ("strict", .bool true)])])) ∧
    (∀ (prompt : String ⊕ List String) (model : String) (mt : Int)
        (rs : Bool) (schema : Json),
      lookupJ (anthropic_run_payload prompt model mt rs (some schema) [])
          "output_config" =
        some (.obj [("format", .obj [
          ("type", .str "json_schema"),
          ("schema", schema)])])) ∧
    (∀ (mot : Int) (rs : Bool) (schema : Json),
      lookupJ (gemini_config_kwargs mot rs (some schema) [])
          "response_schema" = some schema) ∧
    openai_response_schema_transform pydanticExampleSchema ≠
      .ok pydanticExampleSchema ∧
    anthropic_response_schema_transform pydanticExampleSchema ≠
      pydanticExampleSchema := by
  refine ⟨?_, ?_, ?_, ?_, ?_⟩
  · intro prompt model rs fids schema
    exact lookupJ_setKey_self _ _ _
  · intro prompt model mt rs schema
    exact lookupJ_setKey_self _ _ _
  · intro mot rs schema
    exact lookupJ_setKey_self _ _ _
  · intro hcontra
    simp [pydanticExampleSchema, openai_response_schema_transform,
      enforce_closed_objects, ecoFields, ecoItems,
      enforce_openai_required_all_properties, rapWalk, rapFields, rapItems,
      isObjectLike, looks_objectish, is_object_type, hasKeyJ, lookupJ,
      setKey, pyReqSet, pyFalsy, isUnhashable, mutateProps, mutateVal,
      make_nullable, typeListHasNull, hasNullBranch, nullTypeNode,
      dictMerge, popKey, strip_schema_keywords, stripFields,
      stripItems] at hcontra
  · decide

/-- CLAIM C9.  Every adapter-option entry (unique keys) wins over any
previously-set key of the outgoing OpenAI / Anthropic payload and of the
Gemini config: the merged value equals the option's value. -/
theorem adapter_options_override_claim
    (opts : List (String × Json)) (hnd : (opts.map Prod.fst).Nodup)
    (k : String) (v : Json) (hkv : lookupJ opts k = some v) :
    (∀ (prompt : String ⊕ List String) (model : String) (rs : Bool)
        (fids : List String) (rawSchema : Option Json),
      lookupJ (openai_run_payload prompt model rs fids rawSchema opts) k =
        some v) ∧
    (∀ (prompt : String ⊕ List String) (model : String) (mt : Int)
        (rs : Bool) (rawSchema : Option Json),
      lookupJ (anthropic_run_payload prompt model mt rs rawSchema opts) k =
        some v) ∧
    (∀ (mot : Int) (rs : Bool) (rawSchema : Option Json),
      lookupJ (gemini_config_kwargs mot rs rawSchema opts) k = some v) := by
  refine ⟨fun _ _ _ _ _ => ?_, fun _ _ _ _ _ => ?_, fun _ _ _ => ?_⟩ <;>
    exact lookupJ_dictMerge_mem _ _ _ _ hnd hkv

/-- Witness for C9 at a concrete call: an adapter option overriding
`model` survives into the OpenAI payload. -/
theorem adapter_options_override_claim_witness :
    (([("model", Json.str "override")].map Prod.fst).Nodup ∧
     lookupJ [("model", Json.str "override")] "model" =
       some (.str "override")) ∧
    lookupJ (openai_run_payload (.inl "hi") "gpt-4o" false [] none
      [("model", Json.str "override")]) "model" =
      some (.str "override") :=
  ⟨⟨by decide, rfl⟩,
   (adapter_options_override_claim [("model", Json.str "override")]
     (by decide) "model" (.str "override") rfl).1
     (.inl "hi") "gpt-4o" false [] none⟩

/-! ## logging_adapter.py: header sanitization

`_safe_header` and `_sanitize_headers` from
`simpleai/adapters/logging_adapter.py`; httpx header values are strings,
so `str(value)` is the identity, and header names are ASCII, on which
Python `str.lower` is ASCII lowercasing.  `_log_httpx_exchange` puts
`_sanitize_headers(request.headers)` and
`_sanitize_headers(response.headers)` into every `http_exchange` event. -/

/-- ASCII lowercase of one character (`str.lower` on ASCII input). -/
def asciiLowerChar (c : Char) : Char :=
  if 'A' ≤ c ∧ c ≤ 'Z' then Char.ofNat (c.toNat + 32) else c

/-- ASCII lowercase of a string. -/
def asciiLower (s : String) : String :=
  String.mk (s.toList.map asciiLowerChar)

/-- The sensitive header names of `_safe_header` (compared lowercased). -/
def SENSITIVE_HEADER_KEYS : List String :=
  ["authorization", "api-key", "x-api-key", "x-auth-token"]

/-- Translation of `_safe_header`. -/
def safe_header (key : String) (value : String) : String :=
  if asciiLower key ∈ SENSITIVE_HEADER_KEYS then "REDACTED" else value

/-- Translation of `_sanitize_headers` (a dict comprehension over the
header items, keys kept). -/
def sanitize_headers (headers : List (String × String)) :
    List (String × String) :=
  headers.map (fun kv => (kv.1, safe_header kv.1 kv.2))

/-- CLAIM C10.  Sanitized header maps redact every sensitive header
independently of its value: (1) every header whose lowercased name is
sensitive appears as `REDACTED`; (2) two header maps with the same names
that agree on all non-sensitive values sanitize to identical maps, so two
runs differing only in sensitive header values produce identical
`http_exchange` header maps. -/
theorem sanitize_headers_claim :
    (∀ (headers : List (String × String)) (k v : String),
      (k, v) ∈ headers → asciiLower k ∈ SENSITIVE_HEADER_KEYS →
      (k, "REDACTED") ∈ sanitize_headers headers) ∧
    (∀ h1 h2 : List (String × String),
      List.Forall₂ (fun a b : String × String => a.1 = b.1 ∧
        (asciiLower a.1 ∉ SENSITIVE_HEADER_KEYS → a.2 = b.2)) h1 h2 →
      sanitize_headers h1 = sanitize_headers h2) := by
  constructor
  · intro headers k v hm hs
    have hmem : (k, safe_header k v) ∈ sanitize_headers headers :=
      List.mem_map.mpr ⟨(k, v), hm, rfl⟩
    rwa [safe_header, if_pos hs] at hmem
  · intro h1 h2 hf
    induction hf with
    | nil => rfl
    | @cons a b l1 l2 hab htl ih =>
        obtain ⟨hk, hv⟩ := hab
        simp only [sanitize_headers, List.map_cons] at ih ⊢
        have h2 : safe_header a.1 a.2 = safe_header b.1 b.2 := by
          unfold safe_header
          by_cases hs : asciiLower a.1 ∈ SENSITIVE_HEADER_KEYS
          · rw [if_pos hs, if_pos (hk ▸ hs)]
          · rw [if_neg hs, if_neg (hk ▸ hs)]
            exact hv hs
        rw [h2, hk, ih]

/-- Witness for C10 at concrete header maps: an `Authorization` header
with two different bearer tokens sanitizes identically, to `REDACTED`. -/
theorem sanitize_headers_claim_witness :
    (("Authorization", "Bearer sk-1") ∈
        [("Authorization", "Bearer sk-1"), ("accept", "json")] ∧
      asciiLower "Authorization" ∈ SENSITIVE_HEADER_KEYS ∧
      ("Authorization", "REDACTED") ∈ sanitize_headers
        [("Authorization", "Bearer sk-1"), ("accept", "json")]) ∧
    sanitize_headers [("Authorization", "Bearer sk-1"), ("accept", "json")] =
      sanitize_headers [("Authorization", "Bearer sk-2"), ("accept", "json")] := by
  constructor
  · refine ⟨by decide, by decide, ?_⟩
    exact sanitize_headers_claim.1 _ "Authorization" "Bearer sk-1"
      (by decide) (by decide)
  · refine sanitize_headers_claim.2 _ _ ?_
    refine List.Forall₂.cons ⟨rfl, ?_⟩
      (List.Forall₂.cons ⟨rfl, fun _ => rfl⟩ List.Forall₂.nil)
    intro hns
    exact absurd (by decide) hns

/-! ## Citation extraction

`_extract_citations` of the OpenAI / Anthropic / Gemini adapters on the
`model_dump` dict of a response.  Python raising (AttributeError on
`.get` of a non-dict, TypeError on iterating a non-iterable) is `.error`;
`x or default` on falsy values is `pyOr`.  The `Citation` dataclass is
from `simpleai/types.py`; absent keys give `None` fields. -/

structure Citation where
  provider : String
  url : Option Json := none
  title : Option Json := none
  source : Option Json := none
  snippet : Option Json := none
  citation_id : Option Json := none
  start_index : Option Json := none
  end_index : Option Json := none
  raw : Option Json := none
deriving DecidableEq

/-- Python `x.get(k)`: a lookup on dicts, AttributeError otherwise. -/
def pyGet (j : Json) (k : String) : Except Unit (Option Json) :=
  match j with
  | .obj fields => .ok (lookupJ fields k)
  | _ => .error ()

/-- Python `for _ in j`: list items, dict keys, string characters;
TypeError on the other values. -/
def pyIterList : Json → Except Unit (List Json)
  | .arr items => .ok items
  | .obj fields => .ok (fields.map (fun p => Json.str p.1))
  | .str s => .ok (s.toList.map (fun c => Json.str (String.mk [c])))
  | _ => .error ()

/-- Python `x or default` for an optional value (`None` and falsy values
give the default). -/
def pyOr (o : Option Json) (default : Json) : Json :=
  match o with
  | some v => if pyFalsy v then default else v
  | none => default

/-- The `annotations` loop of `OpenAIAdapter._extract_citations`. -/
def openaiAnnots : List Json → Except Unit (List Citation)
  | [] => .ok []
  | a :: rest => do
      let url ← pyGet a "url"
      let title ← pyGet a "title"
      let si ← pyGet a "start_index"
      let ei ← pyGet a "end_index"
      let tl ← openaiAnnots rest
      .ok (⟨"openai", url, title, url, none, none, si, ei, some a⟩ :: tl)

/-- The `content` loop of `OpenAIAdapter._extract_citations`. -/
def openaiParts : List Json → Except Unit (List Citation)
  | [] => .ok []
  | p :: rest => do
      let anns ← pyGet p "annotations"
      let l ← pyIterList (pyOr anns (.arr []))
      let c1 ← openaiAnnots l
      let c2 ← openaiParts rest
      .ok (c1 ++ c2)

/-- The `output` loop of `OpenAIAdapter._extract_citations`
(non-`message` outputs are skipped after a `.get` that requires a
dict). -/
def openaiOutputs : List Json → Except Unit (List Citation)
  | [] => .ok []
  | o :: rest => do
      let t ← pyGet o "type"
      if t = some (.str "message") then
        let cont ← pyGet o "content"
        let l ← pyIterList (cont.getD (.arr []))
        let c1 ← openaiParts l
        let c2 ← openaiOutputs rest
        .ok (c1 ++ c2)
      else
        openaiOutputs rest

/-- Translation of `OpenAIAdapter._extract_citations`. -/
def openai_extract_citations (response_dict : List (String × Json)) :
    Except Unit (List Citation) := do
  let l ← pyIterList ((lookupJ response_dict "output").getD (.arr []))
  openaiOutputs l

/-- The `citations` loop of a `text` block in
`AnthropicAdapter._extract_citations`. -/
def anthropicTextItems : List Json → Except Unit (List Citation)
  | [] => .ok []
  | item :: rest => do
      let url ← pyGet item "url"
      let title ← pyGet item "title"
      let snip ← pyGet item "cited_text"
      let tl ← anthropicTextItems rest
      .ok (⟨"claude", url, title, url, snip, none, none, none, some item⟩ :: tl)

/-- The `content` loop of a `web_search_tool_result` block in
`AnthropicAdapter._extract_citations`. -/
def anthropicSearchResults : List Json → Except Unit (List Citation)
  | [] => .ok []
  | r :: rest => do
      let url ← pyGet r "url"
      let title ← pyGet r "title"
      let tl ← anthropicSearchResults rest
      .ok (⟨"claude", url, title, url, none, none, none, none, some r⟩ :: tl)

/-- The block loop of `AnthropicAdapter._extract_citations` (the two
type-checks are separate `if` statements, not an `elif`). -/
def anthropicBlocks : List Json → Except Unit (List Citation)
  | [] => .ok []
  | b :: rest => do
      let t ← pyGet b "type"
      let c1 ← if t = some (.str "text") then do
          let items ← pyGet b "citations"
          let l ← pyIterList (pyOr items (.arr []))
          anthropicTextItems l
        else .ok []
      let c2 ← if t = some (.str "web_search_tool_result") then do
          let results ← pyGet b "content"
          let l ← pyIterList (pyOr results (.arr []))
          anthropicSearchResults l
        else .ok []
      let tl ← anthropicBlocks rest
      .ok (c1 ++ c2 ++ tl)

/-- Translation of `AnthropicAdapter._extract_citations`. -/
def anthropic_extract_citations (response_dict : List (String × Json)) :
    Except Unit (List Citation) := do
  let l ← pyIterList ((lookupJ response_dict "content").getD (.arr []))
  anthropicBlocks l

/-- The `grounding_chunks` loop of `GeminiAdapter._extract_citations`
(an empty/falsy `web` mapping is skipped). -/
def geminiChunks : List Json → Except Unit (List Citation)
  | [] => .ok []
  | chunk :: rest => do
      let webOpt ← pyGet chunk "web"
      let web := pyOr webOpt (.obj [])
      if pyFalsy web then
        geminiChunks rest
      else do
        let uri ← pyGet web "uri"
        let title ← pyGet web "title"
        let dom ← pyGet web "domain"
        let tl ← geminiChunks rest
        .ok (⟨"gemini", uri, title, dom, none, none, none, none,
              some chunk⟩ :: tl)

/-- The candidate loop of `GeminiAdapter._extract_citations`. -/
def geminiCandidates : List Json → Except Unit (List Citation)
  | [] => .ok []
  | cand :: rest => do
      let g ← pyGet cand "grounding_metadata"
      let grounding := pyOr g (.obj [])
      let chunksOpt ← pyGet grounding "grounding_chunks"
      let l ← pyIterList (pyOr chunksOpt (.arr []))
      let c1 ← geminiChunks l
      let c2 ← geminiCandidates rest
      .ok (c1 ++ c2)

/-- Translation of `GeminiAdapter._extract_citations`. -/
def gemini_extract_citations (response_dict : List (String × Json)) :
    Except Unit (List Citation) := do
  let l ← pyIterList ((lookupJ response_dict "candidates").getD (.arr []))
  geminiCandidates l

instance {ε α : Type} [DecidableEq ε] [DecidableEq α] :
    DecidableEq (Except ε α) := fun a b =>
  match a, b with
  | .error e1, .error e2 =>
      if h : e1 = e2 then isTrue (by rw [h])
      else isFalse (by intro hh; injection hh; contradiction)
  | .ok v1, .ok v2 =>
      if h : v1 = v2 then isTrue (by rw [h])
      else isFalse (by intro hh; injection hh; contradiction)
  | .error e1, .ok v2 => isFalse (fun hh => Except.noConfusion hh)
  | .ok v1, .error e2 => isFalse (fun hh => Except.noConfusion hh)

/-- CLAIM C8.  Each extractor returns the empty list without raising on
every envelope that lacks its entry key (in particular the empty
mapping), and a partially-present envelope — a message annotation
carrying only a `url` — yields the partial citation (absent keys as
`None` fields) rather than an error. -/
theorem extract_citations_claim :
    (∀ resp : List (String × Json), lookupJ resp "output" = none →
        openai_extract_citations resp = .ok []) ∧
    (∀ resp : List (String × Json), lookupJ resp "content" = none →
        anthropic_extract_citations resp = .ok []) ∧
    (∀ resp : List (String × Json), lookupJ resp "candidates" = none →
        gemini_extract_citations resp = .ok []) ∧
    (openai_extract_citations [] = .ok [] ∧
     anthropic_extract_citations [] = .ok [] ∧
     gemini_extract_citations [] = .ok []) ∧
    (openai_extract_citations
        [("output", .arr [.obj [("type", .str "message"),
           ("content", .arr [.obj [("annotations",
             .arr [.obj [("url", .str "https://x.test")]])]])]])] =
      .ok [⟨"openai", some (.str "https://x.test"), none,
            some (.str "https://x.test"), none, none, none, none,
            some (.obj [("url", .str "https://x.test")])⟩]) := by
  refine ⟨?_, ?_, ?_, ⟨by decide, by decide, by decide⟩, by decide⟩
  · intro resp h
    simp [openai_extract_citations, h, pyIterList, openaiOutputs,
      Bind.bind, Except.bind]
  · intro resp h
    simp [anthropic_extract_citations, h, pyIterList, anthropicBlocks,
      Bind.bind, Except.bind]
  · intro resp h
    simp [gemini_extract_citations, h, pyIterList, geminiCandidates,
      Bind.bind, Except.bind]

/-! ## utils.py: `_extract_candidate_json`

`text.strip()`, the bracket fast path, and the scan that calls
`json.JSONDecoder().raw_decode` at every `[`/`{` position.  `raw_decode`
is modeled by a fuel-indexed scanner for Python's JSON grammar (objects,
arrays, strings with escapes, numbers, `true`/`false`/`null` and the
CPython extensions `NaN`/`Infinity`/`-Infinity`; no leading-whitespace
skip, trailing text ignored) returning the number of characters
consumed.  Exhausted fuel is a parse failure, so every theorem about a
success is fuel-generic.  Braces are written via `Char.ofNat`. -/

def lbraceC : Char := Char.ofNat 123

def rbraceC : Char := Char.ofNat 125

/-- The whitespace set of Python `str.strip()` on ASCII text. -/
def pyWSChar (c : Char) : Bool :=
  c == ' ' || c == '\t' || c == '\n' || c == '\r' ||
  c == Char.ofNat 11 || c == Char.ofNat 12

/-- Python `str.strip()` on the character list. -/
def pyStripChars (s : List Char) : List Char :=
  ((s.dropWhile pyWSChar).reverse.dropWhile pyWSChar).reverse

/-- JSON whitespace (between tokens). -/
def jsonWS (c : Char) : Bool :=
  c == ' ' || c == '\t' || c == '\n' || c == '\r'

/-- A literal keyword tail (`rue` of `true`, ...). -/
def expectChars : List Char → List Char → Option (List Char)
  | [], rest => some rest
  | e :: es, c :: rest => if c = e then expectChars es rest else none
  | _ :: _, [] => none

def isHexChar (c : Char) : Bool :=
  c.isDigit || ('a' ≤ c && c ≤ 'f') || ('A' ≤ c && c ≤ 'F')

/-- The integer part of the JSON number regex: `-?(0|[1-9][0-9]*)`,
sign already consumed. -/
def scanIntPart : List Char → Option (List Char)
  | '0' :: r => some r
  | c :: r => if c.isDigit then some (r.dropWhile Char.isDigit) else none
  | [] => none

/-- The optional fraction `([.][0-9]+)?`. -/
def scanFrac (cs : List Char) : List Char :=
  match cs with
  | '.' :: r =>
      match r with
      | c :: _ => if c.isDigit then r.dropWhile Char.isDigit else cs
      | [] => cs
  | _ => cs

/-- The optional exponent `([eE][+-]?[0-9]+)?`. -/
def scanExp (cs : List Char) : List Char :=
  match cs with
  | c :: r =>
      if c = 'e' ∨ c = 'E' then
        let r2 := match r with
          | sgn :: r3 => if sgn = '+' ∨ sgn = '-' then r3 else r
          | [] => r
        match r2 with
        | d :: _ => if d.isDigit then r2.dropWhile Char.isDigit else cs
        | [] => cs
      else cs
  | [] => cs

/-- A JSON number at the head (Python `NUMBER_RE`), returning the rest. -/
def scanNumber (cs : List Char) : Option (List Char) :=
  let body := match cs with
    | '-' :: r => r
    | _ => cs
  match scanIntPart body with
  | some r1 => some (scanExp (scanFrac r1))
  | none => none

/-- A JSON string after its opening quote (`py_scanstring` with
`strict=True`: raw control characters rejected, escapes validated). -/
def scanStringRest : Nat → List Char → Option (List Char)
  | 0, _ => none
  | fuel+1, cs =>
      match cs with
      | [] => none
      | c :: rest =>
          if c = '"' then some rest
          else if c = '\\' then
            match rest with
            | e :: r2 =>
                if e = '"' ∨ e = '\\' ∨ e = '/' ∨ e = 'b' ∨ e = 'f' ∨
                    e = 'n' ∨ e = 'r' ∨ e = 't' then
                  scanStringRest fuel r2
                else if e = 'u' then
                  match r2 with
                  | h1 :: h2 :: h3 :: h4 :: r3 =>
                      if isHexChar h1 && isHexChar h2 && isHexChar h3 &&
                          isHexChar h4 then
                        scanStringRest fuel r3
                      else none
                  | _ => none
                else none
            | [] => none
          else if c.toNat < 32 then none
          else scanStringRest fuel rest

mutual

/-- One JSON value at the head of the input (Python `scan_once`: no
leading-whitespace skip), returning the rest of the input. -/
def scanValue : Nat → List Char → Option (List Char)
  | 0, _ => none
  | fuel+1, cs =>
      match cs with
      | [] => none
      | c :: rest =>
          if c = lbraceC then
            match rest.dropWhile jsonWS with
            | d :: r2 =>
                if d = rbraceC then some r2
                else scanMembers fuel (rest.dropWhile jsonWS)
            | [] => none
          else if c = '[' then
            match rest.dropWhile jsonWS with
            | d :: r2 =>
                if d = ']' then some r2
                else scanElements fuel (rest.dropWhile jsonWS)
            | [] => none
          else if c = '"' then scanStringRest fuel rest
          else if c = 't' then expectChars ['r', 'u', 'e'] rest
          else if c = 'f' then expectChars ['a', 'l', 's', 'e'] rest
          else if c = 'n' then expectChars ['u', 'l', 'l'] rest
          else if c = 'N' then expectChars ['a', 'N'] rest
          else if c = 'I' then
            expectChars ['n', 'f', 'i', 'n', 'i', 't', 'y'] rest
          else if c = '-' then
            match rest with
            | 'I' :: r2 =>
                expectChars ['n', 'f', 'i', 'n', 'i', 't', 'y'] r2
            | _ => scanNumber cs
          else if c.isDigit then scanNumber cs
          else none

/-- Object members after `{` (first member position, whitespace
skipped). -/
def scanMembers : Nat → List Char → Option (List Char)
  | 0, _ => none
  | fuel+1, cs =>
      match cs with
      | c :: rest =>
          if c = '"' then
            match scanStringRest fuel rest with
            | some r1 =>
                match r1.dropWhile jsonWS with
                | ':' :: r3 =>
                    match scanValue fuel (r3.dropWhile jsonWS) with
                    | some r4 =>
                        match r4.dropWhile jsonWS with
                        | ',' :: r6 => scanMembers fuel (r6.dropWhile jsonWS)
                        | d :: r7 => if d = rbraceC then some r7 else none
                        | [] => none
                    | none => none
                | _ => none
            | none => none
          else none
      | [] => none

/-- Array elements after `[` (first element position, whitespace
skipped). -/
def scanElements : Nat → List Char → Option (List Char)
  | 0, _ => none
  | fuel+1, cs =>
      match scanValue fuel cs with
      | some r1 =>
          match r1.dropWhile jsonWS with
          | ',' :: r2 => scanElements fuel (r2.dropWhile jsonWS)
          | d :: r3 => if d = ']' then some r3 else none
          | [] => none
      | none => none

end

/-- Python `json.JSONDecoder().raw_decode(s)`: the end index of the
first JSON document at position 0, or failure. -/
def raw_decode (fuel : Nat) (cs : List Char) : Option Nat :=
  match scanValue fuel cs with
  | some rest => some (cs.length - rest.length)
  | none => none

/-- The scan loop of `_extract_candidate_json`: try `raw_decode` at
every `[`/`{` position, return `stripped[start : start + end]` on the
first success. -/
def extractScan (fuel : Nat) : List Char → Option (List Char)
  | [] => none
  | c :: rest =>
      if c = lbraceC ∨ c = '[' then
        match raw_decode fuel (c :: rest) with
        | some e => some ((c :: rest).take e)
        | none => extractScan fuel rest
      else extractScan fuel rest

/-- Translation of `_extract_candidate_json` from `simpleai/utils.py`:
strip; `ValueError` when empty; matching-bracket fast path returns the
stripped text verbatim; otherwise the scan loop; `ValueError` when the
loop finds nothing. -/
def extract_candidate_json (fuel : Nat) (text : String) :
    Except Unit String :=
  let stripped := pyStripChars text.toList
  if stripped.isEmpty then .error ()
  else if (stripped.head? = some lbraceC ∧
           stripped.getLast? = some rbraceC) ∨
          (stripped.head? = some '[' ∧ stripped.getLast? = some ']') then
    .ok (String.mk stripped)
  else
    match extractScan fuel stripped with
    | some cs => .ok (String.mk cs)
    | none => .error ()

/-- CLAIM C7.  `_extract_candidate_json`: (1) empty trimmed text is an
error; (2) trimmed text with matching outer brackets is returned
verbatim — in particular a serialized JSON object comes back unchanged;
(3) the documented scan example returns the parsed JSON substring;
(4) text with no parseable JSON object/array is an error (no brackets at
all, or a bracket where nothing parses). -/
theorem extract_candidate_json_claim :
    (∀ (fuel : Nat) (text : String), pyStripChars text.toList = [] →
      extract_candidate_json fuel text = .error ()) ∧
    (∀ (fuel : Nat) (text : String),
      ((pyStripChars text.toList).head? = some lbraceC ∧
       (pyStripChars text.toList).getLast? = some rbraceC) ∨
      ((pyStripChars text.toList).head? = some '[' ∧
       (pyStripChars text.toList).getLast? = some ']') →
      extract_candidate_json fuel text =
        .ok (String.mk (pyStripChars text.toList))) ∧
    (extract_candidate_json 100 " \x7b\"a\": 1\x7d " =
      .ok "\x7b\"a\": 1\x7d") ∧
    (extract_candidate_json 100 "prefix \x7b\"a\":1\x7d suffix" =
      .ok "\x7b\"a\":1\x7d") ∧
    (extract_candidate_json 100 "no json here" = .error ()) ∧
    (extract_candidate_json 100 " \x7boops" = .error ()) := by
  refine ⟨?_, ?_, by decide, by decide, by decide, by decide⟩
  · intro fuel text h
    unfold extract_candidate_json
    rw [h]
    rfl
  · intro fuel text h
    unfold extract_candidate_json
    rcases hp : pyStripChars text.toList with _ | ⟨a, l⟩
    · rw [hp] at h
      simp at h
    · rw [hp] at h
      dsimp only
      rw [if_neg (by simp), if_pos h]

/-! ## The mutation claim: a heap model

The Python transforms mutate dict/list objects in place; the claim that
`T(S)` never mutates `S` is about object identity, invisible to the pure
value embedding above.  Here a store maps addresses to cells (dicts hold
addresses of their values, lists addresses of their items, scalars are
immutable payloads); `deepcopy` allocates fresh addresses, the walks are
store transformers, and the frame theorems say every address that
existed before the call still holds the same cell afterwards — `S`
compares equal before and after.  All recursion is fuel-indexed
(exhausted fuel is failure), so the frame theorems are fuel-generic. -/

inductive HCell where
  | obj (fields : List (String × Nat))
  | arr (items : List Nat)
  | prim (v : Json)

structure Store where
  cells : List (Nat × HCell)
  next : Nat

def lookupC : List (Nat × HCell) → Nat → Option HCell
  | [], _ => none
  | (a, c) :: rest, b => if a = b then some c else lookupC rest b

def setKeyC : List (Nat × HCell) → Nat → HCell → List (Nat × HCell)
  | [], a, c => [(a, c)]
  | (a0, c0) :: rest, a, c =>
      if a0 = a then (a0, c) :: rest else (a0, c0) :: setKeyC rest a c

def getCell (st : Store) (a : Nat) : Option HCell :=
  lookupC st.cells a

def setCell (st : Store) (a : Nat) (c : HCell) : Store :=
  ⟨setKeyC st.cells a c, st.next⟩

def alloc (st : Store) (c : HCell) : Store × Nat :=
  (⟨st.cells ++ [(st.next, c)], st.next + 1⟩, st.next)

/-- The addresses a cell points at. -/
def cellRefs : HCell → List Nat
  | .obj fields => fields.map Prod.snd
  | .arr items => items
  | .prim _ => []

/-- Every stored address is below the allocation counter. -/
def domBound (st : Store) : Prop :=
  ∀ p ∈ st.cells, p.1 < st.next

/-- Cells at addresses `≥ n0` point only at addresses `≥ n0`. -/
def regionClosed (n0 : Nat) (st : Store) : Prop :=
  ∀ a c, n0 ≤ a → getCell st a = some c → ∀ b ∈ cellRefs c, n0 ≤ b

/-- Nothing below `n0` changed between the two stores. -/
def frameBelow (n0 : Nat) (st st2 : Store) : Prop :=
  ∀ b, b < n0 → getCell st2 b = getCell st b

theorem lookupC_mem (l : List (Nat × HCell)) (b : Nat) (c : HCell)
    (h : lookupC l b = some c) : (b, c) ∈ l := by
  induction l with
  | nil => simp [lookupC] at h
  | cons hd tl ih =>
      obtain ⟨a0, c0⟩ := hd
      by_cases h0 : a0 = b
      · subst h0
        simp only [lookupC, if_pos rfl] at h
        cases h
        simp
      · simp only [lookupC, if_neg h0] at h
        exact List.mem_cons_of_mem _ (ih h)

theorem lookupC_eq_none (l : List (Nat × HCell)) (b : Nat)
    (h : ∀ p ∈ l, p.1 ≠ b) : lookupC l b = none := by
  induction l with
  | nil => rfl
  | cons hd tl ih =>
      obtain ⟨a0, c0⟩ := hd
      simp only [lookupC, if_neg (h (a0, c0) (by simp))]
      exact ih fun p hp => h p (List.mem_cons_of_mem _ hp)

theorem lookupC_append (l1 l2 : List (Nat × HCell)) (b : Nat) :
    lookupC (l1 ++ l2) b =
      match lookupC l1 b with
      | some c => some c
      | none => lookupC l2 b := by
  induction l1 with
  | nil => simp [lookupC]
  | cons hd tl ih =>
      obtain ⟨a0, c0⟩ := hd
      by_cases h0 : a0 = b <;> simp [lookupC, h0, ih]

theorem lookupC_setKeyC_self (l : List (Nat × HCell)) (a : Nat)
    (c : HCell) : lookupC (setKeyC l a c) a = some c := by
  induction l with
  | nil => simp [setKeyC, lookupC]
  | cons hd tl ih =>
      obtain ⟨a0, c0⟩ := hd
      by_cases h0 : a0 = a
      · simp [setKeyC, lookupC, h0]
      · simp [setKeyC, lookupC, h0, ih]

theorem lookupC_setKeyC_ne (l : List (Nat × HCell)) (a b : Nat)
    (c : HCell) (h : b ≠ a) :
    lookupC (setKeyC l a c) b = lookupC l b := by
  have h2 : ¬ (a = b) := fun hh => h hh.symm
  induction l with
  | nil => simp [setKeyC, lookupC, h2]
  | cons hd tl ih =>
      obtain ⟨a0, c0⟩ := hd
      by_cases h0 : a0 = a
      · subst h0
        simp [setKeyC, lookupC, h2]
      · by_cases h1 : a0 = b <;> simp [setKeyC, lookupC, h0, h1, h, ih]

theorem mem_setKeyC (l : List (Nat × HCell)) (a : Nat) (c : HCell)
    (b : Nat) (cb : HCell) (h : (b, cb) ∈ setKeyC l a c) :
    (b, cb) ∈ l ∨ (b = a ∧ cb = c) := by
  induction l with
  | nil =>
      simp only [setKeyC, List.mem_singleton] at h
      cases h
      exact Or.inr ⟨rfl, rfl⟩
  | cons hd tl ih =>
      obtain ⟨a0, c0⟩ := hd
      by_cases h0 : a0 = a
      · simp only [setKeyC, if_pos h0, List.mem_cons] at h
        rcases h with h | h
        · cases h
          exact Or.inr ⟨h0, rfl⟩
        · exact Or.inl (List.mem_cons_of_mem _ h)
      · simp only [setKeyC, if_neg h0, List.mem_cons] at h
        rcases h with h | h
        · exact Or.inl (by simp [h])
        · rcases ih h with h2 | h2
          · exact Or.inl (List.mem_cons_of_mem _ h2)
          · exact Or.inr h2

theorem getCell_alloc_of_lt (st : Store) (c : HCell) (b : Nat)
    (h : b < st.next) : getCell (alloc st c).1 b = getCell st b := by
  show lookupC (st.cells ++ [(st.next, c)]) b = lookupC st.cells b
  rw [lookupC_append]
  rcases hx : lookupC st.cells b with _ | c0
  · have hne : st.next ≠ b := fun hh => absurd (hh ▸ h) (by omega)
    simp [lookupC, hne]
  · rfl

theorem getCell_alloc_self (st : Store) (c : HCell) (hD : domBound st) :
    getCell (alloc st c).1 st.next = some c := by
  show lookupC (st.cells ++ [(st.next, c)]) st.next = some c
  rw [lookupC_append]
  rw [lookupC_eq_none st.cells st.next
    (fun p hp => Nat.ne_of_lt (hD p hp))]
  simp [lookupC]

theorem getCell_alloc_cases (st : Store) (c : HCell) (b : Nat)
    (hD : domBound st) :
    getCell (alloc st c).1 b = getCell st b ∨
    (b = st.next ∧ getCell (alloc st c).1 b = some c) := by
  rcases Nat.lt_trichotomy b st.next with h | h | h
  · exact Or.inl (getCell_alloc_of_lt st c b h)
  · exact Or.inr ⟨h, h ▸ getCell_alloc_self st c hD⟩
  · refine Or.inl ?_
    show lookupC (st.cells ++ [(st.next, c)]) b = lookupC st.cells b
    rw [lookupC_append]
    rw [lookupC_eq_none st.cells b
      (fun p hp => by have := hD p hp; omega)]
    have hne : st.next ≠ b := by omega
    simp [lookupC, hne]

theorem domBound_alloc (st : Store) (c : HCell) (hD : domBound st) :
    domBound (alloc st c).1 := by
  intro p hp
  rcases List.mem_append.mp hp with h | h
  · have := hD p h
    show p.1 < st.next + 1
    omega
  · simp only [List.mem_singleton] at h
    subst h
    show st.next < st.next + 1
    omega

theorem regionClosed_alloc (n0 : Nat) (st : Store) (c : HCell)
    (hR : regionClosed n0 st) (hD : domBound st)
    (hrefs : ∀ b ∈ cellRefs c, n0 ≤ b) :
    regionClosed n0 (alloc st c).1 := by
  intro a ca ha hget
  rcases getCell_alloc_cases st c a hD with h | ⟨h1, h2⟩
  · rw [h] at hget
    exact hR a ca ha hget
  · rw [h2] at hget
    cases hget
    exact hrefs

theorem getCell_setCell_self (st : Store) (a : Nat) (c : HCell) :
    getCell (setCell st a c) a = some c :=
  lookupC_setKeyC_self _ _ _

theorem getCell_setCell_ne (st : Store) (a b : Nat) (c : HCell)
    (h : b ≠ a) : getCell (setCell st a c) b = getCell st b :=
  lookupC_setKeyC_ne _ _ _ _ h

theorem domBound_setCell (st : Store) (a : Nat) (c : HCell)
    (hD : domBound st) (ha : a < st.next) : domBound (setCell st a c) := by
  intro p hp
  obtain ⟨b, cb⟩ := p
  rcases mem_setKeyC _ _ _ _ _ hp with h | ⟨h1, h2⟩
  · exact hD _ h
  · show b < st.next
    omega

theorem regionClosed_setCell (n0 : Nat) (st : Store) (a : Nat) (c : HCell)
    (hR : regionClosed n0 st) (hrefs : ∀ b ∈ cellRefs c, n0 ≤ b) :
    regionClosed n0 (setCell st a c) := by
  intro x cx hx hget
  by_cases h0 : x = a
  · subst h0
    rw [getCell_setCell_self] at hget
    cases hget
    exact hrefs
  · rw [getCell_setCell_ne _ _ _ _ h0] at hget
    exact hR x cx hx hget

mutual

/-- Python `copy.deepcopy` on the JSON-like object graph (memoization of
shared substructure is irrelevant to the frame: every write is an
allocation at a fresh address). -/
def deepcopy : Nat → Store → Nat → Option (Store × Nat)
  | 0, _, _ => none
  | fuel+1, st, a =>
      match getCell st a with
      | none => none
      | some (.prim v) => some (alloc st (.prim v))
      | some (.obj fields) =>
          match deepcopyFields fuel st fields with
          | none => none
          | some (st1, fields1) => some (alloc st1 (.obj fields1))
      | some (.arr items) =>
          match deepcopyItems fuel st items with
          | none => none
          | some (st1, items1) => some (alloc st1 (.arr items1))

def deepcopyFields :
    Nat → Store → List (String × Nat) →
    Option (Store × List (String × Nat))
  | 0, _, _ => none
  | _+1, st, [] => some (st, [])
  | fuel+1, st, (k, a) :: rest =>
      match deepcopy fuel st a with
      | none => none
      | some (st1, a1) =>
          match deepcopyFields fuel st1 rest with
          | none => none
          | some (st2, rest2) => some (st2, (k, a1) :: rest2)

def deepcopyItems : Nat → Store → List Nat → Option (Store × List Nat)
  | 0, _, _ => none
  | _+1, st, [] => some (st, [])
  | fuel+1, st, a :: rest =>
      match deepcopy fuel st a with
      | none => none
      | some (st1, a1) =>
          match deepcopyItems fuel st1 rest with
          | none => none
          | some (st2, rest2) => some (st2, a1 :: rest2)

end

theorem frameBelow_refl (n0 : Nat) (st : Store) : frameBelow n0 st st :=
  fun _ _ => rfl

theorem frameBelow_trans (n0 : Nat) (st1 st2 st3 : Store)
    (h1 : frameBelow n0 st1 st2) (h2 : frameBelow n0 st2 st3) :
    frameBelow n0 st1 st3 :=
  fun b hb => (h2 b hb).trans (h1 b hb)

theorem alloc_step (n0 : Nat) (st : Store) (c : HCell)
    (hD : domBound st) (hR : regionClosed n0 st)
    (hrefs : ∀ b ∈ cellRefs c, n0 ≤ b) :
    frameBelow st.next st (alloc st c).1 ∧
    st.next ≤ (alloc st c).1.next ∧
    domBound (alloc st c).1 ∧ regionClosed n0 (alloc st c).1 ∧
    st.next ≤ (alloc st c).2 ∧ (alloc st c).2 < (alloc st c).1.next := by
  refine ⟨fun b hb => getCell_alloc_of_lt st c b hb, ?_,
    domBound_alloc st c hD, regionClosed_alloc n0 st c hR hD hrefs,
    ?_, ?_⟩
  · show st.next ≤ st.next + 1
    omega
  · show st.next ≤ st.next
    omega
  · show st.next < st.next + 1
    omega

mutual

/-- `deepcopy` only allocates: everything below the starting allocation
counter is untouched, the counter grows, the copy root is fresh, and
region closure above any `n0 ≤ st.next` is preserved. -/
theorem deepcopy_frame (n0 fuel : Nat) (st : Store) (a : Nat)
    (st2 : Store) (a2 : Nat) (h : deepcopy fuel st a = some (st2, a2))
    (hn : n0 ≤ st.next) (hD : domBound st) (hR : regionClosed n0 st) :
    frameBelow st.next st st2 ∧ st.next ≤ st2.next ∧ domBound st2 ∧
    regionClosed n0 st2 ∧ st.next ≤ a2 ∧ a2 < st2.next := by
  match fuel with
  | 0 => exact absurd h (by simp [deepcopy])
  | fuel+1 =>
      rcases hg : getCell st a with _ | c
      · rw [show deepcopy (fuel+1) st a =
            match getCell st a with
            | none => none
            | some (.prim v) => some (alloc st (.prim v))
            | some (.obj fields) =>
                match deepcopyFields fuel st fields with
                | none => none
                | some (st1, fields1) => some (alloc st1 (.obj fields1))
            | some (.arr items) =>
                match deepcopyItems fuel st items with
                | none => none
                | some (st1, items1) => some (alloc st1 (.arr items1))
          from rfl] at h
        simp only [hg] at h
        exact Option.noConfusion h
      · rw [show deepcopy (fuel+1) st a =
            match getCell st a with
            | none => none
            | some (.prim v) => some (alloc st (.prim v))
            | some (.obj fields) =>
                match deepcopyFields fuel st fields with
                | none => none
                | some (st1, fields1) => some (alloc st1 (.obj fields1))
            | some (.arr items) =>
                match deepcopyItems fuel st items with
                | none => none
                | some (st1, items1) => some (alloc st1 (.arr items1))
          from rfl] at h
        cases c with
        | prim v =>
            simp only [hg] at h
            have h2 := Option.some.inj h
            injection h2 with ha hb
            subst ha
            subst hb
            have AS := alloc_step n0 st (.prim v) hD hR (by simp [cellRefs])
            exact ⟨AS.1, AS.2.1, AS.2.2.1, AS.2.2.2.1, AS.2.2.2.2.1,
              AS.2.2.2.2.2⟩
        | obj fields =>
            simp only [hg] at h
            rcases hdf : deepcopyFields fuel st fields with _ | ⟨st1, f1⟩
            · simp only [hdf] at h
              exact Option.noConfusion h
            · simp only [hdf] at h
              have h2 := Option.some.inj h
              injection h2 with ha hb
              subst ha
              subst hb
              obtain ⟨F1, N1, D1, R1, M1⟩ :=
                deepcopyFields_frame n0 fuel st fields st1 f1 hdf hn hD hR
              have AS := alloc_step n0 st1 (.obj f1) D1 R1 (by
                intro b hb
                simp only [cellRefs, List.mem_map] at hb
                obtain ⟨p, hp, hpb⟩ := hb
                have h3 := (M1 p hp).1
                omega)
              refine ⟨?_, le_trans N1 AS.2.1, AS.2.2.1, AS.2.2.2.1,
                le_trans N1 AS.2.2.2.2.1, AS.2.2.2.2.2⟩
              intro b hb
              exact (AS.1 b (lt_of_lt_of_le hb N1)).trans (F1 b hb)
        | arr items =>
            simp only [hg] at h
            rcases hdi : deepcopyItems fuel st items with _ | ⟨st1, i1⟩
            · simp only [hdi] at h
              exact Option.noConfusion h
            · simp only [hdi] at h
              have h2 := Option.some.inj h
              injection h2 with ha hb
              subst ha
              subst hb
              obtain ⟨F1, N1, D1, R1, M1⟩ :=
                deepcopyItems_frame n0 fuel st items st1 i1 hdi hn hD hR
              have AS := alloc_step n0 st1 (.arr i1) D1 R1 (by
                intro b hb
                have h3 := (M1 b hb).1
                omega)
              refine ⟨?_, le_trans N1 AS.2.1, AS.2.2.1, AS.2.2.2.1,
                le_trans N1 AS.2.2.2.2.1, AS.2.2.2.2.2⟩
              intro b hb
              exact (AS.1 b (lt_of_lt_of_le hb N1)).trans (F1 b hb)

theorem deepcopyFields_frame (n0 fuel : Nat) (st : Store)
    (l : List (String × Nat)) (st2 : Store) (l2 : List (String × Nat))
    (h : deepcopyFields fuel st l = some (st2, l2))
    (hn : n0 ≤ st.next) (hD : domBound st) (hR : regionClosed n0 st) :
    frameBelow st.next st st2 ∧ st.next ≤ st2.next ∧ domBound st2 ∧
    regionClosed n0 st2 ∧
    (∀ p ∈ l2, st.next ≤ p.2 ∧ p.2 < st2.next) := by
  match fuel with
  | 0 => exact absurd h (by simp [deepcopyFields])
  | fuel+1 =>
      match l with
      | [] =>
          have h2 := Option.some.inj h
          injection h2 with ha hb
          subst ha
          subst hb
          exact ⟨frameBelow_refl _ _, le_refl _, hD, hR, by simp⟩
      | (k, a) :: rest =>
          rw [show deepcopyFields (fuel+1) st ((k, a) :: rest) =
              match deepcopy fuel st a with
              | none => none
              | some (st1, a1) =>
                  match deepcopyFields fuel st1 rest with
                  | none => none
                  | some (st3, rest3) => some (st3, (k, a1) :: rest3)
            from rfl] at h
          rcases hdc : deepcopy fuel st a with _ | ⟨st1, a1⟩
          · simp only [hdc] at h
            exact Option.noConfusion h
          · simp only [hdc] at h
            rcases hdf : deepcopyFields fuel st1 rest with _ | ⟨st3, rest3⟩
            · simp only [hdf] at h
              exact Option.noConfusion h
            · simp only [hdf] at h
              have h2 := Option.some.inj h
              injection h2 with ha hb
              subst ha
              subst hb
              obtain ⟨F1, N1, D1, R1, A1, A2⟩ :=
                deepcopy_frame n0 fuel st a st1 a1 hdc hn hD hR
              obtain ⟨F2, N2, D2, R2, M2⟩ :=
                deepcopyFields_frame n0 fuel st1 rest st3 rest3 hdf
                  (le_trans hn N1) D1 R1
              refine ⟨?_, le_trans N1 N2, D2, R2, ?_⟩
              · intro b hb
                rw [F2 b (lt_of_lt_of_le hb N1)]
                exact F1 b hb
              · intro p hp
                rcases List.mem_cons.mp hp with hp | hp
                · subst hp
                  refine ⟨A1, ?_⟩
                  show a1 < st3.next
                  omega
                · have := M2 p hp
                  constructor
                  · omega
                  · exact this.2

theorem deepcopyItems_frame (n0 fuel : Nat) (st : Store)
    (l : List Nat) (st2 : Store) (l2 : List Nat)
    (h : deepcopyItems fuel st l = some (st2, l2))
    (hn : n0 ≤ st.next) (hD : domBound st) (hR : regionClosed n0 st) :
    frameBelow st.next st st2 ∧ st.next ≤ st2.next ∧ domBound st2 ∧
    regionClosed n0 st2 ∧
    (∀ b ∈ l2, st.next ≤ b ∧ b < st2.next) := by
  match fuel with
  | 0 => exact absurd h (by simp [deepcopyItems])
  | fuel+1 =>
      match l with
      | [] =>
          have h2 := Option.some.inj h
          injection h2 with ha hb
          subst ha
          subst hb
          exact ⟨frameBelow_refl _ _, le_refl _, hD, hR, by simp⟩
      | a :: rest =>
          rw [show deepcopyItems (fuel+1) st (a :: rest) =
              match deepcopy fuel st a with
              | none => none
              | some (st1, a1) =>
                  match deepcopyItems fuel st1 rest with
                  | none => none
                  | some (st3, rest3) => some (st3, a1 :: rest3)
            from rfl] at h
          rcases hdc : deepcopy fuel st a with _ | ⟨st1, a1⟩
          · simp only [hdc] at h
            exact Option.noConfusion h
          · simp only [hdc] at h
            rcases hdi : deepcopyItems fuel st1 rest with _ | ⟨st3, rest3⟩
            · simp only [hdi] at h
              exact Option.noConfusion h
            · simp only [hdi] at h
              have h2 := Option.some.inj h
              injection h2 with ha hb
              subst ha
              subst hb
              obtain ⟨F1, N1, D1, R1, A1, A2⟩ :=
                deepcopy_frame n0 fuel st a st1 a1 hdc hn hD hR
              obtain ⟨F2, N2, D2, R2, M2⟩ :=
                deepcopyItems_frame n0 fuel st1 rest st3 rest3 hdi
                  (le_trans hn N1) D1 R1
              refine ⟨?_, le_trans N1 N2, D2, R2, ?_⟩
              · intro b hb
                rw [F2 b (lt_of_lt_of_le hb N1)]
                exact F1 b hb
              · intro b hb
                rcases List.mem_cons.mp hb with hb | hb
                · subst hb
                  refine ⟨A1, ?_⟩
                  show b < st3.next
                  omega
                · have := M2 b hb
                  constructor
                  · omega
                  · exact this.2

end

/-! ### Assoc-list operations on dict cells (String keys, address values) -/

def lookupA : List (String × Nat) → String → Option Nat
  | [], _ => none
  | (k0, v) :: rest, k => if k0 = k then some v else lookupA rest k

def setKeyA : List (String × Nat) → String → Nat → List (String × Nat)
  | [], k, v => [(k, v)]
  | (k0, v0) :: rest, k, v =>
      if k0 = k then (k0, v) :: rest else (k0, v0) :: setKeyA rest k v

def popKeyA : List (String × Nat) → String → List (String × Nat)
  | [], _ => []
  | (k0, v0) :: rest, k =>
      if k0 = k then rest else (k0, v0) :: popKeyA rest k

def hasKeyA (fields : List (String × Nat)) (k : String) : Bool :=
  (lookupA fields k).isSome

def dictMergeA (init rest : List (String × Nat)) : List (String × Nat) :=
  rest.foldl (fun acc kv => setKeyA acc kv.1 kv.2) init

theorem mem_snd_setKeyA (l : List (String × Nat)) (k : String) (v : Nat)
    (b : Nat) (h : b ∈ (setKeyA l k v).map Prod.snd) :
    b ∈ l.map Prod.snd ∨ b = v := by
  induction l with
  | nil =>
      simp only [setKeyA, List.map_cons, List.map_nil,
        List.mem_singleton] at h
      exact Or.inr h
  | cons hd tl ih =>
      obtain ⟨k0, v0⟩ := hd
      by_cases h0 : k0 = k
      · simp only [setKeyA, if_pos h0, List.map_cons, List.mem_cons] at h ⊢
        rcases h with h | h
        · exact Or.inr h
        · exact Or.inl (Or.inr h)
      · simp only [setKeyA, if_neg h0, List.map_cons, List.mem_cons] at h ⊢
        rcases h with h | h
        · exact Or.inl (Or.inl h)
        · rcases ih h with h2 | h2
          · exact Or.inl (Or.inr h2)
          · exact Or.inr h2

theorem mem_snd_popKeyA (l : List (String × Nat)) (k : String)
    (b : Nat) (h : b ∈ (popKeyA l k).map Prod.snd) :
    b ∈ l.map Prod.snd := by
  induction l with
  | nil => simp [popKeyA] at h
  | cons hd tl ih =>
      obtain ⟨k0, v0⟩ := hd
      by_cases h0 : k0 = k
      · simp only [popKeyA, if_pos h0] at h
        simp only [List.map_cons, List.mem_cons]
        exact Or.inr h
      · simp only [popKeyA, if_neg h0, List.map_cons, List.mem_cons] at h
        simp only [List.map_cons, List.mem_cons]
        rcases h with h | h
        · exact Or.inl h
        · exact Or.inr (ih h)

theorem mem_snd_of_lookupA (l : List (String × Nat)) (k : String)
    (v : Nat) (h : lookupA l k = some v) : v ∈ l.map Prod.snd := by
  induction l with
  | nil => simp [lookupA] at h
  | cons hd tl ih =>
      obtain ⟨k0, v0⟩ := hd
      by_cases h0 : k0 = k
      · simp only [lookupA, if_pos h0] at h
        cases h
        simp
      · simp only [lookupA, if_neg h0] at h
        simp only [List.map_cons, List.mem_cons]
        exact Or.inr (ih h)

theorem mem_snd_dictMergeA (init rest : List (String × Nat)) (b : Nat)
    (h : b ∈ (dictMergeA init rest).map Prod.snd) :
    b ∈ init.map Prod.snd ∨ b ∈ rest.map Prod.snd := by
  induction rest generalizing init with
  | nil => exact Or.inl h
  | cons hd tl ih =>
      obtain ⟨k0, v0⟩ := hd
      have h2 : b ∈ (dictMergeA (setKeyA init k0 v0) tl).map Prod.snd := h
      rcases ih _ h2 with h3 | h3
      · rcases mem_snd_setKeyA init k0 v0 b h3 with h4 | h4
        · exact Or.inl h4
        · refine Or.inr ?_
          simp only [List.map_cons, List.mem_cons]
          exact Or.inl h4
      · refine Or.inr ?_
        simp only [List.map_cons, List.mem_cons]
        exact Or.inr h3

/-! ### The store-level `enforce_closed_objects` walk -/

/-- Is the cell at `a` the string `"object"`? -/
def isStrObjectCell : Option HCell → Bool
  | some (.prim (Json.str s)) => s == "object"
  | _ => false

/-- Store-level `node_type == "object" or (isinstance(node_type, list)
and "object" in node_type)`. -/
def storeIsObjectType (st : Store) : Option Nat → Bool
  | some ta =>
      match getCell st ta with
      | some (.prim (Json.str s)) => s == "object"
      | some (.arr items) => items.any (fun b => isStrObjectCell (getCell st b))
      | _ => false
  | none => false

def looksObjectishA (fields : List (String × Nat)) : Bool :=
  hasKeyA fields "properties" || hasKeyA fields "required" ||
  hasKeyA fields "patternProperties" ||
  hasKeyA fields "additionalProperties"

def storeIsObjectLike (st : Store) (fields : List (String × Nat)) : Bool :=
  storeIsObjectType st (lookupA fields "type") || looksObjectishA fields

/-- The in-place `node["additionalProperties"] = False` write: the fresh
`False` cell is allocated and the dict cell at `a` is overwritten. -/
def ecoMark (st : Store) (a : Nat) (fields : List (String × Nat)) : Store :=
  setCell (alloc st (.prim (.bool false))).1 a
    (.obj (setKeyA fields "additionalProperties"
      (alloc st (.prim (.bool false))).2))

/-- The values the walk then iterates (the mutated dict's values). -/
def ecoMarkedVals (st : Store) (fields : List (String × Nat)) : List Nat :=
  (setKeyA fields "additionalProperties"
    (alloc st (.prim (.bool false))).2).map Prod.snd

mutual

/-- The `walk` of `enforce_closed_objects` as a store transformer:
object-like dict nodes are marked in place before their values are
walked. -/
def walkECOS : Nat → Store → Nat → Option Store
  | 0, _, _ => none
  | fuel+1, st, a =>
      match getCell st a with
      | some (.obj fields) =>
          if storeIsObjectLike st fields then
            walkECOSList fuel (ecoMark st a fields) (ecoMarkedVals st fields)
          else
            walkECOSList fuel st (fields.map Prod.snd)
      | some (.arr items) => walkECOSList fuel st items
      | some (.prim _) => some st
      | none => none

def walkECOSList : Nat → Store → List Nat → Option Store
  | 0, _, _ => none
  | _+1, st, [] => some st
  | fuel+1, st, a :: rest =>
      match walkECOS fuel st a with
      | some st1 => walkECOSList fuel st1 rest
      | none => none

end

theorem ecoMark_step (n0 : Nat) (st : Store) (a : Nat)
    (fields : List (String × Nat))
    (hn : n0 ≤ st.next) (hD : domBound st) (hR : regionClosed n0 st)
    (ha : n0 ≤ a) (hg : getCell st a = some (.obj fields)) :
    frameBelow n0 st (ecoMark st a fields) ∧
    st.next ≤ (ecoMark st a fields).next ∧
    domBound (ecoMark st a fields) ∧
    regionClosed n0 (ecoMark st a fields) ∧
    (∀ b ∈ ecoMarkedVals st fields, n0 ≤ b) := by
  have haN : a < st.next := hD _ (lookupC_mem _ _ _ hg)
  have hrefs0 : ∀ b ∈ fields.map Prod.snd, n0 ≤ b :=
    hR a (.obj fields) ha hg
  have hrefs1 : ∀ b ∈ ecoMarkedVals st fields, n0 ≤ b := by
    intro b hb
    rcases mem_snd_setKeyA fields "additionalProperties" _ b hb with h | h
    · exact hrefs0 b h
    · show n0 ≤ b
      have : b = st.next := h
      omega
  have hD1 : domBound (alloc st (.prim (.bool false))).1 :=
    domBound_alloc st _ hD
  have hR1 : regionClosed n0 (alloc st (.prim (.bool false))).1 :=
    regionClosed_alloc n0 st _ hR hD (by simp [cellRefs])
  unfold ecoMark
  refine ⟨?_, ?_, ?_, ?_, hrefs1⟩
  · intro b hb
    have hba : b ≠ a := by omega
    rw [getCell_setCell_ne _ _ _ _ hba]
    exact getCell_alloc_of_lt st _ b (by omega)
  · show st.next ≤ st.next + 1
    omega
  · refine domBound_setCell _ _ _ hD1 ?_
    show a < st.next + 1
    omega
  · exact regionClosed_setCell n0 _ a _ hR1 hrefs1

mutual

/-- Frame property of the `enforce_closed_objects` walk: run from a root
in the region `[n0, ·)` of a closed store, it writes nothing below
`n0`. -/
theorem walkECOS_frame (n0 fuel : Nat) (st : Store) (a : Nat)
    (st2 : Store) (h : walkECOS fuel st a = some st2)
    (hn : n0 ≤ st.next) (hD : domBound st) (hR : regionClosed n0 st)
    (ha : n0 ≤ a) :
    frameBelow n0 st st2 ∧ st.next ≤ st2.next ∧ domBound st2 ∧
    regionClosed n0 st2 := by
  match fuel with
  | 0 => exact absurd h (by simp [walkECOS])
  | fuel+1 =>
      rw [show walkECOS (fuel+1) st a =
          match getCell st a with
          | some (.obj fields) =>
              if storeIsObjectLike st fields then
                walkECOSList fuel (ecoMark st a fields)
                  (ecoMarkedVals st fields)
              else
                walkECOSList fuel st (fields.map Prod.snd)
          | some (.arr items) => walkECOSList fuel st items
          | some (.prim _) => some st
          | none => none
        from rfl] at h
      rcases hg : getCell st a with _ | c
      · simp only [hg] at h
        exact Option.noConfusion h
      · cases c with
        | obj fields =>
            simp only [hg] at h
            by_cases hio : storeIsObjectLike st fields = true
            · rw [if_pos hio] at h
              obtain ⟨F1, N1, D1, R1, M1⟩ :=
                ecoMark_step n0 st a fields hn hD hR ha hg
              obtain ⟨F2, N2, D2, R2⟩ :=
                walkECOSList_frame n0 fuel (ecoMark st a fields)
                  (ecoMarkedVals st fields) st2 h (le_trans hn N1) D1 R1 M1
              exact ⟨frameBelow_trans n0 _ _ _ F1 F2, le_trans N1 N2,
                D2, R2⟩
            · rw [if_neg hio] at h
              exact walkECOSList_frame n0 fuel st (fields.map Prod.snd)
                st2 h hn hD hR (hR a (.obj fields) ha hg)
        | arr items =>
            simp only [hg] at h
            exact walkECOSList_frame n0 fuel st items st2 h hn hD hR
              (hR a (.arr items) ha hg)
        | prim v =>
            simp only [hg] at h
            cases h
            exact ⟨frameBelow_refl _ _, le_refl _, hD, hR⟩

theorem walkECOSList_frame (n0 fuel : Nat) (st : Store) (l : List Nat)
    (st2 : Store) (h : walkECOSList fuel st l = some st2)
    (hn : n0 ≤ st.next) (hD : domBound st) (hR : regionClosed n0 st)
    (hl : ∀ b ∈ l, n0 ≤ b) :
    frameBelow n0 st st2 ∧ st.next ≤ st2.next ∧ domBound st2 ∧
    regionClosed n0 st2 := by
  match fuel with
  | 0 => exact absurd h (by simp [walkECOSList])
  | fuel+1 =>
      match l with
      | [] =>
          cases h
          exact ⟨frameBelow_refl _ _, le_refl _, hD, hR⟩
      | a :: rest =>
          rw [show walkECOSList (fuel+1) st (a :: rest) =
              match walkECOS fuel st a with
              | some st1 => walkECOSList fuel st1 rest
              | none => none
            from rfl] at h
          rcases hw : walkECOS fuel st a with _ | st1
          · simp only [hw] at h
            exact Option.noConfusion h
          · simp only [hw] at h
            obtain ⟨F1, N1, D1, R1⟩ :=
              walkECOS_frame n0 fuel st a st1 hw hn hD hR (hl a (by simp))
            obtain ⟨F2, N2, D2, R2⟩ :=
              walkECOSList_frame n0 fuel st1 rest st2 h (le_trans hn N1)
                D1 R1 (fun b hb => hl b (List.mem_cons_of_mem _ hb))
            exact ⟨frameBelow_trans n0 _ _ _ F1 F2, le_trans N1 N2,
              D2, R2⟩

end

/-- Store-level `enforce_closed_objects`: deepcopy, then the in-place
walk on the copy. -/
def enforce_closed_objects_store (fuel : Nat) (st : Store) (a : Nat) :
    Option (Store × Nat) :=
  match deepcopy fuel st a with
  | some (st1, n) =>
      match walkECOS fuel st1 n with
      | some st2 => some (st2, n)
      | none => none
  | none => none

theorem enforce_closed_objects_store_frame (fuel : Nat) (st : Store)
    (a : Nat) (st2 : Store) (a2 : Nat) (hD : domBound st)
    (h : enforce_closed_objects_store fuel st a = some (st2, a2)) :
    frameBelow st.next st st2 ∧ st.next ≤ st2.next ∧ domBound st2 ∧
    regionClosed st.next st2 ∧ st.next ≤ a2 := by
  unfold enforce_closed_objects_store at h
  rcases hdc : deepcopy fuel st a with _ | ⟨st1, n⟩
  · simp only [hdc] at h
    exact Option.noConfusion h
  · simp only [hdc] at h
    rcases hw : walkECOS fuel st1 n with _ | st3
    · simp only [hw] at h
      exact Option.noConfusion h
    · simp only [hw] at h
      have h2 := Option.some.inj h
      injection h2 with ha hb
      subst ha
      subst hb
      obtain ⟨F1, N1, D1, R1, A1, A2⟩ :=
        deepcopy_frame st.next fuel st a st1 n hdc (le_refl _) hD
          (fun x c hx hget => absurd (hD _ (lookupC_mem _ _ _ hget))
            (by omega))
      obtain ⟨F2, N2, D2, R2⟩ :=
        walkECOS_frame st.next fuel st1 n st3 hw N1 D1 R1 A1
      exact ⟨frameBelow_trans _ _ _ _ F1 F2, le_trans N1 N2, D2, R2, A1⟩

/-! ### The store-level `strip_schema_keywords` walk -/

mutual

/-- The `walk` of `strip_schema_keywords` as a store transformer. -/
def walkStripS : Nat → List String → Store → Nat → Option Store
  | 0, _, _, _ => none
  | fuel+1, keys, st, a =>
      match getCell st a with
      | some (.obj fields) => stripLoop fuel keys st a (fields.map Prod.fst)
      | some (.arr items) => walkStripSList fuel keys st items
      | some (.prim _) => some st
      | none => none

/-- The `for key in list(node.keys())` loop: pops a matching key from
the dict cell in place, otherwise walks `node[key]` (re-read from the
current cell). -/
def stripLoop :
    Nat → List String → Store → Nat → List String → Option Store
  | 0, _, _, _, _ => none
  | _+1, _, st, _, [] => some st
  | fuel+1, keys, st, a, k :: ks =>
      if k ∈ keys then
        match getCell st a with
        | some (.obj fields) =>
            stripLoop fuel keys (setCell st a (.obj (popKeyA fields k))) a ks
        | _ => none
      else
        match getCell st a with
        | some (.obj fields) =>
            match lookupA fields k with
            | some av =>
                match walkStripS fuel keys st av with
                | some st1 => stripLoop fuel keys st1 a ks
                | none => none
            | none => none
        | _ => none

def walkStripSList : Nat → List String → Store → List Nat → Option Store
  | 0, _, _, _ => none
  | _+1, _, st, [] => some st
  | fuel+1, keys, st, a :: rest =>
      match walkStripS fuel keys st a with
      | some st1 => walkStripSList fuel keys st1 rest
      | none => none

end

mutual

/-- Frame property of the `strip_schema_keywords` walk. -/
theorem walkStripS_frame (n0 fuel : Nat) (keys : List String)
    (st : Store) (a : Nat) (st2 : Store)
    (h : walkStripS fuel keys st a = some st2)
    (hn : n0 ≤ st.next) (hD : domBound st) (hR : regionClosed n0 st)
    (ha : n0 ≤ a) :
    frameBelow n0 st st2 ∧ st.next ≤ st2.next ∧ domBound st2 ∧
    regionClosed n0 st2 := by
  match fuel with
  | 0 => exact absurd h (by simp [walkStripS])
  | fuel+1 =>
      rw [show walkStripS (fuel+1) keys st a =
          match getCell st a with
          | some (.obj fields) =>
              stripLoop fuel keys st a (fields.map Prod.fst)
          | some (.arr items) => walkStripSList fuel keys st items
          | some (.prim _) => some st
          | none => none
        from rfl] at h
      rcases hg : getCell st a with _ | c
      · simp only [hg] at h
        exact Option.noConfusion h
      · cases c with
        | obj fields =>
            simp only [hg] at h
            exact stripLoop_frame n0 fuel keys st a (fields.map Prod.fst)
              st2 h hn hD hR ha
        | arr items =>
            simp only [hg] at h
            exact walkStripSList_frame n0 fuel keys st items st2 h hn hD hR
              (hR a (.arr items) ha hg)
        | prim v =>
            simp only [hg] at h
            cases h
            exact ⟨frameBelow_refl _ _, le_refl _, hD, hR⟩

theorem stripLoop_frame (n0 fuel : Nat) (keys : List String)
    (st : Store) (a : Nat) (ks : List String) (st2 : Store)
    (h : stripLoop fuel keys st a ks = some st2)
    (hn : n0 ≤ st.next) (hD : domBound st) (hR : regionClosed n0 st)
    (ha : n0 ≤ a) :
    frameBelow n0 st st2 ∧ st.next ≤ st2.next ∧ domBound st2 ∧
    regionClosed n0 st2 := by
  match fuel with
  | 0 => exact absurd h (by simp [stripLoop])
  | fuel+1 =>
      match ks with
      | [] =>
          cases h
          exact ⟨frameBelow_refl _ _, le_refl _, hD, hR⟩
      | k :: ks =>
          rw [show stripLoop (fuel+1) keys st a (k :: ks) =
              (if k ∈ keys then
                match getCell st a with
                | some (.obj fields) =>
                    stripLoop fuel keys
                      (setCell st a (.obj (popKeyA fields k))) a ks
                | _ => none
              else
                match getCell st a with
                | some (.obj fields) =>
                    match lookupA fields k with
                    | some av =>
                        match walkStripS fuel keys st av with
                        | some st1 => stripLoop fuel keys st1 a ks
                        | none => none
                    | none => none
                | _ => none)
            from rfl] at h
          by_cases hk : k ∈ keys
          · rw [if_pos hk] at h
            rcases hg : getCell st a with _ | c
            · simp only [hg] at h
              exact Option.noConfusion h
            · cases c with
              | obj fields =>
                  simp only [hg] at h
                  have haN : a < st.next := hD _ (lookupC_mem _ _ _ hg)
                  have hrefs : ∀ b ∈ cellRefs (HCell.obj (popKeyA fields k)),
                      n0 ≤ b := by
                    intro b hb
                    exact hR a (.obj fields) ha hg b
                      (mem_snd_popKeyA fields k b hb)
                  obtain ⟨F2, N2, D2, R2⟩ :=
                    stripLoop_frame n0 fuel keys
                      (setCell st a (.obj (popKeyA fields k))) a ks st2 h
                      hn (domBound_setCell _ _ _ hD haN)
                      (regionClosed_setCell n0 _ a _ hR hrefs) ha
                  refine ⟨?_, N2, D2, R2⟩
                  intro b hb
                  rw [F2 b hb]
                  exact getCell_setCell_ne _ _ _ _ (by omega)
              | arr items =>
                  simp only [hg] at h
                  exact Option.noConfusion h
              | prim v =>
                  simp only [hg] at h
                  exact Option.noConfusion h
          · rw [if_neg hk] at h
            rcases hg : getCell st a with _ | c
            · simp only [hg] at h
              exact Option.noConfusion h
            · cases c with
              | obj fields =>
                  simp only [hg] at h
                  rcases hl : lookupA fields k with _ | av
                  · simp only [hl] at h
                    exact Option.noConfusion h
                  · simp only [hl] at h
                    rcases hw : walkStripS fuel keys st av with _ | st1
                    · simp only [hw] at h
                      exact Option.noConfusion h
                    · simp only [hw] at h
                      have hav : n0 ≤ av :=
                        hR a (.obj fields) ha hg av
                          (mem_snd_of_lookupA fields k av hl)
                      obtain ⟨F1, N1, D1, R1⟩ :=
                        walkStripS_frame n0 fuel keys st av st1 hw hn hD
                          hR hav
                      obtain ⟨F2, N2, D2, R2⟩ :=
                        stripLoop_frame n0 fuel keys st1 a ks st2 h
                          (le_trans hn N1) D1 R1 ha
                      exact ⟨frameBelow_trans n0 _ _ _ F1 F2,
                        le_trans N1 N2, D2, R2⟩
              | arr items =>
                  simp only [hg] at h
                  exact Option.noConfusion h
              | prim v =>
                  simp only [hg] at h
                  exact Option.noConfusion h

theorem walkStripSList_frame (n0 fuel : Nat) (keys : List String)
    (st : Store) (l : List Nat) (st2 : Store)
    (h : walkStripSList fuel keys st l = some st2)
    (hn : n0 ≤ st.next) (hD : domBound st) (hR : regionClosed n0 st)
    (hl : ∀ b ∈ l, n0 ≤ b) :
    frameBelow n0 st st2 ∧ st.next ≤ st2.next ∧ domBound st2 ∧
    regionClosed n0 st2 := by
  match fuel with
  | 0 => exact absurd h (by simp [walkStripSList])
  | fuel+1 =>
      match l with
      | [] =>
          cases h
          exact ⟨frameBelow_refl _ _, le_refl _, hD, hR⟩
      | a :: rest =>
          rw [show walkStripSList (fuel+1) keys st (a :: rest) =
              match walkStripS fuel keys st a with
              | some st1 => walkStripSList fuel keys st1 rest
              | none => none
            from rfl] at h
          rcases hw : walkStripS fuel keys st a with _ | st1
          · simp only [hw] at h
            exact Option.noConfusion h
          · simp only [hw] at h
            obtain ⟨F1, N1, D1, R1⟩ :=
              walkStripS_frame n0 fuel keys st a st1 hw hn hD hR
                (hl a (by simp))
            obtain ⟨F2, N2, D2, R2⟩ :=
              walkStripSList_frame n0 fuel keys st1 rest st2 h
                (le_trans hn N1) D1 R1
                (fun b hb => hl b (List.mem_cons_of_mem _ hb))
            exact ⟨frameBelow_trans n0 _ _ _ F1 F2, le_trans N1 N2,
              D2, R2⟩

end

/-- Store-level `strip_schema_keywords`: deepcopy, then the in-place
walk on the copy. -/
def strip_schema_keywords_store (fuel : Nat) (keys : List String)
    (st : Store) (a : Nat) : Option (Store × Nat) :=
  match deepcopy fuel st a with
  | some (st1, n) =>
      match walkStripS fuel keys st1 n with
      | some st2 => some (st2, n)
      | none => none
  | none => none

theorem strip_schema_keywords_store_frame (fuel : Nat)
    (keys : List String) (st : Store) (a : Nat) (st2 : Store) (a2 : Nat)
    (hD : domBound st)
    (h : strip_schema_keywords_store fuel keys st a = some (st2, a2)) :
    frameBelow st.next st st2 ∧ st.next ≤ st2.next ∧ domBound st2 ∧
    regionClosed st.next st2 ∧ st.next ≤ a2 := by
  unfold strip_schema_keywords_store at h
  rcases hdc : deepcopy fuel st a with _ | ⟨st1, n⟩
  · simp only [hdc] at h
    exact Option.noConfusion h
  · simp only [hdc] at h
    rcases hw : walkStripS fuel keys st1 n with _ | st3
    · simp only [hw] at h
      exact Option.noConfusion h
    · simp only [hw] at h
      have h2 := Option.some.inj h
      injection h2 with ha hb
      subst ha
      subst hb
      obtain ⟨F1, N1, D1, R1, A1, A2⟩ :=
        deepcopy_frame st.next fuel st a st1 n hdc (le_refl _) hD
          (fun x c hx hget => absurd (hD _ (lookupC_mem _ _ _ hget))
            (by omega))
      obtain ⟨F2, N2, D2, R2⟩ :=
        walkStripS_frame st.next fuel keys st1 n st3 hw N1 D1 R1 A1
      exact ⟨frameBelow_trans _ _ _ _ F1 F2, le_trans N1 N2, D2, R2, A1⟩

/-! ### The store-level `_make_nullable` -/

def isStrNullCell : Option HCell → Bool
  | some (.prim (Json.str s)) => s == "null"
  | _ => false

/-- `node.get("type") == "null"`. -/
def typeIsNullStrS (st : Store) (fields : List (String × Nat)) : Bool :=
  match lookupA fields "type" with
  | some ta => isStrNullCell (getCell st ta)
  | none => false

/-- `isinstance(node_type, list) and "null" in node_type`. -/
def typeListHasNullS (st : Store) (fields : List (String × Nat)) : Bool :=
  match lookupA fields "type" with
  | some ta =>
      match getCell st ta with
      | some (.arr items) => items.any (fun b => isStrNullCell (getCell st b))
      | _ => false
  | none => false

/-- `node.get(k)` when it is a list cell: its address and items. -/
def listValueS (st : Store) (fields : List (String × Nat)) (k : String) :
    Option (Nat × List Nat) :=
  match lookupA fields k with
  | some aa =>
      match getCell st aa with
      | some (.arr items) => some (aa, items)
      | _ => none
  | none => none

/-- `any(isinstance(item, dict) and item.get("type") == "null" ...)`. -/
def hasNullBranchS (st : Store) (items : List Nat) : Bool :=
  items.any (fun b =>
    match getCell st b with
    | some (.obj fs) =>
        match lookupA fs "type" with
        | some ta => isStrNullCell (getCell st ta)
        | none => false
    | _ => false)

def typeCellS (st : Store) (fields : List (String × Nat)) : Option HCell :=
  match lookupA fields "type" with
  | some ta => getCell st ta
  | none => none

/-- Allocate a fresh `{"type": t}` node (string cell, then dict cell). -/
def allocTypeNodeS (st : Store) (t : String) : Store × Nat :=
  alloc (alloc st (.prim (.str t))).1
    (.obj [("type", (alloc st (.prim (.str t))).2)])

/-- Allocate a fresh `{"type": "null"}` node. -/
def allocNullTypeNodeS (st : Store) : Store × Nat :=
  allocTypeNodeS st "null"

theorem allocTypeNodeS_step (n0 : Nat) (st : Store) (t : String)
    (hn : n0 ≤ st.next) (hD : domBound st) (hR : regionClosed n0 st) :
    frameBelow n0 st (allocTypeNodeS st t).1 ∧
    st.next ≤ (allocTypeNodeS st t).1.next ∧
    domBound (allocTypeNodeS st t).1 ∧
    regionClosed n0 (allocTypeNodeS st t).1 ∧
    n0 ≤ (allocTypeNodeS st t).2 ∧
    (allocTypeNodeS st t).2 < (allocTypeNodeS st t).1.next := by
  have AS1 := alloc_step n0 st (.prim (.str t)) hD hR (by simp [cellRefs])
  have AS2 := alloc_step n0 (alloc st (.prim (.str t))).1
    (.obj [("type", (alloc st (.prim (.str t))).2)]) AS1.2.2.1 AS1.2.2.2.1
    (by
      intro b hb
      simp only [cellRefs, List.map_cons, List.map_nil,
        List.mem_singleton] at hb
      subst hb
      show n0 ≤ st.next
      omega)
  refine ⟨?_, le_trans AS1.2.1 AS2.2.1, AS2.2.2.1, AS2.2.2.2.1, ?_,
    AS2.2.2.2.2.2⟩
  · intro b hb
    exact (AS2.1 b (by
      have := AS1.2.1
      omega)).trans (AS1.1 b (by omega))
  · exact le_trans hn (le_trans AS1.2.1 AS2.2.2.2.2.1)

/-- Append-with-null helper: `any_of.append({"type": "null"})` mutating
the list cell at `aa` in place. -/
def appendNullS (st : Store) (aa : Nat) (items : List Nat) : Store :=
  setCell (allocNullTypeNodeS st).1 aa
    (.arr (items ++ [(allocNullTypeNodeS st).2]))

theorem appendNullS_step (n0 : Nat) (st : Store) (aa : Nat)
    (items : List Nat) (hn : n0 ≤ st.next) (hD : domBound st)
    (hR : regionClosed n0 st) (haa : n0 ≤ aa) (haaN : aa < st.next)
    (hitems : ∀ b ∈ items, n0 ≤ b) :
    frameBelow n0 st (appendNullS st aa items) ∧
    st.next ≤ (appendNullS st aa items).next ∧
    domBound (appendNullS st aa items) ∧
    regionClosed n0 (appendNullS st aa items) := by
  have AS := allocTypeNodeS_step n0 st "null" hn hD hR
  have hrefs : ∀ b ∈ cellRefs (HCell.arr
      (items ++ [(allocNullTypeNodeS st).2])), n0 ≤ b := by
    intro b hb
    simp only [cellRefs, List.mem_append, List.mem_singleton] at hb
    rcases hb with hb | hb
    · exact hitems b hb
    · subst hb
      exact AS.2.2.2.2.1
  unfold appendNullS
  refine ⟨?_, ?_, ?_, ?_⟩
  · intro b hb
    rw [getCell_setCell_ne _ _ _ _ (by omega)]
    exact AS.1 b hb
  · exact AS.2.1
  · exact domBound_setCell _ _ _ AS.2.2.1 (by
      have := AS.2.1
      show aa < (allocTypeNodeS st "null").1.next
      omega)
  · exact regionClosed_setCell n0 _ aa _ AS.2.2.2.1 hrefs

/-- The `{"type": t} for t in node_type if t != "null"` comprehension:
fresh wrapper dicts referencing the existing type-string cells. -/
def allocTypeWrappers (st : Store) : List Nat → Store × List Nat
  | [] => (st, [])
  | t :: rest =>
      if isStrNullCell (getCell st t) then allocTypeWrappers st rest
      else
        ((allocTypeWrappers (alloc st (.obj [("type", t)])).1 rest).1,
         (alloc st (.obj [("type", t)])).2 ::
           (allocTypeWrappers (alloc st (.obj [("type", t)])).1 rest).2)

theorem allocTypeWrappers_step (n0 : Nat) (st : Store) (ts : List Nat)
    (hn : n0 ≤ st.next) (hD : domBound st) (hR : regionClosed n0 st)
    (hts : ∀ b ∈ ts, n0 ≤ b) :
    frameBelow n0 st (allocTypeWrappers st ts).1 ∧
    st.next ≤ (allocTypeWrappers st ts).1.next ∧
    domBound (allocTypeWrappers st ts).1 ∧
    regionClosed n0 (allocTypeWrappers st ts).1 ∧
    (∀ b ∈ (allocTypeWrappers st ts).2, n0 ≤ b) := by
  induction ts generalizing st with
  | nil =>
      exact ⟨frameBelow_refl _ _, le_refl _, hD, hR,
        by simp [allocTypeWrappers]⟩
  | cons t rest ih =>
      by_cases hc : isStrNullCell (getCell st t) = true
      · rw [show allocTypeWrappers st (t :: rest) =
            (if isStrNullCell (getCell st t) then allocTypeWrappers st rest
             else
               ((allocTypeWrappers (alloc st (.obj [("type", t)])).1
                  rest).1,
                (alloc st (.obj [("type", t)])).2 ::
                  (allocTypeWrappers (alloc st (.obj [("type", t)])).1
                    rest).2)) from rfl, if_pos hc]
        exact ih st hn hD hR (fun b hb => hts b (List.mem_cons_of_mem _ hb))
      · rw [show allocTypeWrappers st (t :: rest) =
            (if isStrNullCell (getCell st t) then allocTypeWrappers st rest
             else
               ((allocTypeWrappers (alloc st (.obj [("type", t)])).1
                  rest).1,
                (alloc st (.obj [("type", t)])).2 ::
                  (allocTypeWrappers (alloc st (.obj [("type", t)])).1
                    rest).2)) from rfl, if_neg hc]
        have AS := alloc_step n0 st (.obj [("type", t)]) hD hR (by
          intro b hb
          simp only [cellRefs, List.map_cons, List.map_nil,
            List.mem_singleton] at hb
          subst hb
          exact hts _ (by simp))
        obtain ⟨F2, N2, D2, R2, M2⟩ :=
          ih (alloc st (.obj [("type", t)])).1 (le_trans hn AS.2.1)
            AS.2.2.1 AS.2.2.2.1
            (fun b hb => hts b (List.mem_cons_of_mem _ hb))
        refine ⟨?_, le_trans AS.2.1 N2, D2, R2, ?_⟩
        · intro b hb
          exact (F2 b hb).trans (AS.1 b (lt_of_lt_of_le hb hn))
        · intro b hb
          rcases List.mem_cons.mp hb with hb | hb
          · subst hb
            exact le_trans hn AS.2.2.2.2.1
          · exact M2 b hb

/-- Fresh string cells for a list of keys. -/
def allocPrimStrs (st : Store) : List String → Store × List Nat
  | [] => (st, [])
  | k :: ks =>
      ((allocPrimStrs (alloc st (.prim (.str k))).1 ks).1,
       (alloc st (.prim (.str k))).2 ::
         (allocPrimStrs (alloc st (.prim (.str k))).1 ks).2)

theorem allocPrimStrs_step (n0 : Nat) (st : Store) (ks : List String)
    (hn : n0 ≤ st.next) (hD : domBound st) (hR : regionClosed n0 st) :
    frameBelow n0 st (allocPrimStrs st ks).1 ∧
    st.next ≤ (allocPrimStrs st ks).1.next ∧
    domBound (allocPrimStrs st ks).1 ∧
    regionClosed n0 (allocPrimStrs st ks).1 ∧
    (∀ b ∈ (allocPrimStrs st ks).2, n0 ≤ b) := by
  induction ks generalizing st with
  | nil =>
      exact ⟨frameBelow_refl _ _, le_refl _, hD, hR,
        by simp [allocPrimStrs]⟩
  | cons k ks ih =>
      have AS := alloc_step n0 st (.prim (.str k)) hD hR (by simp [cellRefs])
      obtain ⟨F2, N2, D2, R2, M2⟩ :=
        ih (alloc st (.prim (.str k))).1 (le_trans hn AS.2.1) AS.2.2.1
          AS.2.2.2.1
      refine ⟨?_, le_trans AS.2.1 N2, D2, R2, ?_⟩
      · intro b hb
        exact (F2 b hb).trans (AS.1 b (lt_of_lt_of_le hb hn))
      · intro b hb
        rcases List.mem_cons.mp hb with hb | hb
        · subst hb
          exact le_trans hn AS.2.2.2.2.1
        · exact M2 b hb

/-- The fresh `list(properties.keys())` value for `node["required"]`. -/
def allocStrList (st : Store) (ks : List String) : Store × Nat :=
  alloc (allocPrimStrs st ks).1 (.arr (allocPrimStrs st ks).2)

theorem allocStrList_step (n0 : Nat) (st : Store) (ks : List String)
    (hn : n0 ≤ st.next) (hD : domBound st) (hR : regionClosed n0 st) :
    frameBelow n0 st (allocStrList st ks).1 ∧
    st.next ≤ (allocStrList st ks).1.next ∧
    domBound (allocStrList st ks).1 ∧
    regionClosed n0 (allocStrList st ks).1 ∧
    n0 ≤ (allocStrList st ks).2 := by
  obtain ⟨F1, N1, D1, R1, M1⟩ := allocPrimStrs_step n0 st ks hn hD hR
  have AS := alloc_step n0 (allocPrimStrs st ks).1
    (.arr (allocPrimStrs st ks).2) D1 R1 M1
  refine ⟨?_, le_trans N1 AS.2.1, AS.2.2.1, AS.2.2.2.1, ?_⟩
  · intro b hb
    exact (AS.1 b (by omega)).trans (F1 b hb)
  · exact le_trans hn (le_trans N1 AS.2.2.2.2.1)

/-- The four store-transition facts every transform step preserves. -/
def stepOK (n0 : Nat) (st st2 : Store) : Prop :=
  frameBelow n0 st st2 ∧ st.next ≤ st2.next ∧ domBound st2 ∧
  regionClosed n0 st2

theorem stepOK_trans (n0 : Nat) (st1 st2 st3 : Store)
    (h1 : stepOK n0 st1 st2) (h2 : stepOK n0 st2 st3) :
    stepOK n0 st1 st3 :=
  ⟨frameBelow_trans n0 _ _ _ h1.1 h2.1, le_trans h1.2.1 h2.2.1,
   h2.2.2.1, h2.2.2.2⟩

theorem stepOK_alloc (n0 : Nat) (st : Store) (c : HCell)
    (hn : n0 ≤ st.next) (hD : domBound st) (hR : regionClosed n0 st)
    (hrefs : ∀ b ∈ cellRefs c, n0 ≤ b) :
    stepOK n0 st (alloc st c).1 := by
  have AS := alloc_step n0 st c hD hR hrefs
  exact ⟨fun b hb => AS.1 b (lt_of_lt_of_le hb hn), AS.2.1, AS.2.2.1,
    AS.2.2.2.1⟩

theorem stepOK_setCell (n0 : Nat) (st : Store) (a : Nat) (c : HCell)
    (hD : domBound st) (hR : regionClosed n0 st) (ha : n0 ≤ a)
    (haN : a < st.next) (hrefs : ∀ b ∈ cellRefs c, n0 ≤ b) :
    stepOK n0 st (setCell st a c) := by
  refine ⟨?_, le_refl _, domBound_setCell _ _ _ hD haN,
    regionClosed_setCell n0 _ a _ hR hrefs⟩
  intro b hb
  exact getCell_setCell_ne _ _ _ _ (by omega)

theorem allocTypeNodeS_stepOK (n0 : Nat) (st : Store) (t : String)
    (hn : n0 ≤ st.next) (hD : domBound st) (hR : regionClosed n0 st) :
    stepOK n0 st (allocTypeNodeS st t).1 ∧
    n0 ≤ (allocTypeNodeS st t).2 ∧
    (allocTypeNodeS st t).2 < (allocTypeNodeS st t).1.next := by
  have AS := allocTypeNodeS_step n0 st t hn hD hR
  exact ⟨⟨fun b hb => AS.1 b hb, AS.2.1, AS.2.2.1, AS.2.2.2.1⟩,
    AS.2.2.2.2.1, AS.2.2.2.2.2⟩

theorem allocNullTypeNodeS_stepOK (n0 : Nat) (st : Store)
    (hn : n0 ≤ st.next) (hD : domBound st) (hR : regionClosed n0 st) :
    stepOK n0 st (allocNullTypeNodeS st).1 ∧
    n0 ≤ (allocNullTypeNodeS st).2 ∧
    (allocNullTypeNodeS st).2 < (allocNullTypeNodeS st).1.next :=
  allocTypeNodeS_stepOK n0 st "null" hn hD hR

/-- `node["anyOf"] = one_of + [null]` and `node.pop("oneOf")` on the
dict cell at `n` (the list on the right is a fresh list object). -/
def mkNullOneOfS (st : Store) (n : Nat) (fields : List (String × Nat))
    (items : List Nat) : Store :=
  setCell
    (alloc (allocNullTypeNodeS st).1
      (.arr (items ++ [(allocNullTypeNodeS st).2]))).1 n
    (.obj (popKeyA (setKeyA fields "anyOf"
      (alloc (allocNullTypeNodeS st).1
        (.arr (items ++ [(allocNullTypeNodeS st).2]))).2) "oneOf"))

theorem mkNullOneOfS_stepOK (n0 : Nat) (st : Store) (n : Nat)
    (fields : List (String × Nat)) (items : List Nat)
    (hn : n0 ≤ st.next) (hD : domBound st) (hR : regionClosed n0 st)
    (hnode : n0 ≤ n) (hnodeN : n < st.next)
    (hfields : ∀ b ∈ fields.map Prod.snd, n0 ≤ b)
    (hitems : ∀ b ∈ items, n0 ≤ b) :
    stepOK n0 st (mkNullOneOfS st n fields items) := by
  obtain ⟨S1, G1, L1⟩ := allocNullTypeNodeS_stepOK n0 st hn hD hR
  have S2 := stepOK_alloc n0 (allocNullTypeNodeS st).1
    (.arr (items ++ [(allocNullTypeNodeS st).2]))
    (le_trans hn S1.2.1) S1.2.2.1 S1.2.2.2 (by
      intro b hb
      simp only [cellRefs, List.mem_append, List.mem_singleton] at hb
      rcases hb with hb | hb
      · exact hitems b hb
      · subst hb
        exact G1)
  have hla : n0 ≤ (alloc (allocNullTypeNodeS st).1
      (.arr (items ++ [(allocNullTypeNodeS st).2]))).2 := by
    have h1 := S1.2.1
    show n0 ≤ (allocNullTypeNodeS st).1.next
    omega
  have S3 := stepOK_setCell n0
    (alloc (allocNullTypeNodeS st).1
      (.arr (items ++ [(allocNullTypeNodeS st).2]))).1 n
    (.obj (popKeyA (setKeyA fields "anyOf"
      (alloc (allocNullTypeNodeS st).1
        (.arr (items ++ [(allocNullTypeNodeS st).2]))).2) "oneOf"))
    S2.2.2.1 S2.2.2.2 hnode (by
      have h1 := S1.2.1
      have h2 := S2.2.1
      omega) (by
      intro b hb
      rcases mem_snd_setKeyA _ _ _ b (mem_snd_popKeyA _ _ b hb)
        with h | h
      · exact hfields b h
      · subst h
        exact hla)
  exact stepOK_trans n0 _ _ _ (stepOK_trans n0 _ _ _ S1 S2) S3

/-- The fresh `anyOf` pair `[{"type": t}, {"type": "null"}]`. -/
def allocAnyOfPairS (st : Store) (t : String) : Store × Nat :=
  alloc (allocNullTypeNodeS (allocTypeNodeS st t).1).1
    (.arr [(allocTypeNodeS st t).2,
           (allocNullTypeNodeS (allocTypeNodeS st t).1).2])

theorem allocAnyOfPairS_stepOK (n0 : Nat) (st : Store) (t : String)
    (hn : n0 ≤ st.next) (hD : domBound st) (hR : regionClosed n0 st) :
    stepOK n0 st (allocAnyOfPairS st t).1 ∧
    n0 ≤ (allocAnyOfPairS st t).2 := by
  obtain ⟨S1, G1, L1⟩ := allocTypeNodeS_stepOK n0 st t hn hD hR
  obtain ⟨S2, G2, L2⟩ := allocNullTypeNodeS_stepOK n0
    (allocTypeNodeS st t).1 (le_trans hn S1.2.1) S1.2.2.1 S1.2.2.2
  have S3 := stepOK_alloc n0 (allocNullTypeNodeS (allocTypeNodeS st t).1).1
    (.arr [(allocTypeNodeS st t).2,
           (allocNullTypeNodeS (allocTypeNodeS st t).1).2])
    (le_trans (le_trans hn S1.2.1) S2.2.1) S2.2.2.1 S2.2.2.2 (by
      intro b hb
      simp only [cellRefs, List.mem_cons, List.mem_singleton,
        List.not_mem_nil, or_false] at hb
      rcases hb with hb | hb
      · subst hb
        exact G1
      · subst hb
        exact G2)
  refine ⟨stepOK_trans n0 _ _ _ (stepOK_trans n0 _ _ _ S1 S2) S3, ?_⟩
  have h1 := S1.2.1
  have h2 := S2.2.1
  show n0 ≤ (allocNullTypeNodeS (allocTypeNodeS st t).1).1.next
  omega

/-- The fresh `anyOf` list for a type union:
`[{"type": t} for t in node_type if t != "null"] + [{"type":"null"}]`. -/
def allocWrappedArrS (st : Store) (tItems : List Nat) : Store × Nat :=
  alloc (allocNullTypeNodeS (allocTypeWrappers st tItems).1).1
    (.arr ((allocTypeWrappers st tItems).2 ++
      [(allocNullTypeNodeS (allocTypeWrappers st tItems).1).2]))

theorem allocWrappedArrS_stepOK (n0 : Nat) (st : Store)
    (tItems : List Nat) (hn : n0 ≤ st.next) (hD : domBound st)
    (hR : regionClosed n0 st) (hts : ∀ b ∈ tItems, n0 ≤ b) :
    stepOK n0 st (allocWrappedArrS st tItems).1 ∧
    n0 ≤ (allocWrappedArrS st tItems).2 := by
  obtain ⟨F1, N1, D1, R1, M1⟩ := allocTypeWrappers_step n0 st tItems
    hn hD hR hts
  obtain ⟨S2, G2, L2⟩ := allocNullTypeNodeS_stepOK n0
    (allocTypeWrappers st tItems).1 (le_trans hn N1) D1 R1
  have S3 := stepOK_alloc n0
    (allocNullTypeNodeS (allocTypeWrappers st tItems).1).1
    (.arr ((allocTypeWrappers st tItems).2 ++
      [(allocNullTypeNodeS (allocTypeWrappers st tItems).1).2]))
    (le_trans (le_trans hn N1) S2.2.1) S2.2.2.1 S2.2.2.2 (by
      intro b hb
      simp only [cellRefs, List.mem_append, List.mem_singleton] at hb
      rcases hb with hb | hb
      · exact M1 b hb
      · subst hb
        exact G2)
  refine ⟨stepOK_trans n0 _ _ _ (stepOK_trans n0 _ _ _
    ⟨F1, N1, D1, R1⟩ S2) S3, ?_⟩
  have h2 := S2.2.1
  show n0 ≤ (allocNullTypeNodeS (allocTypeWrappers st tItems).1).1.next
  omega

/-- Branch for a string `type`: a second `deepcopy(node)`, `type`
popped, and a fresh result dict `{"anyOf": [...], **new_node}`. -/
def mkNullStrTypeS (fuel : Nat) (st : Store)
    (fields : List (String × Nat)) (t : String) : Option (Store × Nat) :=
  match deepcopyFields fuel st fields with
  | some (st2, fields2) =>
      some (alloc (allocAnyOfPairS st2 t).1
        (.obj (dictMergeA [("anyOf", (allocAnyOfPairS st2 t).2)]
          (popKeyA fields2 "type"))))
  | none => none

/-- Branch for a list `type`: as the string branch, with one wrapper per
non-null union member. -/
def mkNullListTypeS (fuel : Nat) (st : Store)
    (fields : List (String × Nat)) (tItems : List Nat) :
    Option (Store × Nat) :=
  match deepcopyFields fuel st fields with
  | some (st2, fields2) =>
      some (alloc (allocWrappedArrS st2 tItems).1
        (.obj (dictMergeA [("anyOf", (allocWrappedArrS st2 tItems).2)]
          (popKeyA fields2 "type"))))
  | none => none

/-- The final fallback: a fresh `{"anyOf": [node, {"type":"null"}]}`. -/
def mkNullWrapS (st : Store) (n : Nat) : Store × Nat :=
  alloc
    (alloc (allocNullTypeNodeS st).1
      (.arr [n, (allocNullTypeNodeS st).2])).1
    (.obj [("anyOf",
      (alloc (allocNullTypeNodeS st).1
        (.arr [n, (allocNullTypeNodeS st).2])).2)])

theorem mkNullWrapS_stepOK (n0 : Nat) (st : Store) (n : Nat)
    (hn : n0 ≤ st.next) (hD : domBound st) (hR : regionClosed n0 st)
    (hnode : n0 ≤ n) :
    stepOK n0 st (mkNullWrapS st n).1 ∧ n0 ≤ (mkNullWrapS st n).2 := by
  obtain ⟨S1, G1, L1⟩ := allocNullTypeNodeS_stepOK n0 st hn hD hR
  have S2 := stepOK_alloc n0 (allocNullTypeNodeS st).1
    (.arr [n, (allocNullTypeNodeS st).2]) (le_trans hn S1.2.1)
    S1.2.2.1 S1.2.2.2 (by
      intro b hb
      simp only [cellRefs, List.mem_cons, List.mem_singleton,
        List.not_mem_nil, or_false] at hb
      rcases hb with hb | hb
      · subst hb
        exact hnode
      · subst hb
        exact G1)
  have hla : n0 ≤ (alloc (allocNullTypeNodeS st).1
      (.arr [n, (allocNullTypeNodeS st).2])).2 := by
    have h1 := S1.2.1
    show n0 ≤ (allocNullTypeNodeS st).1.next
    omega
  have S3 := stepOK_alloc n0
    (alloc (allocNullTypeNodeS st).1
      (.arr [n, (allocNullTypeNodeS st).2])).1
    (.obj [("anyOf",
      (alloc (allocNullTypeNodeS st).1
        (.arr [n, (allocNullTypeNodeS st).2])).2)])
    (le_trans (le_trans hn S1.2.1) S2.2.1) S2.2.2.1 S2.2.2.2 (by
      intro b hb
      simp only [cellRefs, List.map_cons, List.map_nil,
        List.mem_singleton] at hb
      subst hb
      exact hla)
  refine ⟨stepOK_trans n0 _ _ _ (stepOK_trans n0 _ _ _ S1 S2) S3, ?_⟩
  have h1 := S1.2.1
  have h2 := S2.2.1
  show n0 ≤ (alloc (allocNullTypeNodeS st).1
    (.arr [n, (allocNullTypeNodeS st).2])).1.next
  omega

/-- The body of `_make_nullable` on the copied node `n` (dict cell
`fields`): the decision table of the Python source, in order. -/
def mkNullCopyS (fuel : Nat) (st : Store) (n : Nat)
    (fields : List (String × Nat)) : Option (Store × Nat) :=
  if typeIsNullStrS st fields || typeListHasNullS st fields then
    some (st, n)
  else
    match listValueS st fields "anyOf" with
    | some (aa, items) =>
        if hasNullBranchS st items then some (st, n)
        else some (appendNullS st aa items, n)
    | none =>
        match listValueS st fields "oneOf" with
        | some (_, items) =>
            if hasNullBranchS st items then some (st, n)
            else some (mkNullOneOfS st n fields items, n)
        | none =>
            match typeCellS st fields with
            | some (.prim (Json.str t)) => mkNullStrTypeS fuel st fields t
            | some (.arr tItems) => mkNullListTypeS fuel st fields tItems
            | _ => some (mkNullWrapS st n)

/-- Store-level `_make_nullable`: deepcopy first, then the decision
table on the copy. -/
def make_nullableS (fuel : Nat) (st : Store) (a : Nat) :
    Option (Store × Nat) :=
  match fuel with
  | 0 => none
  | fuel+1 =>
      match deepcopy fuel st a with
      | some (st1, n) =>
          match getCell st1 n with
          | some (.obj fields) => mkNullCopyS fuel st1 n fields
          | _ => none
      | none => none

theorem stepOK_refl (n0 : Nat) (st : Store) (hD : domBound st)
    (hR : regionClosed n0 st) : stepOK n0 st st :=
  ⟨frameBelow_refl _ _, le_refl _, hD, hR⟩

theorem mkNullStrTypeS_frame (n0 fuel : Nat) (st : Store)
    (fields : List (String × Nat)) (t : String) (st2 : Store) (r : Nat)
    (h : mkNullStrTypeS fuel st fields t = some (st2, r))
    (hn : n0 ≤ st.next) (hD : domBound st) (hR : regionClosed n0 st) :
    stepOK n0 st st2 ∧ n0 ≤ r := by
  unfold mkNullStrTypeS at h
  rcases hdf : deepcopyFields fuel st fields with _ | ⟨stc, fields2⟩
  · simp only [hdf] at h
    exact Option.noConfusion h
  · simp only [hdf] at h
    have h2 := Option.some.inj h
    injection h2 with ha hb
    subst ha
    subst hb
    obtain ⟨F1, N1, D1, R1, M1⟩ :=
      deepcopyFields_frame n0 fuel st fields stc fields2 hdf hn hD hR
    obtain ⟨S2, G2⟩ := allocAnyOfPairS_stepOK n0 stc t (le_trans hn N1)
      D1 R1
    have S3 := stepOK_alloc n0 (allocAnyOfPairS stc t).1
      (.obj (dictMergeA [("anyOf", (allocAnyOfPairS stc t).2)]
        (popKeyA fields2 "type")))
      (le_trans (le_trans hn N1) S2.2.1) S2.2.2.1 S2.2.2.2 (by
        intro b hb
        rcases mem_snd_dictMergeA _ _ b hb with h3 | h3
        · simp only [List.map_cons, List.map_nil,
            List.mem_singleton] at h3
          subst h3
          exact G2
        · obtain ⟨p, hp1, hp2⟩ := List.mem_map.mp
            (mem_snd_popKeyA fields2 "type" b h3)
          have h4 := (M1 p hp1).1
          omega)
    refine ⟨stepOK_trans n0 _ _ _ (stepOK_trans n0 _ _ _
      ⟨fun b hb => F1 b (lt_of_lt_of_le hb hn), N1, D1, R1⟩ S2) S3, ?_⟩
    have h3 := S2.2.1
    show n0 ≤ (allocAnyOfPairS stc t).1.next
    omega

theorem mkNullListTypeS_frame (n0 fuel : Nat) (st : Store)
    (fields : List (String × Nat)) (tItems : List Nat) (st2 : Store)
    (r : Nat) (h : mkNullListTypeS fuel st fields tItems = some (st2, r))
    (hn : n0 ≤ st.next) (hD : domBound st) (hR : regionClosed n0 st)
    (hts : ∀ b ∈ tItems, n0 ≤ b) :
    stepOK n0 st st2 ∧ n0 ≤ r := by
  unfold mkNullListTypeS at h
  rcases hdf : deepcopyFields fuel st fields with _ | ⟨stc, fields2⟩
  · simp only [hdf] at h
    exact Option.noConfusion h
  · simp only [hdf] at h
    have h2 := Option.some.inj h
    injection h2 with ha hb
    subst ha
    subst hb
    obtain ⟨F1, N1, D1, R1, M1⟩ :=
      deepcopyFields_frame n0 fuel st fields stc fields2 hdf hn hD hR
    have hts2 : ∀ b ∈ tItems, n0 ≤ b := hts
    obtain ⟨S2, G2⟩ := allocWrappedArrS_stepOK n0 stc tItems
      (le_trans hn N1) D1 R1 hts2
    have S3 := stepOK_alloc n0 (allocWrappedArrS stc tItems).1
      (.obj (dictMergeA [("anyOf", (allocWrappedArrS stc tItems).2)]
        (popKeyA fields2 "type")))
      (le_trans (le_trans hn N1) S2.2.1) S2.2.2.1 S2.2.2.2 (by
        intro b hb
        rcases mem_snd_dictMergeA _ _ b hb with h3 | h3
        · simp only [List.map_cons, List.map_nil,
            List.mem_singleton] at h3
          subst h3
          exact G2
        · obtain ⟨p, hp1, hp2⟩ := List.mem_map.mp
            (mem_snd_popKeyA fields2 "type" b h3)
          have h4 := (M1 p hp1).1
          omega)
    refine ⟨stepOK_trans n0 _ _ _ (stepOK_trans n0 _ _ _
      ⟨fun b hb => F1 b (lt_of_lt_of_le hb hn), N1, D1, R1⟩ S2) S3, ?_⟩
    have h3 := S2.2.1
    show n0 ≤ (allocWrappedArrS stc tItems).1.next
    omega

theorem mkNullCopyS_frame (n0 fuel : Nat) (st : Store) (n : Nat)
    (fields : List (String × Nat)) (st2 : Store) (r : Nat)
    (h : mkNullCopyS fuel st n fields = some (st2, r))
    (hn : n0 ≤ st.next) (hD : domBound st) (hR : regionClosed n0 st)
    (hnode : n0 ≤ n) (hg : getCell st n = some (.obj fields)) :
    stepOK n0 st st2 ∧ n0 ≤ r := by
  have hnodeN : n < st.next := hD _ (lookupC_mem _ _ _ hg)
  have hfields : ∀ b ∈ fields.map Prod.snd, n0 ≤ b :=
    hR n (.obj fields) hnode hg
  unfold mkNullCopyS at h
  by_cases h0 : (typeIsNullStrS st fields || typeListHasNullS st fields)
      = true
  · rw [if_pos h0] at h
    have h2 := Option.some.inj h
    injection h2 with ha hb
    subst ha
    subst hb
    exact ⟨stepOK_refl n0 st hD hR, hnode⟩
  · rw [if_neg h0] at h
    rcases hv : listValueS st fields "anyOf" with _ | ⟨aa, items⟩
    · simp only [hv] at h
      rcases hv2 : listValueS st fields "oneOf" with _ | ⟨oa, items⟩
      · simp only [hv2] at h
        rcases ht : typeCellS st fields with _ | c
        · simp only [ht] at h
          have h2 := Option.some.inj h
          injection h2 with ha hb
          subst ha
          subst hb
          obtain ⟨S, G⟩ := mkNullWrapS_stepOK n0 st n hn hD hR hnode
          exact ⟨S, G⟩
        · cases c with
          | prim v =>
              cases v with
              | str t =>
                  simp only [ht] at h
                  exact mkNullStrTypeS_frame n0 fuel st fields t st2 r h
                    hn hD hR
              | null =>
                  simp only [ht] at h
                  have h2 := Option.some.inj h
                  injection h2 with ha hb
                  subst ha
                  subst hb
                  obtain ⟨S, G⟩ := mkNullWrapS_stepOK n0 st n hn hD hR
                    hnode
                  exact ⟨S, G⟩
              | bool b =>
                  simp only [ht] at h
                  have h2 := Option.some.inj h
                  injection h2 with ha hb
                  subst ha
                  subst hb
                  obtain ⟨S, G⟩ := mkNullWrapS_stepOK n0 st n hn hD hR
                    hnode
                  exact ⟨S, G⟩
              | num m =>
                  simp only [ht] at h
                  have h2 := Option.some.inj h
                  injection h2 with ha hb
                  subst ha
                  subst hb
                  obtain ⟨S, G⟩ := mkNullWrapS_stepOK n0 st n hn hD hR
                    hnode
                  exact ⟨S, G⟩
              | obj fs =>
                  simp only [ht] at h
                  have h2 := Option.some.inj h
                  injection h2 with ha hb
                  subst ha
                  subst hb
                  obtain ⟨S, G⟩ := mkNullWrapS_stepOK n0 st n hn hD hR
                    hnode
                  exact ⟨S, G⟩
              | arr xs =>
                  simp only [ht] at h
                  have h2 := Option.some.inj h
                  injection h2 with ha hb
                  subst ha
                  subst hb
                  obtain ⟨S, G⟩ := mkNullWrapS_stepOK n0 st n hn hD hR
                    hnode
                  exact ⟨S, G⟩
          | arr tItems =>
              simp only [ht] at h
              have hta : ∃ ta, lookupA fields "type" = some ta ∧
                  getCell st ta = some (.arr tItems) := by
                unfold typeCellS at ht
                rcases hl : lookupA fields "type" with _ | ta
                · rw [hl] at ht
                  cases ht
                · rw [hl] at ht
                  exact ⟨ta, rfl, ht⟩
              obtain ⟨ta, hta1, hta2⟩ := hta
              have htaG : n0 ≤ ta :=
                hfields ta (mem_snd_of_lookupA fields "type" ta hta1)
              exact mkNullListTypeS_frame n0 fuel st fields tItems st2 r h
                hn hD hR (hR ta (.arr tItems) htaG hta2)
          | obj fs =>
              simp only [ht] at h
              have h2 := Option.some.inj h
              injection h2 with ha hb
              subst ha
              subst hb
              obtain ⟨S, G⟩ := mkNullWrapS_stepOK n0 st n hn hD hR hnode
              exact ⟨S, G⟩
      · simp only [hv2] at h
        have hoa : lookupA fields "oneOf" = some oa ∧
            getCell st oa = some (.arr items) := by
          unfold listValueS at hv2
          rcases hl : lookupA fields "oneOf" with _ | oa2
          · simp only [hl] at hv2
            exact Option.noConfusion hv2
          · simp only [hl] at hv2
            rcases hg2 : getCell st oa2 with _ | c2
            · simp only [hg2] at hv2
              exact Option.noConfusion hv2
            · simp only [hg2] at hv2
              cases c2 with
              | arr items2 =>
                  cases hv2
                  exact ⟨rfl, hg2⟩
              | obj fs => cases hv2
              | prim v => cases hv2
        have hoaG : n0 ≤ oa :=
          hfields oa (mem_snd_of_lookupA fields "oneOf" oa hoa.1)
        have hitems : ∀ b ∈ items, n0 ≤ b :=
          hR oa (.arr items) hoaG hoa.2
        by_cases hnb : hasNullBranchS st items = true
        · rw [if_pos hnb] at h
          have h2 := Option.some.inj h
          injection h2 with ha hb
          subst ha
          subst hb
          exact ⟨stepOK_refl n0 st hD hR, hnode⟩
        · rw [if_neg hnb] at h
          have h2 := Option.some.inj h
          injection h2 with ha hb
          subst ha
          subst hb
          exact ⟨mkNullOneOfS_stepOK n0 st n fields items hn hD hR hnode
            hnodeN hfields hitems, hnode⟩
    · simp only [hv] at h
      have haa : lookupA fields "anyOf" = some aa ∧
          getCell st aa = some (.arr items) := by
        unfold listValueS at hv
        rcases hl : lookupA fields "anyOf" with _ | aa2
        · simp only [hl] at hv
          exact Option.noConfusion hv
        · simp only [hl] at hv
          rcases hg2 : getCell st aa2 with _ | c2
          · simp only [hg2] at hv
            exact Option.noConfusion hv
          · simp only [hg2] at hv
            cases c2 with
            | arr items2 =>
                cases hv
                exact ⟨rfl, hg2⟩
            | obj fs => cases hv
            | prim v => cases hv
      have haaG : n0 ≤ aa :=
        hfields aa (mem_snd_of_lookupA fields "anyOf" aa haa.1)
      have haaN : aa < st.next := hD _ (lookupC_mem _ _ _ haa.2)
      have hitems : ∀ b ∈ items, n0 ≤ b :=
        hR aa (.arr items) haaG haa.2
      by_cases hnb : hasNullBranchS st items = true
      · rw [if_pos hnb] at h
        have h2 := Option.some.inj h
        injection h2 with ha hb
        subst ha
        subst hb
        exact ⟨stepOK_refl n0 st hD hR, hnode⟩
      · rw [if_neg hnb] at h
        have h2 := Option.some.inj h
        injection h2 with ha hb
        subst ha
        subst hb
        obtain ⟨F, N, D, R⟩ := appendNullS_step n0 st aa items hn hD hR
          haaG haaN hitems
        exact ⟨⟨F, N, D, R⟩, hnode⟩

theorem make_nullableS_frame (n0 fuel : Nat) (st : Store) (a : Nat)
    (st2 : Store) (r : Nat) (h : make_nullableS fuel st a = some (st2, r))
    (hn : n0 ≤ st.next) (hD : domBound st) (hR : regionClosed n0 st) :
    stepOK n0 st st2 ∧ n0 ≤ r := by
  match fuel with
  | 0 => exact absurd h (by simp [make_nullableS])
  | fuel+1 =>
      rw [show make_nullableS (fuel+1) st a =
          match deepcopy fuel st a with
          | some (st1, n) =>
              match getCell st1 n with
              | some (.obj fields) => mkNullCopyS fuel st1 n fields
              | _ => none
          | none => none
        from rfl] at h
      rcases hdc : deepcopy fuel st a with _ | ⟨st1, n⟩
      · simp only [hdc] at h
        exact Option.noConfusion h
      · simp only [hdc] at h
        obtain ⟨F1, N1, D1, R1, A1, A2⟩ :=
          deepcopy_frame n0 fuel st a st1 n hdc hn hD hR
        rcases hg : getCell st1 n with _ | c
        · simp only [hg] at h
          exact Option.noConfusion h
        · cases c with
          | obj fields =>
              simp only [hg] at h
              obtain ⟨S2, G2⟩ := mkNullCopyS_frame n0 fuel st1 n fields
                st2 r h (le_trans hn N1) D1 R1 (le_trans hn A1) hg
              exact ⟨stepOK_trans n0 _ _ _
                ⟨fun b hb => F1 b (lt_of_lt_of_le hb hn), N1, D1, R1⟩ S2,
                G2⟩
          | arr items =>
              simp only [hg] at h
              exact Option.noConfusion h
          | prim v =>
              simp only [hg] at h
              exact Option.noConfusion h

/-! ### The store-level `enforce_openai_required_all_properties` walk -/

/-- `set(...)` of a list cell's items: the scalar values, TypeError
(`none`) when a dict or list item appears. -/
def itemsToValsS (st : Store) : List Nat → Option (List Json)
  | [] => some []
  | b :: rest =>
      match getCell st b with
      | some (.prim v) =>
          match itemsToValsS st rest with
          | some vs => some (v :: vs)
          | none => none
      | _ => none

/-- `set(node.get("required") or [])` at store level (read-only). -/
def pyReqSetS (st : Store) (fields : List (String × Nat)) :
    Option (List Json) :=
  match lookupA fields "required" with
  | none => some []
  | some ra =>
      match getCell st ra with
      | some (.prim Json.null) => some []
      | some (.prim (Json.bool b)) => if b then none else some []
      | some (.prim (Json.num m)) => if m = 0 then some [] else none
      | some (.prim (Json.str s2)) =>
          some (s2.toList.map (fun ch => Json.str (String.mk [ch])))
      | some (.prim _) => none
      | some (.obj fs) => some (fs.map (fun p => Json.str p.1))
      | some (.arr items) =>
          if items.isEmpty then some []
          else itemsToValsS st items
      | none => none

mutual

/-- The `walk` of `enforce_openai_required_all_properties` as a store
transformer: the properties loop mutates the `properties` dict cell,
`node["required"] = all_keys` installs a fresh list, then the values of
the mutated node are walked. -/
def walkRAPS : Nat → Store → Nat → Option Store
  | 0, _, _ => none
  | fuel+1, st, a =>
      match getCell st a with
      | some (.obj fields) =>
          if storeIsObjectLike st fields then
            match lookupA fields "properties" with
            | some pa =>
                match getCell st pa with
                | some (.obj pf) =>
                    match pyReqSetS st fields with
                    | some req =>
                        match rapPropsLoopS fuel st pa (pf.map Prod.fst)
                            req with
                        | some st2 =>
                            walkRAPSList fuel
                              (setCell
                                (allocStrList st2 (pf.map Prod.fst)).1 a
                                (.obj (setKeyA fields "required"
                                  (allocStrList st2
                                    (pf.map Prod.fst)).2)))
                              ((setKeyA fields "required"
                                (allocStrList st2
                                  (pf.map Prod.fst)).2).map Prod.snd)
                        | none => none
                    | none => none
                | _ => rapObjElseS fuel st a fields
            | none => rapObjElseS fuel st a fields
          else walkRAPSList fuel st (fields.map Prod.snd)
      | some (.arr items) => walkRAPSList fuel st items
      | some (.prim _) => some st
      | none => none

/-- The `else` arm: ensure a `required` key exists, then walk the
values. -/
def rapObjElseS : Nat → Store → Nat → List (String × Nat) → Option Store
  | 0, _, _, _ => none
  | fuel+1, st, a, fields =>
      if hasKeyA fields "required" then
        walkRAPSList fuel st (fields.map Prod.snd)
      else
        walkRAPSList fuel
          (setCell (alloc st (.arr [])).1 a
            (.obj (setKeyA fields "required" (alloc st (.arr [])).2)))
          ((setKeyA fields "required"
            (alloc st (.arr [])).2).map Prod.snd)

/-- The `for key in all_keys` loop: non-required dict-valued properties
are replaced by `_make_nullable(...)`, writing into the `properties`
dict cell. -/
def rapPropsLoopS :
    Nat → Store → Nat → List String → List Json → Option Store
  | 0, _, _, _, _ => none
  | _+1, st, _, [], _ => some st
  | fuel+1, st, pa, k :: ks, req =>
      if Json.str k ∈ req then rapPropsLoopS fuel st pa ks req
      else
        match getCell st pa with
        | some (.obj pf) =>
            match lookupA pf k with
            | some va =>
                match getCell st va with
                | some (.obj _) =>
                    match make_nullableS fuel st va with
                    | some (st1, na) =>
                        match getCell st1 pa with
                        | some (.obj pf1) =>
                            rapPropsLoopS fuel
                              (setCell st1 pa (.obj (setKeyA pf1 k na)))
                              pa ks req
                        | _ => none
                    | none => none
                | some _ => rapPropsLoopS fuel st pa ks req
                | none => none
            | none => rapPropsLoopS fuel st pa ks req
        | _ => none

def walkRAPSList : Nat → Store → List Nat → Option Store
  | 0, _, _ => none
  | _+1, st, [] => some st
  | fuel+1, st, a :: rest =>
      match walkRAPS fuel st a with
      | some st1 => walkRAPSList fuel st1 rest
      | none => none

end

mutual

/-- Frame property of the required-all walk. -/
theorem walkRAPS_frame (n0 fuel : Nat) (st : Store) (a : Nat)
    (st2 : Store) (h : walkRAPS fuel st a = some st2)
    (hn : n0 ≤ st.next) (hD : domBound st) (hR : regionClosed n0 st)
    (ha : n0 ≤ a) : stepOK n0 st st2 := by
  match fuel with
  | 0 => exact absurd h (by simp [walkRAPS])
  | fuel+1 =>
      rw [show walkRAPS (fuel+1) st a =
          match getCell st a with
          | some (.obj fields) =>
              if storeIsObjectLike st fields then
                match lookupA fields "properties" with
                | some pa =>
                    match getCell st pa with
                    | some (.obj pf) =>
                        match pyReqSetS st fields with
                        | some req =>
                            match rapPropsLoopS fuel st pa
                                (pf.map Prod.fst) req with
                            | some st2 =>
                                walkRAPSList fuel
                                  (setCell
                                    (allocStrList st2
                                      (pf.map Prod.fst)).1 a
                                    (.obj (setKeyA fields "required"
                                      (allocStrList st2
                                        (pf.map Prod.fst)).2)))
                                  ((setKeyA fields "required"
                                    (allocStrList st2
                                      (pf.map Prod.fst)).2).map Prod.snd)
                            | none => none
                        | none => none
                    | _ => rapObjElseS fuel st a fields
                | none => rapObjElseS fuel st a fields
              else walkRAPSList fuel st (fields.map Prod.snd)
          | some (.arr items) => walkRAPSList fuel st items
          | some (.prim _) => some st
          | none => none
        from rfl] at h
      rcases hg : getCell st a with _ | c
      · simp only [hg] at h
        exact Option.noConfusion h
      · cases c with
        | obj fields =>
            simp only [hg] at h
            have haN : a < st.next := hD _ (lookupC_mem _ _ _ hg)
            have hfields : ∀ b ∈ fields.map Prod.snd, n0 ≤ b :=
              hR a (.obj fields) ha hg
            by_cases hio : storeIsObjectLike st fields = true
            · rw [if_pos hio] at h
              rcases hp : lookupA fields "properties" with _ | pa
              · simp only [hp] at h
                exact rapObjElseS_frame n0 fuel st a fields st2 h hn hD
                  hR ha hg
              · simp only [hp] at h
                have hpaG : n0 ≤ pa :=
                  hfields pa (mem_snd_of_lookupA fields "properties" pa hp)
                rcases hgp : getCell st pa with _ | cp
                · simp only [hgp] at h
                  exact rapObjElseS_frame n0 fuel st a fields st2 h hn hD
                    hR ha hg
                · cases cp with
                  | obj pf =>
                      simp only [hgp] at h
                      rcases hrq : pyReqSetS st fields with _ | req
                      · simp only [hrq] at h
                        exact Option.noConfusion h
                      · simp only [hrq] at h
                        rcases hlp : rapPropsLoopS fuel st pa
                            (pf.map Prod.fst) req with _ | st3
                        · simp only [hlp] at h
                          exact Option.noConfusion h
                        · simp only [hlp] at h
                          have S1 := rapPropsLoopS_frame n0 fuel st pa
                            (pf.map Prod.fst) req st3 hlp hn hD hR hpaG
                          obtain ⟨F2, N2, D2, R2, G2⟩ :=
                            allocStrList_step n0 st3 (pf.map Prod.fst)
                              (le_trans hn S1.2.1) S1.2.2.1 S1.2.2.2
                          have hrefs : ∀ b ∈ cellRefs
                              (HCell.obj (setKeyA fields "required"
                                (allocStrList st3 (pf.map Prod.fst)).2)),
                              n0 ≤ b := by
                            intro b hb
                            rcases mem_snd_setKeyA _ _ _ b hb with h3 | h3
                            · exact hfields b h3
                            · subst h3
                              exact G2
                          have S3 := stepOK_setCell n0
                            (allocStrList st3 (pf.map Prod.fst)).1 a
                            (.obj (setKeyA fields "required"
                              (allocStrList st3 (pf.map Prod.fst)).2))
                            D2 R2 ha (by
                              have h4 := S1.2.1
                              omega) hrefs
                          have S4 := walkRAPSList_frame n0 fuel _
                            ((setKeyA fields "required"
                              (allocStrList st3
                                (pf.map Prod.fst)).2).map Prod.snd)
                            st2 h (by
                              have h4 := S1.2.1
                              have h5 := N2
                              show n0 ≤ (setCell
                                (allocStrList st3 (pf.map Prod.fst)).1 a
                                (.obj (setKeyA fields "required"
                                  (allocStrList st3
                                    (pf.map Prod.fst)).2))).next
                              show n0 ≤ (allocStrList st3
                                (pf.map Prod.fst)).1.next
                              omega)
                            S3.2.2.1 S3.2.2.2 hrefs
                          exact stepOK_trans n0 _ _ _
                            (stepOK_trans n0 _ _ _
                              (stepOK_trans n0 _ _ _ S1
                                ⟨F2, N2, D2, R2⟩) S3) S4
                  | arr items =>
                      simp only [hgp] at h
                      exact rapObjElseS_frame n0 fuel st a fields st2 h
                        hn hD hR ha hg
                  | prim v =>
                      simp only [hgp] at h
                      exact rapObjElseS_frame n0 fuel st a fields st2 h
                        hn hD hR ha hg
            · rw [if_neg hio] at h
              exact walkRAPSList_frame n0 fuel st (fields.map Prod.snd)
                st2 h hn hD hR hfields
        | arr items =>
            simp only [hg] at h
            exact walkRAPSList_frame n0 fuel st items st2 h hn hD hR
              (hR a (.arr items) ha hg)
        | prim v =>
            simp only [hg] at h
            cases h
            exact stepOK_refl n0 st hD hR

theorem rapObjElseS_frame (n0 fuel : Nat) (st : Store) (a : Nat)
    (fields : List (String × Nat)) (st2 : Store)
    (h : rapObjElseS fuel st a fields = some st2)
    (hn : n0 ≤ st.next) (hD : domBound st) (hR : regionClosed n0 st)
    (ha : n0 ≤ a) (hg : getCell st a = some (.obj fields)) :
    stepOK n0 st st2 := by
  match fuel with
  | 0 => exact absurd h (by simp [rapObjElseS])
  | fuel+1 =>
      rw [show rapObjElseS (fuel+1) st a fields =
          (if hasKeyA fields "required" then
            walkRAPSList fuel st (fields.map Prod.snd)
          else
            walkRAPSList fuel
              (setCell (alloc st (.arr [])).1 a
                (.obj (setKeyA fields "required" (alloc st (.arr [])).2)))
              ((setKeyA fields "required"
                (alloc st (.arr [])).2).map Prod.snd))
        from rfl] at h
      have haN : a < st.next := hD _ (lookupC_mem _ _ _ hg)
      have hfields : ∀ b ∈ fields.map Prod.snd, n0 ≤ b :=
        hR a (.obj fields) ha hg
      by_cases hk : hasKeyA fields "required" = true
      · rw [if_pos hk] at h
        exact walkRAPSList_frame n0 fuel st (fields.map Prod.snd) st2 h
          hn hD hR hfields
      · rw [if_neg hk] at h
        have AS := alloc_step n0 st (.arr []) hD hR (by simp [cellRefs])
        have hrefs : ∀ b ∈ cellRefs
            (HCell.obj (setKeyA fields "required"
              (alloc st (.arr [])).2)), n0 ≤ b := by
          intro b hb
          rcases mem_snd_setKeyA _ _ _ b hb with h3 | h3
          · exact hfields b h3
          · subst h3
            exact le_trans hn AS.2.2.2.2.1
        have S2 := stepOK_setCell n0 (alloc st (.arr [])).1 a
          (.obj (setKeyA fields "required" (alloc st (.arr [])).2))
          AS.2.2.1 AS.2.2.2.1 ha (by
            have h4 := AS.2.1
            omega) hrefs
        have S3 := walkRAPSList_frame n0 fuel _
          ((setKeyA fields "required"
            (alloc st (.arr [])).2).map Prod.snd) st2 h (by
            have h4 := AS.2.1
            show n0 ≤ (alloc st (.arr [])).1.next
            omega) S2.2.2.1 S2.2.2.2 hrefs
        have S1 : stepOK n0 st (alloc st (.arr [])).1 :=
          ⟨fun b hb => AS.1 b (lt_of_lt_of_le hb hn), AS.2.1, AS.2.2.1,
           AS.2.2.2.1⟩
        exact stepOK_trans n0 _ _ _ (stepOK_trans n0 _ _ _ S1 S2) S3

theorem rapPropsLoopS_frame (n0 fuel : Nat) (st : Store) (pa : Nat)
    (ks : List String) (req : List Json) (st2 : Store)
    (h : rapPropsLoopS fuel st pa ks req = some st2)
    (hn : n0 ≤ st.next) (hD : domBound st) (hR : regionClosed n0 st)
    (hpa : n0 ≤ pa) : stepOK n0 st st2 := by
  match fuel with
  | 0 => exact absurd h (by simp [rapPropsLoopS])
  | fuel+1 =>
      match ks with
      | [] =>
          cases h
          exact stepOK_refl n0 st hD hR
      | k :: ks =>
          rw [show rapPropsLoopS (fuel+1) st pa (k :: ks) req =
              (if Json.str k ∈ req then rapPropsLoopS fuel st pa ks req
              else
                match getCell st pa with
                | some (.obj pf) =>
                    match lookupA pf k with
                    | some va =>
                        match getCell st va with
                        | some (.obj _) =>
                            match make_nullableS fuel st va with
                            | some (st1, na) =>
                                match getCell st1 pa with
                                | some (.obj pf1) =>
                                    rapPropsLoopS fuel
                                      (setCell st1 pa
                                        (.obj (setKeyA pf1 k na)))
                                      pa ks req
                                | _ => none
                            | none => none
                        | some _ => rapPropsLoopS fuel st pa ks req
                        | none => none
                    | none => rapPropsLoopS fuel st pa ks req
                | _ => none)
            from rfl] at h
          by_cases hreq : Json.str k ∈ req
          · rw [if_pos hreq] at h
            exact rapPropsLoopS_frame n0 fuel st pa ks req st2 h hn hD
              hR hpa
          · rw [if_neg hreq] at h
            rcases hgp : getCell st pa with _ | cp
            · simp only [hgp] at h
              exact Option.noConfusion h
            · cases cp with
              | obj pf =>
                  simp only [hgp] at h
                  have hpaN : pa < st.next :=
                    hD _ (lookupC_mem _ _ _ hgp)
                  have hpf : ∀ b ∈ pf.map Prod.snd, n0 ≤ b :=
                    hR pa (.obj pf) hpa hgp
                  rcases hlk : lookupA pf k with _ | va
                  · simp only [hlk] at h
                    exact rapPropsLoopS_frame n0 fuel st pa ks req st2 h
                      hn hD hR hpa
                  · simp only [hlk] at h
                    have hvaG : n0 ≤ va :=
                      hpf va (mem_snd_of_lookupA pf k va hlk)
                    rcases hgv : getCell st va with _ | cv
                    · simp only [hgv] at h
                      exact Option.noConfusion h
                    · cases cv with
                      | obj vf =>
                          simp only [hgv] at h
                          rcases hmn : make_nullableS fuel st va
                              with _ | ⟨st1, na⟩
                          · simp only [hmn] at h
                            exact Option.noConfusion h
                          · simp only [hmn] at h
                            obtain ⟨S1, G1⟩ := make_nullableS_frame n0
                              fuel st va st1 na hmn hn hD hR
                            rcases hgp1 : getCell st1 pa with _ | cp1
                            · simp only [hgp1] at h
                              exact Option.noConfusion h
                            · cases cp1 with
                              | obj pf1 =>
                                  simp only [hgp1] at h
                                  have hpf1 : ∀ b ∈ pf1.map Prod.snd,
                                      n0 ≤ b :=
                                    S1.2.2.2 pa (.obj pf1) hpa hgp1
                                  have hrefs : ∀ b ∈ cellRefs
                                      (HCell.obj (setKeyA pf1 k na)),
                                      n0 ≤ b := by
                                    intro b hb
                                    rcases mem_snd_setKeyA _ _ _ b hb
                                      with h3 | h3
                                    · exact hpf1 b h3
                                    · subst h3
                                      exact G1
                                  have S2 := stepOK_setCell n0 st1 pa
                                    (.obj (setKeyA pf1 k na)) S1.2.2.1
                                    S1.2.2.2 hpa (by
                                      have h4 := S1.2.1
                                      omega) hrefs
                                  have S3 := rapPropsLoopS_frame n0 fuel
                                    (setCell st1 pa
                                      (.obj (setKeyA pf1 k na)))
                                    pa ks req st2 h (by
                                      have h4 := S1.2.1
                                      show n0 ≤ st1.next
                                      omega) S2.2.2.1 S2.2.2.2 hpa
                                  exact stepOK_trans n0 _ _ _
                                    (stepOK_trans n0 _ _ _ S1 S2) S3
                              | arr xs =>
                                  simp only [hgp1] at h
                                  exact Option.noConfusion h
                              | prim v =>
                                  simp only [hgp1] at h
                                  exact Option.noConfusion h
                      | arr xs =>
                          simp only [hgv] at h
                          exact rapPropsLoopS_frame n0 fuel st pa ks req
                            st2 h hn hD hR hpa
                      | prim v =>
                          simp only [hgv] at h
                          exact rapPropsLoopS_frame n0 fuel st pa ks req
                            st2 h hn hD hR hpa
              | arr xs =>
                  simp only [hgp] at h
                  exact Option.noConfusion h
              | prim v =>
                  simp only [hgp] at h
                  exact Option.noConfusion h

theorem walkRAPSList_frame (n0 fuel : Nat) (st : Store) (l : List Nat)
    (st2 : Store) (h : walkRAPSList fuel st l = some st2)
    (hn : n0 ≤ st.next) (hD : domBound st) (hR : regionClosed n0 st)
    (hl : ∀ b ∈ l, n0 ≤ b) : stepOK n0 st st2 := by
  match fuel with
  | 0 => exact absurd h (by simp [walkRAPSList])
  | fuel+1 =>
      match l with
      | [] =>
          cases h
          exact stepOK_refl n0 st hD hR
      | a :: rest =>
          rw [show walkRAPSList (fuel+1) st (a :: rest) =
              match walkRAPS fuel st a with
              | some st1 => walkRAPSList fuel st1 rest
              | none => none
            from rfl] at h
          rcases hw : walkRAPS fuel st a with _ | st1
          · simp only [hw] at h
            exact Option.noConfusion h
          · simp only [hw] at h
            have S1 := walkRAPS_frame n0 fuel st a st1 hw hn hD hR
              (hl a (by simp))
            have S2 := walkRAPSList_frame n0 fuel st1 rest st2 h
              (le_trans hn S1.2.1) S1.2.2.1 S1.2.2.2
              (fun b hb => hl b (List.mem_cons_of_mem _ hb))
            exact stepOK_trans n0 _ _ _ S1 S2

end

/-- Store-level `enforce_openai_required_all_properties`: deepcopy,
then the in-place walk on the copy. -/
def enforce_openai_required_all_properties_store (fuel : Nat)
    (st : Store) (a : Nat) : Option (Store × Nat) :=
  match deepcopy fuel st a with
  | some (st1, n) =>
      match walkRAPS fuel st1 n with
      | some st2 => some (st2, n)
      | none => none
  | none => none

theorem enforce_openai_required_all_properties_store_frame (fuel : Nat)
    (st : Store) (a : Nat) (st2 : Store) (a2 : Nat) (hD : domBound st)
    (h : enforce_openai_required_all_properties_store fuel st a =
      some (st2, a2)) :
    frameBelow st.next st st2 ∧ st.next ≤ st2.next ∧ domBound st2 ∧
    regionClosed st.next st2 ∧ st.next ≤ a2 := by
  unfold enforce_openai_required_all_properties_store at h
  rcases hdc : deepcopy fuel st a with _ | ⟨st1, n⟩
  · simp only [hdc] at h
    exact Option.noConfusion h
  · simp only [hdc] at h
    rcases hw : walkRAPS fuel st1 n with _ | st3
    · simp only [hw] at h
      exact Option.noConfusion h
    · simp only [hw] at h
      have h2 := Option.some.inj h
      injection h2 with ha hb
      subst ha
      subst hb
      obtain ⟨F1, N1, D1, R1, A1, A2⟩ :=
        deepcopy_frame st.next fuel st a st1 n hdc (le_refl _) hD
          (fun x c hx hget => absurd (hD _ (lookupC_mem _ _ _ hget))
            (by omega))
      obtain ⟨F2, N2, D2, R2⟩ :=
        walkRAPS_frame st.next fuel st1 n st3 hw N1 D1 R1 A1
      exact ⟨frameBelow_trans _ _ _ _ F1 F2, le_trans N1 N2, D2, R2, A1⟩

/-- Store-level `openai_response_schema` on an already-generated
schema: closed objects, required-all, strip `default`/`title`. -/
def openai_response_schema_store (fuel : Nat) (st : Store) (a : Nat) :
    Option (Store × Nat) :=
  match enforce_closed_objects_store fuel st a with
  | some (st1, a1) =>
      match enforce_openai_required_all_properties_store fuel st1 a1 with
      | some (st2, a2) =>
          strip_schema_keywords_store fuel ["default", "title"] st2 a2
      | none => none
  | none => none

/-- Store-level `anthropic_response_schema`. -/
def anthropic_response_schema_store (fuel : Nat) (st : Store) (a : Nat) :
    Option (Store × Nat) :=
  match enforce_closed_objects_store fuel st a with
  | some (st1, a1) =>
      strip_schema_keywords_store fuel ANTHROPIC_UNSUPPORTED_SCHEMA_KEYS
        st1 a1
  | none => none

/-- Store-level `perplexity_response_schema`. -/
def perplexity_response_schema_store (fuel : Nat) (st : Store) (a : Nat) :
    Option (Store × Nat) :=
  enforce_closed_objects_store fuel st a

theorem openai_response_schema_store_frame (fuel : Nat) (st : Store)
    (a : Nat) (st2 : Store) (a2 : Nat) (hD : domBound st)
    (h : openai_response_schema_store fuel st a = some (st2, a2)) :
    frameBelow st.next st st2 ∧ domBound st2 := by
  unfold openai_response_schema_store at h
  rcases h1 : enforce_closed_objects_store fuel st a with _ | ⟨stA, aA⟩
  · simp only [h1] at h
    exact Option.noConfusion h
  · simp only [h1] at h
    rcases h2 : enforce_openai_required_all_properties_store fuel stA aA
        with _ | ⟨stB, aB⟩
    · simp only [h2] at h
      exact Option.noConfusion h
    · simp only [h2] at h
      obtain ⟨F1, N1, D1, R1, A1⟩ :=
        enforce_closed_objects_store_frame fuel st a stA aA hD h1
      obtain ⟨F2, N2, D2, R2, A2⟩ :=
        enforce_openai_required_all_properties_store_frame fuel stA aA
          stB aB D1 h2
      obtain ⟨F3, N3, D3, R3, A3⟩ :=
        strip_schema_keywords_store_frame fuel ["default", "title"] stB
          aB st2 a2 D2 h
      refine ⟨?_, D3⟩
      intro b hb
      rw [F3 b (by omega), F2 b (by omega), F1 b hb]

theorem anthropic_response_schema_store_frame (fuel : Nat) (st : Store)
    (a : Nat) (st2 : Store) (a2 : Nat) (hD : domBound st)
    (h : anthropic_response_schema_store fuel st a = some (st2, a2)) :
    frameBelow st.next st st2 ∧ domBound st2 := by
  unfold anthropic_response_schema_store at h
  rcases h1 : enforce_closed_objects_store fuel st a with _ | ⟨stA, aA⟩
  · simp only [h1] at h
    exact Option.noConfusion h
  · simp only [h1] at h
    obtain ⟨F1, N1, D1, R1, A1⟩ :=
      enforce_closed_objects_store_frame fuel st a stA aA hD h1
    obtain ⟨F3, N3, D3, R3, A3⟩ :=
      strip_schema_keywords_store_frame fuel
        ANTHROPIC_UNSUPPORTED_SCHEMA_KEYS stA aA st2 a2 D1 h
    refine ⟨?_, D3⟩
    intro b hb
    rw [F3 b (by omega), F1 b hb]

/-- CLAIM C6.  Frame property of every schema transform in the heap
model: for every store (with addresses below the allocation counter),
every root and every fuel, a successful run of any of the three
primitives or the three provider builders leaves every pre-existing
address with exactly the cell it held before — the input schema `S`
compares equal before and after, because every transform works on a
fresh deep copy and writes only to copy and freshly allocated cells. -/
theorem schema_transforms_never_mutate_claim :
    (∀ (fuel : Nat) (st : Store) (a : Nat) (st2 : Store) (a2 : Nat),
      domBound st →
      enforce_closed_objects_store fuel st a = some (st2, a2) →
      ∀ b, b < st.next → getCell st2 b = getCell st b) ∧
    (∀ (fuel : Nat) (keys : List String) (st : Store) (a : Nat)
        (st2 : Store) (a2 : Nat), domBound st →
      strip_schema_keywords_store fuel keys st a = some (st2, a2) →
      ∀ b, b < st.next → getCell st2 b = getCell st b) ∧
    (∀ (fuel : Nat) (st : Store) (a : Nat) (st2 : Store) (a2 : Nat),
      domBound st →
      enforce_openai_required_all_properties_store fuel st a =
        some (st2, a2) →
      ∀ b, b < st.next → getCell st2 b = getCell st b) ∧
    (∀ (fuel : Nat) (st : Store) (a : Nat) (st2 : Store) (a2 : Nat),
      domBound st →
      openai_response_schema_store fuel st a = some (st2, a2) →
      ∀ b, b < st.next → getCell st2 b = getCell st b) ∧
    (∀ (fuel : Nat) (st : Store) (a : Nat) (st2 : Store) (a2 : Nat),
      domBound st →
      anthropic_response_schema_store fuel st a = some (st2, a2) →
      ∀ b, b < st.next → getCell st2 b = getCell st b) ∧
    (∀ (fuel : Nat) (st : Store) (a : Nat) (st2 : Store) (a2 : Nat),
      domBound st →
      perplexity_response_schema_store fuel st a = some (st2, a2) →
      ∀ b, b < st.next → getCell st2 b = getCell st b) := by
  refine ⟨?_, ?_, ?_, ?_, ?_, ?_⟩
  · intro fuel st a st2 a2 hD h
    exact (enforce_closed_objects_store_frame fuel st a st2 a2 hD h).1
  · intro fuel keys st a st2 a2 hD h
    exact (strip_schema_keywords_store_frame fuel keys st a st2 a2
      hD h).1
  · intro fuel st a st2 a2 hD h
    exact (enforce_openai_required_all_properties_store_frame fuel st a
      st2 a2 hD h).1
  · intro fuel st a st2 a2 hD h
    exact (openai_response_schema_store_frame fuel st a st2 a2 hD h).1
  · intro fuel st a st2 a2 hD h
    exact (anthropic_response_schema_store_frame fuel st a st2 a2 hD h).1
  · intro fuel st a st2 a2 hD h
    exact (enforce_closed_objects_store_frame fuel st a st2 a2 hD h).1

end Simpleai
